import Mathlib

/-! # zip++ 1.0.0: the container writer, the readers and the argument parser

A shallow embedding of `zip++.cpp`.  Bytes are `Fin 256`, `std::string` and
`std::vector<char>` are lists of bytes, the fixed-width unsigned fields are natural
numbers reduced modulo `2 ^ 16` or `2 ^ 32` where the program narrows them, and the
packed records are written the way the program writes them: the object
representation of the struct, fields in declaration order without padding
(`#pragma pack(push, 1)`), on a little-endian host.

What the program does to the outside is returned as a value: the lines it prints,
the streams it opens, the bytes it puts into them and the exception that ends it.
Parameters of the model:

* the file system and the buffering of the file streams (`Env`): which paths open
  for reading, with which content, which open for writing, which paths name one
  file, which directories can be created;
* the calls into zlib and liblzma (`Codec`), including their failures;
* the content of objects declared without an initialiser (`Indeterminate`), which
  the readers use when a `read` comes up short.

The program reads files that it writes in the same run.  `create_zip_store` has
created or truncated the archive when it opens its inputs, so an input that names
the archive file delivers what has reached that file by then.  `extract_zip` opens
the archive anew in every pass, so a pass whose output file is the archive itself
changes what the later passes read.  Both are part of the model.  Writes to an open
stream succeed and memory allocation succeeds.

Input streams follow `std::istream`: a short `read` delivers what is left and sets
`failbit`, and a stream with `failbit` set ignores every later `read` and `seekg`.
-/

set_option autoImplicit false
set_option maxRecDepth 8192

namespace ZipPP

/-! ## Bytes and fixed-width fields -/

abbrev Byte := Fin 256

abbrev Bytes := List Byte

/-- Object representation of an unsigned integer of `w` bytes holding `v` on a
little-endian host: the low byte first; the value is reduced modulo `256 ^ w`. -/
def le : Nat → Nat → Bytes
  | 0, _ => []
  | w + 1, v => ⟨v % 256, Nat.mod_lt _ (by decide)⟩ :: le w (v / 256)

/-- Value of an unsigned integer whose object representation is the given bytes
(little-endian host). -/
def fromLE : Bytes → Nat
  | [] => 0
  | b :: bs => b.val + 256 * fromLE bs

/-- Value of the field of `w` bytes at byte offset `off` of a record buffer. -/
def field (buf : Bytes) (off w : Nat) : Nat :=
  fromLE ((buf.drop off).take w)

/-- Bytes of a buffer after `got` was stored at its start: the rest keeps what the
buffer held before. -/
def overlay (init got : Bytes) : Bytes :=
  got ++ init.drop got.length

/-- The archive prefix `"ZIP1"`. -/
def ZIP1 : Bytes := [90, 73, 80, 49]

/-- The path separator `"/"`. -/
def slash : Bytes := [47]

/-! ## The three packed records (source lines 18-63) -/

structure LocalFileHeader where
  signature : Nat := 0x04034b50
  version : Nat := 20
  flags : Nat := 0
  compression : Nat := 0
  modTime : Nat := 0
  modDate : Nat := 0
  crc32 : Nat := 0
  compressedSize : Nat := 0
  uncompressedSize : Nat := 0
  filenameLength : Nat
  extraFieldLength : Nat := 0
deriving DecidableEq

structure CentralDirectoryHeader where
  signature : Nat := 0x02014b50
  versionMadeBy : Nat := 20
  versionNeeded : Nat := 20
  flags : Nat := 0
  compression : Nat := 0
  modTime : Nat := 0
  modDate : Nat := 0
  crc32 : Nat := 0
  compressedSize : Nat := 0
  uncompressedSize : Nat := 0
  filenameLength : Nat
  extraFieldLength : Nat := 0
  fileCommentLength : Nat := 0
  diskNumber : Nat := 0
  internalAttr : Nat := 0
  externalAttr : Nat := 0
  localHeaderOffset : Nat
deriving DecidableEq

structure EndOfCentralDirectory where
  signature : Nat := 0x06054b50
  diskNumber : Nat := 0
  startDisk : Nat := 0
  entriesThisDisk : Nat
  entriesTotal : Nat
  cdSize : Nat
  cdOffset : Nat
  commentLength : Nat := 0
deriving DecidableEq

/-- The `sizeof(lfh)` bytes that `out.write((char*)&lfh, sizeof(lfh))` emits. -/
def LocalFileHeader.bytes (h : LocalFileHeader) : Bytes :=
  le 4 h.signature ++ le 2 h.version ++ le 2 h.flags ++ le 2 h.compression ++
  le 2 h.modTime ++ le 2 h.modDate ++ le 4 h.crc32 ++ le 4 h.compressedSize ++
  le 4 h.uncompressedSize ++ le 2 h.filenameLength ++ le 2 h.extraFieldLength

/-- The `sizeof(cdh)` bytes that `out.write((char*)&central[i], sizeof(central[i]))`
emits. -/
def CentralDirectoryHeader.bytes (h : CentralDirectoryHeader) : Bytes :=
  le 4 h.signature ++ le 2 h.versionMadeBy ++ le 2 h.versionNeeded ++ le 2 h.flags ++
  le 2 h.compression ++ le 2 h.modTime ++ le 2 h.modDate ++ le 4 h.crc32 ++
  le 4 h.compressedSize ++ le 4 h.uncompressedSize ++ le 2 h.filenameLength ++
  le 2 h.extraFieldLength ++ le 2 h.fileCommentLength ++ le 2 h.diskNumber ++
  le 2 h.internalAttr ++ le 4 h.externalAttr ++ le 4 h.localHeaderOffset

/-- The `sizeof(eocd)` bytes that `out.write((char*)&eocd, sizeof(eocd))` emits. -/
def EndOfCentralDirectory.bytes (h : EndOfCentralDirectory) : Bytes :=
  le 4 h.signature ++ le 2 h.diskNumber ++ le 2 h.startDisk ++ le 2 h.entriesThisDisk ++
  le 2 h.entriesTotal ++ le 4 h.cdSize ++ le 4 h.cdOffset ++ le 2 h.commentLength

/-- The struct whose object representation is the buffer `b`, as seen after
`in2.read((char*)&lfh, sizeof(lfh))`. -/
def LocalFileHeader.ofBytes (b : Bytes) : LocalFileHeader :=
  { signature := field b 0 4, version := field b 4 2, flags := field b 6 2,
    compression := field b 8 2, modTime := field b 10 2, modDate := field b 12 2,
    crc32 := field b 14 4, compressedSize := field b 18 4,
    uncompressedSize := field b 22 4, filenameLength := field b 26 2,
    extraFieldLength := field b 28 2 }

/-- The struct whose object representation is the buffer `b`, as seen after
`in.read((char*)&cdh, sizeof(cdh))`. -/
def CentralDirectoryHeader.ofBytes (b : Bytes) : CentralDirectoryHeader :=
  { signature := field b 0 4, versionMadeBy := field b 4 2, versionNeeded := field b 6 2,
    flags := field b 8 2, compression := field b 10 2, modTime := field b 12 2,
    modDate := field b 14 2, crc32 := field b 16 4, compressedSize := field b 20 4,
    uncompressedSize := field b 24 4, filenameLength := field b 28 2,
    extraFieldLength := field b 30 2, fileCommentLength := field b 32 2,
    diskNumber := field b 34 2, internalAttr := field b 36 2,
    externalAttr := field b 38 4, localHeaderOffset := field b 42 4 }

/-- The struct whose object representation is the buffer `b`, as seen after
`in.read((char*)&eocd, sizeof(eocd))`. -/
def EndOfCentralDirectory.ofBytes (b : Bytes) : EndOfCentralDirectory :=
  { signature := field b 0 4, diskNumber := field b 4 2, startDisk := field b 6 2,
    entriesThisDisk := field b 8 2, entriesTotal := field b 10 2,
    cdSize := field b 12 4, cdOffset := field b 16 4, commentLength := field b 20 2 }

/-! ## Checksum (source lines 66-70) -/

/-- The loop `for(char c : data) crc += (unsigned char)c;` on a `uint32_t`
accumulator starting at `crc`. -/
def crc_loop : Bytes → Nat → Nat
  | [], crc => crc
  | c :: rest, crc => crc_loop rest ((crc + c.val) % 2 ^ 32)

def simple_crc32 (data : Bytes) : Nat :=
  crc_loop data 0

/-! ## Collaborators -/

/-- Process-wide flags (source lines 13-15). -/
structure Flags where
  verbose : Bool := false
  use_zlib : Bool := false
  use_lzma : Bool := false
deriving DecidableEq

/-- The calls into zlib and liblzma.
* `compress2 input`: the bytes zlib's `compress2` leaves in a buffer of
  `compressBound` bytes, `none` when it does not return `Z_OK`;
* `lzma_encode input`: the bytes the `lzma_easy_encoder` / `lzma_code(LZMA_FINISH)`
  loop of `compress_lzma` collects until `LZMA_STREAM_END`, `none` when one of its
  two error checks fires;
* `uncompress src cap`: whether zlib's `uncompress` into a buffer of `cap` bytes
  returned `Z_OK`, and the bytes it stored at the start of that buffer;
* `lzma_decode src cap`: `none` when `lzma_stream_decoder` does not return `LZMA_OK`,
  otherwise whether the single `lzma_code(LZMA_FINISH)` call returned
  `LZMA_STREAM_END`, and the bytes it stored at the start of the buffer. -/
structure Codec where
  compress2 : Bytes → Option Bytes
  lzma_encode : Bytes → Option Bytes
  uncompress : Bytes → Nat → Bool × Bytes
  lzma_decode : Bytes → Nat → Option (Bool × Bytes)

/-- The file system and the file streams as the program meets them.
* `readable p`: the content an `std::ifstream` opened on `p` delivers as long as the
  program has not written to that file (`none` when it cannot be opened);
* `creatable p`: whether an `std::ofstream` constructed on `p` opens; it then creates
  the file or truncates it;
* `linked p q`: whether the two paths, although different, name one file;
* `reopens p`: whether an `std::ifstream` on `p` opens when `p` names the archive
  file while `create_zip_store` has it open for writing;
* `flushed out`: how many of the bytes `out` put into the archive stream have reached
  the file by then (the others are in the buffer of the stream);
* `directory p`: whether `fs::create_directories(p)` returns for a path `p` that is
  not empty (it throws otherwise, and it throws on the empty path);
* `kept data pos`: when the file of an open input stream that holds `data` and
  stands at `pos` is overwritten, how many of its leading bytes the stream goes on
  delivering as they were (what it has in its buffer); past them it delivers the
  new content. -/
structure Env where
  readable : Bytes → Option Bytes
  creatable : Bytes → Bool
  linked : Bytes → Bytes → Bool := fun _ _ => false
  reopens : Bytes → Bool := fun _ => true
  flushed : Bytes → Nat := fun _ => 0
  directory : Bytes → Bool := fun _ => true
  kept : Bytes → Nat → Nat := fun _ pos => pos

/-- Whether two paths name one file. -/
def Env.same (env : Env) (p q : Bytes) : Bool :=
  decide (p = q) || env.linked p q

/-- What an `std::ifstream` constructed on `p` delivers in the loop of
`create_zip_store`, the archive stream opened on `archive` having been given the
bytes `out` so far: for the archive file itself the bytes that have reached it, for
any other file its content. -/
def Env.input (env : Env) (archive out p : Bytes) : Option Bytes :=
  if env.same p archive then
    if env.reopens p then some (out.take (env.flushed out)) else none
  else env.readable p

/-- Whether an `std::ifstream` constructed on `p` opens in the loop of
`create_zip_store`. -/
def Env.opens (env : Env) (archive p : Bytes) : Bool :=
  if env.same p archive then env.reopens p else (env.readable p).isSome

/-- Whether the call `fs::create_directories(p)` returns. -/
def Env.makes_dir (env : Env) (p : Bytes) : Bool :=
  decide (p ≠ []) && env.directory p

/-- Lines written to `std::cerr`. -/
inductive Diag where
  /-- Message `"Cannot use both -z and -l\n"`. -/
  | bothCodecs
  /-- Message `"Cannot create archive\n"`. -/
  | cannotCreate
  /-- Message `"File not found: " << file << "\n"`. -/
  | fileNotFound (file : Bytes)
  /-- Message `"Cannot open archive\n"`. -/
  | cannotOpen
  /-- Message `"Unknown archive\n"`. -/
  | unknownArchive
  /-- Message `"Zlib decompression failed\n"`. -/
  | zlibFailed
  /-- Message `"LZMA init failed\n"`. -/
  | lzmaInitFailed
  /-- Message `"LZMA decode failed\n"`. -/
  | lzmaDecodeFailed
deriving DecidableEq

/-- Exceptions thrown by the two compression wrappers; nothing catches them. -/
inductive Thrown where
  /-- Exception `std::runtime_error("Zlib compression failed")`. -/
  | zlibCompression
  /-- Exception `std::runtime_error("LZMA init failed")` or
  `std::runtime_error("LZMA compression failed")`. -/
  | lzmaCompression
deriving DecidableEq

/-- Source lines 73-80. -/
def compress_zlib (c : Codec) (input : Bytes) : Except Thrown Bytes :=
  match c.compress2 input with
  | some out => .ok out
  | none => .error .zlibCompression

/-- Source lines 83-108. -/
def compress_lzma (c : Codec) (input : Bytes) : Except Thrown Bytes :=
  match c.lzma_encode input with
  | some out => .ok out
  | none => .error .lzmaCompression

/-! ## The writer (source lines 112-169) -/

/-- What the writer holds while it walks the input list: the bytes put into `out`,
the vectors `central` and `filenames`, and what went to `std::cerr`, to `std::cout`
and which inputs an `std::ifstream` was constructed on. -/
structure Writer where
  out : Bytes
  central : List CentralDirectoryHeader
  filenames : List Bytes
  cerr : List Diag
  cout : List Bytes
  opened : List Bytes
  thrown : Option Thrown

/-- Lines 130-134: the payload and the method code for the selected compression. -/
def select_outdata (g : Flags) (c : Codec) (data : Bytes) : Except Thrown (Bytes × Nat) :=
  if g.use_zlib then
    match compress_zlib c data with
    | .ok outdata => .ok (outdata, 8)
    | .error e => .error e
  else if g.use_lzma then
    match compress_lzma c data with
    | .ok outdata => .ok (outdata, 14)
    | .error e => .error e
  else .ok (data, 0)

/-- One pass of the loop body, lines 123-153, for an input that opened. -/
def write_entry (file data outdata : Bytes) (method : Nat) (w : Writer) : Writer :=
  let lfh : LocalFileHeader :=
    { filenameLength := file.length % 2 ^ 16,
      compression := method,
      uncompressedSize := data.length % 2 ^ 32,
      compressedSize := outdata.length % 2 ^ 32,
      crc32 := simple_crc32 data }
  let offset := w.out.length % 2 ^ 32
  let cdh : CentralDirectoryHeader :=
    { crc32 := lfh.crc32,
      compressedSize := lfh.compressedSize,
      uncompressedSize := lfh.uncompressedSize,
      filenameLength := lfh.filenameLength,
      localHeaderOffset := offset,
      compression := lfh.compression }
  { w with
    out := w.out ++ lfh.bytes ++ file ++ outdata,
    central := w.central ++ [cdh],
    filenames := w.filenames ++ [file] }

/-- The loop of lines 122-154 over the remaining inputs; `input out file` is what
the stream `in` constructed on `file` delivers when `out` has been put into the
archive stream.  An exception from a compression wrapper ends the run where it is
thrown. -/
def add_files (g : Flags) (c : Codec) (input : Bytes → Bytes → Option Bytes) :
    List Bytes → Writer → Writer
  | [], w => w
  | file :: rest, w =>
    let w1 : Writer :=
      { w with cout := if g.verbose then w.cout ++ [file] else w.cout,
               opened := w.opened ++ [file] }
    match input w.out file with
    | none => add_files g c input rest { w1 with cerr := w1.cerr ++ [.fileNotFound file] }
    | some data =>
      match select_outdata g c data with
      | .error e => { w1 with thrown := some e }
      | .ok (outdata, method) =>
        add_files g c input rest (write_entry file data outdata method w1)

/-- The loop of lines 157-160: `central[i]` followed by `filenames[i]`. -/
def write_central : List CentralDirectoryHeader → List Bytes → Bytes → Bytes
  | cdh :: cs, name :: ns, out => write_central cs ns (out ++ cdh.bytes ++ name)
  | _, _, out => out

/-- What a run of `create_zip_store` leaves behind: the lines on `std::cerr` and
`std::cout` (each `cout` line is a path, a newline follows it), the inputs an
`std::ifstream` was constructed on, the bytes put into the archive stream (`none`
when no `std::ofstream` was opened on the archive path, so that nothing was created
or truncated), and the exception that ended the run, if any.  A run that ends
without an exception closes the stream, and the archive file then holds these
bytes. -/
structure CreateOutcome where
  cerr : List Diag
  cout : List Bytes
  opened : List Bytes
  archive : Option Bytes
  thrown : Option Thrown
deriving DecidableEq

def create_zip_store (g : Flags) (c : Codec) (env : Env) (archive : Bytes)
    (files : List Bytes) : CreateOutcome :=
  if g.use_zlib && g.use_lzma then
    { cerr := [.bothCodecs], cout := [], opened := [], archive := none, thrown := none }
  else if !env.creatable archive then
    { cerr := [.cannotCreate], cout := [], opened := [], archive := none, thrown := none }
  else
    let w := add_files g c (env.input archive) files
      { out := ZIP1, central := [], filenames := [], cerr := [], cout := [], opened := [],
        thrown := none }
    match w.thrown with
    | some e =>
      { cerr := w.cerr, cout := w.cout, opened := w.opened, archive := some w.out,
        thrown := some e }
    | none =>
      let cdOffset := w.out.length % 2 ^ 32
      let out := write_central w.central w.filenames w.out
      let cdSize := (out.length % 2 ^ 32 + 2 ^ 32 - cdOffset) % 2 ^ 32
      let eocd : EndOfCentralDirectory :=
        { entriesThisDisk := w.central.length % 2 ^ 16,
          entriesTotal := w.central.length % 2 ^ 16,
          cdSize := cdSize,
          cdOffset := cdOffset }
      { cerr := w.cerr, cout := w.cout, opened := w.opened,
        archive := some (out ++ eocd.bytes), thrown := none }

/-! ## Input streams -/

/-- An `std::ifstream` on a file: the file content, the get position and
`failbit`.  In this program `eofbit` is only ever set together with `failbit`. -/
structure IStream where
  data : Bytes
  pos : Nat
  fail : Bool
deriving DecidableEq

namespace IStream

/-- A stream freshly opened on a file with the given content. -/
def ofFile (data : Bytes) : IStream :=
  { data := data, pos := 0, fail := false }

/-- Call `read(buf, n)`: the bytes extracted.  A stream that is not good extracts
nothing; fewer than `n` bytes left sets `failbit`. -/
def read (s : IStream) (n : Nat) : IStream × Bytes :=
  if s.fail then (s, [])
  else
    let got := (s.data.drop s.pos).take n
    if got.length < n then ({ s with pos := s.pos + got.length, fail := true }, got)
    else ({ s with pos := s.pos + n }, got)

/-- Call `seekg(off, std::ios::beg)` with an unsigned offset. -/
def seekg_beg (s : IStream) (off : Nat) : IStream :=
  if s.fail then s else { s with pos := off }

/-- Call `seekg(-back, std::ios::end)`: a position before the start of the file
fails. -/
def seekg_end (s : IStream) (back : Nat) : IStream :=
  if s.fail then s
  else if back ≤ s.data.length then { s with pos := s.data.length - back }
  else { s with fail := true }

/-- Call `tellg()`: `-1` on a failed stream. -/
def tellg (s : IStream) : Int :=
  if s.fail then -1 else (s.pos : Int)

/-- Call `seekg(pos)` with a position obtained from `tellg`. -/
def seekg (s : IStream) (p : Int) : IStream :=
  if s.fail then s
  else if p < 0 then { s with fail := true }
  else { s with pos := p.toNat }

/-- The stream after its file was overwritten with `content` while it was open: it
goes on delivering the first `b` bytes as they were and delivers the new content
past them. -/
def overwritten (s : IStream) (b : Nat) (content : Bytes) : IStream :=
  { s with data := s.data.take (min b s.data.length) ++ content.drop (min b s.data.length) }

end IStream

/-- Values of the objects the readers declare without an initialiser, before the
first `read` stores into them: `char magic[4]`, the four uninitialised members of
`eocd`, and in pass `i` of a directory loop the two uninitialised members of `cdh`
and the uninitialised member of `lfh`. -/
structure Indeterminate where
  magic : Nat
  entriesThisDisk : Nat
  entriesTotal : Nat
  cdSize : Nat
  cdOffset : Nat
  cdhFilenameLength : Nat → Nat
  cdhLocalHeaderOffset : Nat → Nat
  lfhFilenameLength : Nat → Nat

/-- Statements `char magic[4]; in.read(magic,4);`. -/
def read_magic (u : Indeterminate) (s : IStream) : IStream × Bytes :=
  let r := s.read 4
  (r.1, overlay (le 4 u.magic) r.2)

/-- Statements `EndOfCentralDirectory eocd; in.read((char*)&eocd,sizeof(eocd));`. -/
def read_eocd (u : Indeterminate) (s : IStream) : IStream × EndOfCentralDirectory :=
  let init : EndOfCentralDirectory :=
    { entriesThisDisk := u.entriesThisDisk, entriesTotal := u.entriesTotal,
      cdSize := u.cdSize, cdOffset := u.cdOffset }
  let r := s.read 22
  (r.1, EndOfCentralDirectory.ofBytes (overlay init.bytes r.2))

/-- Statements `CentralDirectoryHeader cdh; in.read((char*)&cdh,sizeof(cdh));` in
pass `i`. -/
def read_cdh (u : Indeterminate) (i : Nat) (s : IStream) :
    IStream × CentralDirectoryHeader :=
  let init : CentralDirectoryHeader :=
    { filenameLength := u.cdhFilenameLength i,
      localHeaderOffset := u.cdhLocalHeaderOffset i }
  let r := s.read 46
  (r.1, CentralDirectoryHeader.ofBytes (overlay init.bytes r.2))

/-- Statements `LocalFileHeader lfh; in2.read((char*)&lfh,sizeof(lfh));` in pass
`i`. -/
def read_lfh (u : Indeterminate) (i : Nat) (s : IStream) : IStream × LocalFileHeader :=
  let init : LocalFileHeader := { filenameLength := u.lfhFilenameLength i }
  let r := s.read 30
  (r.1, LocalFileHeader.ofBytes (overlay init.bytes r.2))

/-- A zero-filled buffer of `n` bytes (`std::string fname(n,'\0')` or
`std::vector<char> data(n)`) after `read(buf, n)`. -/
def read_buffer (s : IStream) (n : Nat) : IStream × Bytes :=
  let r := s.read n
  (r.1, overlay (List.replicate n 0) r.2)

/-! ## Listing (source lines 172-187) -/

/-- What a run of `list_zip` prints: the lines on `std::cerr`, and on `std::cout`
the reported names (a newline follows each). -/
structure ListOutcome where
  cerr : List Diag
  cout : List Bytes
deriving DecidableEq

/-- The loop of lines 182-186 with `n` passes left, in pass `i`. -/
def list_loop (u : Indeterminate) : Nat → Nat → IStream → List Bytes
  | 0, _, _ => []
  | n + 1, i, s =>
    let r := read_cdh u i s
    let f := read_buffer r.1 r.2.filenameLength
    f.2 :: list_loop u n (i + 1) f.1

def list_zip (u : Indeterminate) (env : Env) (archive : Bytes) : ListOutcome :=
  match env.readable archive with
  | none => { cerr := [.cannotOpen], cout := [] }
  | some content =>
    let m := read_magic u (IStream.ofFile content)
    if m.2 ≠ ZIP1 then { cerr := [.unknownArchive], cout := [] }
    else
      let e := read_eocd u (m.1.seekg_end 22)
      { cerr := [], cout := list_loop u e.2.entriesTotal 0 (e.1.seekg_beg e.2.cdOffset) }

/-! ## Extraction (source lines 190-236) -/

/-- What a run of `extract_zip` does: the lines on `std::cerr`, the lines put into
`std::cout` (names, a newline follows each), the arguments of the
`fs::create_directories` calls, for every `std::ofstream` that opened the path
handed to it with the bytes the file holds when the stream is closed, the paths of
the output streams that did not open (nothing is created or written for them), and
whether the exception of a `fs::create_directories` call ended the run. -/
structure ExtractOutcome where
  cerr : List Diag
  cout : List Bytes
  dirs : List Bytes
  files : List (Bytes × Bytes)
  unopened : List Bytes := []
  thrown : Bool := false
deriving DecidableEq

/-- Lines 214-231 for one entry: the lines on `std::cerr`, the bytes written into
`out`, and whether the pass ran to its end (`false` for the `continue` on line
222). -/
structure Payload where
  cerr : List Diag
  written : Bytes
  completed : Bool
deriving DecidableEq

/-- A zero-filled `std::vector<char> dec(cap)` after a decoder stored `stored` at
its start. -/
def dec_buffer (cap : Nat) (stored : Bytes) : Bytes :=
  (overlay (List.replicate cap 0) stored).take cap

def write_payload (c : Codec) (lfh : LocalFileHeader) (data : Bytes) : Payload :=
  if lfh.compression = 8 then
    let r := c.uncompress data lfh.uncompressedSize
    { cerr := if r.1 then [] else [.zlibFailed],
      written := dec_buffer lfh.uncompressedSize r.2,
      completed := true }
  else if lfh.compression = 14 then
    match c.lzma_decode data lfh.uncompressedSize with
    | none => { cerr := [.lzmaInitFailed], written := [], completed := false }
    | some r =>
      { cerr := if r.1 then [] else [.lzmaDecodeFailed],
        written := dec_buffer lfh.uncompressedSize r.2,
        completed := true }
  else { cerr := [], written := data, completed := true }

/-- What lines 201-209 read in one pass: `in` after the directory entry and its
name, the two headers, the two names and the payload buffer. -/
structure EntryRead where
  next : IStream
  cdh : CentralDirectoryHeader
  fname : Bytes
  lfh : LocalFileHeader
  fname2 : Bytes
  data : Bytes
deriving DecidableEq

/-- Lines 201-209 in pass `i`; `content` is the archive file, on which `in2` is
opened anew. -/
def read_entry (u : Indeterminate) (content : Bytes) (i : Nat) (s : IStream) : EntryRead :=
  let r := read_cdh u i s
  let f := read_buffer r.1 r.2.filenameLength
  let in2 := (IStream.ofFile content).seekg_beg r.2.localHeaderOffset
  let l := read_lfh u i in2
  let f2 := read_buffer l.1 l.2.filenameLength
  let d := read_buffer f2.1 l.2.compressedSize
  { next := f.1, cdh := r.2, fname := f.2, lfh := l.2, fname2 := f2.2, data := d.2 }

/-- The loop of lines 200-235 with `n` passes left, in pass `i`; `content` is what
the archive file holds and `s` the stream `in`.  A pass whose output stream opens
on the archive file itself overwrites it: the later passes find in it what that pass
wrote. -/
def extract_loop (g : Flags) (c : Codec) (u : Indeterminate) (env : Env)
    (archive outdir : Bytes) : Nat → Nat → Bytes → IStream → ExtractOutcome
  | 0, _, _, _ => { cerr := [], cout := [], dirs := [], files := [] }
  | n + 1, i, content, s =>
    let e := read_entry u content i s
    let pos := e.next.tellg
    if !env.makes_dir outdir then
      { cerr := [], cout := [], dirs := [outdir], files := [], thrown := true }
    else
      let path := outdir ++ slash ++ e.fname2
      let p := write_payload c e.lfh e.data
      let opened := env.creatable path
      let hit := opened && env.same path archive
      let content1 := if hit then p.written else content
      let in1 := if hit then e.next.overwritten (env.kept e.next.data e.next.pos) p.written
        else e.next
      let s1 := if p.completed then in1.seekg pos else in1
      let rest := extract_loop g c u env archive outdir n (i + 1) content1 s1
      { cerr := p.cerr ++ rest.cerr,
        cout := (if p.completed && g.verbose then [e.fname2] else []) ++ rest.cout,
        dirs := outdir :: rest.dirs,
        files := if opened then (path, p.written) :: rest.files else rest.files,
        unopened := if opened then rest.unopened else path :: rest.unopened,
        thrown := rest.thrown }

def extract_zip (g : Flags) (c : Codec) (u : Indeterminate) (env : Env)
    (archive outdir : Bytes) : ExtractOutcome :=
  match env.readable archive with
  | none => { cerr := [.cannotOpen], cout := [], dirs := [], files := [] }
  | some content =>
    let m := read_magic u (IStream.ofFile content)
    if m.2 ≠ ZIP1 then { cerr := [.unknownArchive], cout := [], dirs := [], files := [] }
    else
      let e := read_eocd u (m.1.seekg_end 22)
      extract_loop g c u env archive outdir e.2.entriesTotal 0 content
        (e.1.seekg_beg e.2.cdOffset)

/-! ## Derived notions in which the properties are stated -/

/-- A record with every field reduced to the width of its type. -/
def LocalFileHeader.narrow (h : LocalFileHeader) : LocalFileHeader :=
  { signature := h.signature % 2 ^ 32, version := h.version % 2 ^ 16,
    flags := h.flags % 2 ^ 16, compression := h.compression % 2 ^ 16,
    modTime := h.modTime % 2 ^ 16, modDate := h.modDate % 2 ^ 16,
    crc32 := h.crc32 % 2 ^ 32, compressedSize := h.compressedSize % 2 ^ 32,
    uncompressedSize := h.uncompressedSize % 2 ^ 32,
    filenameLength := h.filenameLength % 2 ^ 16,
    extraFieldLength := h.extraFieldLength % 2 ^ 16 }

/-- A record with every field reduced to the width of its type. -/
def CentralDirectoryHeader.narrow (h : CentralDirectoryHeader) : CentralDirectoryHeader :=
  { signature := h.signature % 2 ^ 32, versionMadeBy := h.versionMadeBy % 2 ^ 16,
    versionNeeded := h.versionNeeded % 2 ^ 16, flags := h.flags % 2 ^ 16,
    compression := h.compression % 2 ^ 16, modTime := h.modTime % 2 ^ 16,
    modDate := h.modDate % 2 ^ 16, crc32 := h.crc32 % 2 ^ 32,
    compressedSize := h.compressedSize % 2 ^ 32,
    uncompressedSize := h.uncompressedSize % 2 ^ 32,
    filenameLength := h.filenameLength % 2 ^ 16,
    extraFieldLength := h.extraFieldLength % 2 ^ 16,
    fileCommentLength := h.fileCommentLength % 2 ^ 16,
    diskNumber := h.diskNumber % 2 ^ 16, internalAttr := h.internalAttr % 2 ^ 16,
    externalAttr := h.externalAttr % 2 ^ 32,
    localHeaderOffset := h.localHeaderOffset % 2 ^ 32 }

/-- A record with every field reduced to the width of its type. -/
def EndOfCentralDirectory.narrow (h : EndOfCentralDirectory) : EndOfCentralDirectory :=
  { signature := h.signature % 2 ^ 32, diskNumber := h.diskNumber % 2 ^ 16,
    startDisk := h.startDisk % 2 ^ 16, entriesThisDisk := h.entriesThisDisk % 2 ^ 16,
    entriesTotal := h.entriesTotal % 2 ^ 16, cdSize := h.cdSize % 2 ^ 32,
    cdOffset := h.cdOffset % 2 ^ 32, commentLength := h.commentLength % 2 ^ 16 }

/-- An input the writer got through: its path, its content, the payload and the
method code chosen on lines 132-134. -/
structure Entry where
  name : Bytes
  data : Bytes
  outdata : Bytes
  method : Nat
deriving DecidableEq

/-- The `lfh` of lines 128-138 for an entry. -/
def Entry.lfh (e : Entry) : LocalFileHeader :=
  { filenameLength := e.name.length % 2 ^ 16,
    compression := e.method,
    uncompressedSize := e.data.length % 2 ^ 32,
    compressedSize := e.outdata.length % 2 ^ 32,
    crc32 := simple_crc32 e.data }

/-- The `cdh` of lines 145-151 for an entry whose header was put at stream
position `start`. -/
def Entry.cdh (e : Entry) (start : Nat) : CentralDirectoryHeader :=
  { crc32 := simple_crc32 e.data,
    compressedSize := e.outdata.length % 2 ^ 32,
    uncompressedSize := e.data.length % 2 ^ 32,
    filenameLength := e.name.length % 2 ^ 16,
    localHeaderOffset := start % 2 ^ 32,
    compression := e.method }

/-- The bytes of lines 141-143 for an entry. -/
def Entry.record (e : Entry) : Bytes :=
  e.lfh.bytes ++ e.name ++ e.outdata

/-- The entries the loop of lines 122-154 writes for an input list, up to the
first exception, when the archive stream has been given `out` before. -/
def entries (g : Flags) (c : Codec) (input : Bytes → Bytes → Option Bytes) :
    Bytes → List Bytes → List Entry
  | _, [] => []
  | out, file :: rest =>
    match input out file with
    | none => entries g c input out rest
    | some data =>
      match select_outdata g c data with
      | .error _ => []
      | .ok (outdata, method) =>
        { name := file, data := data, outdata := outdata, method := method } ::
          entries g c input
            (out ++ Entry.record
              { name := file, data := data, outdata := outdata, method := method }) rest

/-- The entries a run of `create_zip_store` writes, up to the first exception. -/
def written (g : Flags) (c : Codec) (env : Env) (archive : Bytes) (files : List Bytes) :
    List Entry :=
  entries g c (env.input archive) ZIP1 files

/-- The entry section: the records of the entries one after the other. -/
def records : List Entry → Bytes
  | [] => []
  | e :: es => e.record ++ records es

/-- The vector `central` for entries whose first header is at position `start`. -/
def central_of : Nat → List Entry → List CentralDirectoryHeader
  | _, [] => []
  | start, e :: es => e.cdh start :: central_of (start + e.record.length) es

/-- The directory section for entries whose first header is at position `start`. -/
def directory : Nat → List Entry → Bytes
  | _, [] => []
  | start, e :: es => (e.cdh start).bytes ++ e.name ++ directory (start + e.record.length) es

/-- The `eocd` of lines 162-167 for a list of entries. -/
def terminator_of (es : List Entry) : EndOfCentralDirectory :=
  { entriesThisDisk := es.length % 2 ^ 16,
    entriesTotal := es.length % 2 ^ 16,
    cdSize := ((4 + (records es).length + (directory 4 es).length) % 2 ^ 32 + 2 ^ 32
      - (4 + (records es).length) % 2 ^ 32) % 2 ^ 32,
    cdOffset := (4 + (records es).length) % 2 ^ 32 }

/-- The inputs that open, each with its content, in the order given. -/
def opened_inputs (readable : Bytes → Option Bytes) (files : List Bytes) :
    List (Bytes × Bytes) :=
  files.filterMap (fun f => (readable f).map (fun d => (f, d)))

/-- The records of the entries lie in `content` one after the other from position
`start` on. -/
def Located (content : Bytes) : Nat → List Entry → Prop
  | _, [] => True
  | start, e :: es =>
    (∃ tail, content.drop start = e.record ++ tail) ∧
      Located content (start + e.record.length) es

/-- An entry whose sizes and method code fit the fields that hold them. -/
def Entry.Fits (e : Entry) : Prop :=
  e.name.length < 2 ^ 16 ∧ e.data.length < 2 ^ 32 ∧ e.outdata.length < 2 ^ 32 ∧
    e.method < 2 ^ 16

/-- The file system after a run of `create_zip_store` that ended without an
exception: the archive file holds the bytes the run put into its stream, when it
opened one. -/
def Env.after_create (env : Env) (g : Flags) (c : Codec) (archive : Bytes)
    (files : List Bytes) : Env :=
  { env with
    readable := fun p =>
      if env.same p archive then
        match (create_zip_store g c env archive files).archive with
        | some a => if env.reopens p then some a else none
        | none => env.readable p
      else env.readable p }

/-- The loop of lines 200-235 with `n` passes left, in pass `i`, for a run in which
every `fs::create_directories` call returns and no output stream opens on the
archive file, so that `content`, what the archive file holds, stays as it is: what
each pass reports and what it puts into its output stream. -/
def extract_passes (g : Flags) (c : Codec) (u : Indeterminate) (content outdir : Bytes) :
    Nat → Nat → IStream → ExtractOutcome
  | 0, _, _ => { cerr := [], cout := [], dirs := [], files := [] }
  | n + 1, i, s =>
    let e := read_entry u content i s
    let pos := e.next.tellg
    let p := write_payload c e.lfh e.data
    let s1 := if p.completed then e.next.seekg pos else e.next
    let rest := extract_passes g c u content outdir n (i + 1) s1
    { cerr := p.cerr ++ rest.cerr,
      cout := (if p.completed && g.verbose then [e.fname2] else []) ++ rest.cout,
      dirs := outdir :: rest.dirs,
      files := (outdir ++ slash ++ e.fname2, p.written) :: rest.files }

/-- What becomes of the passes `o` of `extract_passes` in a file system: with a pass
to make and an output directory that cannot be created the first pass throws;
otherwise the output streams that open receive their bytes and the others are left
out. -/
def ExtractOutcome.settle (env : Env) (outdir : Bytes) (o : ExtractOutcome) :
    ExtractOutcome :=
  if o.dirs ≠ [] ∧ env.makes_dir outdir = false then
    { cerr := [], cout := [], dirs := [outdir], files := [], thrown := true }
  else
    { o with
      files := o.files.filter (fun f => env.creatable f.1),
      unopened := (o.files.filter (fun f => !env.creatable f.1)).map Prod.fst }

/-- The reads of the passes that a run of the loop of lines 200-235 makes, pass by
pass (lines 201-209), with `n` passes left, in pass `i`; `content` is what the
archive file holds and `s` the stream `in`. -/
def passes (c : Codec) (u : Indeterminate) (env : Env) (archive outdir : Bytes) :
    Nat → Nat → Bytes → IStream → List EntryRead
  | 0, _, _, _ => []
  | n + 1, i, content, s =>
    let e := read_entry u content i s
    if !env.makes_dir outdir then [e]
    else
      let path := outdir ++ slash ++ e.fname2
      let p := write_payload c e.lfh e.data
      let hit := env.creatable path && env.same path archive
      let content1 := if hit then p.written else content
      let in1 := if hit then e.next.overwritten (env.kept e.next.data e.next.pos) p.written
        else e.next
      let s1 := if p.completed then in1.seekg e.next.tellg else in1
      e :: passes c u env archive outdir n (i + 1) content1 s1

/-! ## Concrete inputs -/

/-- A file system with one empty file `a`, in which every path can be created. -/
def oneEmptyFile : Env :=
  { readable := fun p => if p = [97] then some [] else none,
    creatable := fun _ => true }

/-- The input list naming the file `a` 65536 times. -/
def manyFiles : List Bytes := List.replicate 65536 [97]

/-- Codecs that fail on every call. -/
def noCodec : Codec :=
  { compress2 := fun _ => none, lzma_encode := fun _ => none,
    uncompress := fun _ _ => (false, []), lzma_decode := fun _ _ => none }

/-- Indeterminate values that all happen to be zero. -/
def zeroed : Indeterminate :=
  { magic := 0, entriesThisDisk := 0, entriesTotal := 0, cdSize := 0, cdOffset := 0,
    cdhFilenameLength := fun _ => 0, cdhLocalHeaderOffset := fun _ => 0,
    lfhFilenameLength := fun _ => 0 }

/-- A toy codec pair: the encoders put a marker byte in front of the input, the
decoders drop it. -/
def toyCodec : Codec :=
  { compress2 := fun x => some (1 :: x), lzma_encode := fun x => some (2 :: x),
    uncompress := fun z _ => (true, z.tail), lzma_decode := fun z _ => some (true, z.tail) }

/-- A file system with a file `a` of three bytes and an empty file `b`; nothing else
opens, every path can be created. -/
def twoFiles : Env :=
  { readable := fun p => if p = [97] then some [1, 2, 3] else if p = [98] then some [] else none,
    creatable := fun _ => true }

/-- The terminator a run of `create_zip_store` wrote, as a reader finds it: the
record held by the last 22 bytes of the archive. -/
def written_terminator (o : CreateOutcome) : Option EndOfCentralDirectory :=
  o.archive.map (fun a => EndOfCentralDirectory.ofBytes (a.drop (a.length - 22)))

/-- A content of `2 ^ 32` zero bytes. -/
def fourGiB : Bytes := List.replicate (2 ^ 32) 0

/-- A file system with a file `a` of `2 ^ 32` zero bytes and an empty file `b`. -/
def bigFile : Env :=
  { readable := fun p => if p = [97] then some fourGiB else if p = [98] then some [] else none,
    creatable := fun _ => true }

/-- The entry stored for the file `a` of `bigFile`. -/
def bigEntry : Entry := { name := [97], data := fourGiB, outdata := fourGiB, method := 0 }

/-- The entry stored for the file `b` of `bigFile`. -/
def smallEntry : Entry := { name := [98], data := [], outdata := [], method := 0 }

/-- The entry stored for the file `a` of `twoFiles`. -/
def entryA : Entry := { name := [97], data := [1, 2, 3], outdata := [1, 2, 3], method := 0 }

/-- A file system whose only file `z` holds the 30 bytes of a standard ZIP local
header (it starts with `PK\x03\x04`, not with `ZIP1`). -/
def notOurs : Env :=
  { readable := fun p =>
      if p = [122] then some (LocalFileHeader.bytes { filenameLength := 0 }) else none,
    creatable := fun _ => true }

/-- A 107-byte file: the prefix, one stored entry `x` with the payload `1, 2, 3`, its
directory entry, and a final 22-byte record that has every field of a terminator for
them but 0 in place of the magic. -/
def badTerminator : Bytes :=
  ZIP1
    ++ LocalFileHeader.bytes
        { filenameLength := 1, compression := 0, compressedSize := 3, uncompressedSize := 3 }
    ++ [120] ++ [1, 2, 3]
    ++ CentralDirectoryHeader.bytes
        { filenameLength := 1, localHeaderOffset := 4, compressedSize := 3,
          uncompressedSize := 3 }
    ++ [120]
    ++ EndOfCentralDirectory.bytes
        { signature := 0, entriesThisDisk := 1, entriesTotal := 1, cdSize := 47,
          cdOffset := 38 }

/-- A file system whose only file `z` holds `badTerminator`. -/
def badTerminatorFile : Env :=
  { readable := fun p => if p = [122] then some badTerminator else none,
    creatable := fun _ => true }

/-- Value of an unsigned little-endian integer as the format description has it:
the byte at index `i` of the field (counted from `k`) weighs `256 ^ i`. -/
def little_endian_from (k : Nat) : Bytes → Nat
  | [] => 0
  | b :: bs => b.val * 256 ^ k + little_endian_from (k + 1) bs

/-- A record read the way the format description lists it: unsigned little-endian
fields of the given widths in bytes, one right after the other, nothing between
them. -/
def split_fields : List Nat → Bytes → List Nat
  | [], _ => []
  | w :: ws, b => little_endian_from 0 (b.take w) :: split_fields ws (b.drop w)

/-- Field widths of the Entry Header in the format description: magic(4) version(2)
flags(2) method(2) modTime(2) modDate(2) checksum(4) compressedSize(4)
uncompressedSize(4) nameLen(2) extraLen(2). -/
def entry_header_widths : List Nat := [4, 2, 2, 2, 2, 2, 4, 4, 4, 2, 2]

/-- Field widths of the Directory Entry in the format description: magic(4)
versionMadeBy(2) versionNeeded(2) flags(2) method(2) modTime(2) modDate(2)
checksum(4) compressedSize(4) uncompressedSize(4) nameLen(2) extraLen(2)
commentLen(2) diskNum(2) internalAttr(2) externalAttr(4) localOffset(4). -/
def directory_entry_widths : List Nat := [4, 2, 2, 2, 2, 2, 2, 4, 4, 4, 2, 2, 2, 2, 2, 4, 4]

/-- Field widths of the Directory Terminator in the format description: magic(4)
diskNum(2) startDisk(2) entriesThisDisk(2) entriesTotal(2) dirSize(4) dirOffset(4)
commentLen(2). -/
def terminator_widths : List Nat := [4, 2, 2, 2, 2, 4, 4, 2]

/-- The entry stored for the file `a` of `twoFiles` in deflate mode with `toyCodec`. -/
def toyEntryA : Entry := { name := [97], data := [1, 2, 3], outdata := [1, 1, 2, 3], method := 8 }

/-- The entry stored for the file `b` of `twoFiles` in deflate mode with `toyCodec`. -/
def toyEntryB : Entry := { name := [98], data := [], outdata := [1], method := 8 }

/-- The reads of the loop of lines 200-235, pass by pass: what lines 201-209 read in
each of `n` passes from pass `i` on, `in` being put back where it was (lines 204 and
234) between two passes. -/
def walk (u : Indeterminate) (content : Bytes) : Nat → Nat → IStream → List EntryRead
  | 0, _, _ => []
  | n + 1, i, s =>
    let e := read_entry u content i s
    e :: walk u content n (i + 1) (e.next.seekg e.next.tellg)

/-- The traversal of lines 191-209 on an archive file: the prefix check, the
terminator read from the last 22 bytes, then the reads of `entriesTotal` passes from
`cdOffset` on (`none` when the prefix check fails). -/
def read_archive (u : Indeterminate) (content : Bytes) :
    Option (EndOfCentralDirectory × List EntryRead) :=
  let m := read_magic u (IStream.ofFile content)
  if m.2 ≠ ZIP1 then none
  else
    let e := read_eocd u (m.1.seekg_end 22)
    some (e.2, walk u content e.2.entriesTotal 0 (e.1.seekg_beg e.2.cdOffset))

/-- Two streams that are in the same state and have the same bytes ahead of their
get positions. -/
def IStream.SameAhead (a b : IStream) : Prop :=
  a.fail = b.fail ∧ a.data.drop a.pos = b.data.drop b.pos

/-- A content of `2 ^ 32` bytes, all zero but the byte at index 59, which is 1. -/
def fourGiBMarked : Bytes :=
  List.replicate 59 0 ++ [1] ++ List.replicate (2 ^ 32 - 60) 0

/-- The entry `bigEntry` with the payload `fourGiBMarked` in place of its own. -/
def bigEntryMarked : Entry := { bigEntry with outdata := fourGiBMarked }

/-- A file system whose file `z` holds the archive written from `bigFile`, with the
payload of its first entry replaced by `fourGiBMarked`. -/
def bigFileMarked : Env :=
  { readable := fun p =>
      if p = [122] then
        some (ZIP1 ++ records [bigEntryMarked, smallEntry] ++ directory 4 [bigEntry, smallEntry]
          ++ (terminator_of [bigEntry, smallEntry]).bytes)
      else none,
    creatable := fun _ => true }

/-- What a pass of `extract_zip` takes from the entry header it reads through `in2`:
the header, the name after it and the payload buffer. -/
def EntryRead.view (r : EntryRead) : LocalFileHeader × Bytes × Bytes :=
  (r.lfh, r.fname2, r.data)

/-- What `extract_zip` does in its passes, given what each pass read through `in2`
(lines 211-233). -/
def outcome_of (g : Flags) (c : Codec) (outdir : Bytes) :
    List (LocalFileHeader × Bytes × Bytes) → ExtractOutcome
  | [] => { cerr := [], cout := [], dirs := [], files := [] }
  | v :: vs =>
    let p := write_payload c v.1 v.2.2
    let rest := outcome_of g c outdir vs
    { cerr := p.cerr ++ rest.cerr,
      cout := (if p.completed && g.verbose then [v.2.1] else []) ++ rest.cout,
      dirs := outdir :: rest.dirs,
      files := (outdir ++ slash ++ v.2.1, p.written) :: rest.files }

/-- The bytes of a directory section: each directory entry followed by its name. -/
def directory_bytes : List (CentralDirectoryHeader × Bytes) → Bytes
  | [] => []
  | d :: ds => d.1.bytes ++ d.2 ++ directory_bytes ds

/-- The entry found at offset `off` of the bytes `pre`: the header held by the 30
bytes there, the `filenameLength` bytes after it and the `compressedSize` bytes after
those. -/
def header_view (pre : Bytes) (off : Nat) : LocalFileHeader × Bytes × Bytes :=
  (LocalFileHeader.ofBytes ((pre.drop off).take 30),
   (pre.drop (off + 30)).take (LocalFileHeader.ofBytes ((pre.drop off).take 30)).filenameLength,
   (pre.drop (off + 30 + (LocalFileHeader.ofBytes ((pre.drop off).take 30)).filenameLength)).take
     (LocalFileHeader.ofBytes ((pre.drop off).take 30)).compressedSize)

/-- Where the entry found at offset `off` of `pre` ends. -/
def entry_end (pre : Bytes) (off : Nat) : Nat :=
  off + 30 + (LocalFileHeader.ofBytes ((pre.drop off).take 30)).filenameLength
    + (LocalFileHeader.ofBytes ((pre.drop off).take 30)).compressedSize

/-- A directory entry with its name, well-formed (the name has `filenameLength`
bytes) and leading to an entry that lies within `pre`. -/
def Resolves (pre : Bytes) (d : CentralDirectoryHeader × Bytes) : Prop :=
  d.2.length = d.1.filenameLength % 2 ^ 16 ∧
    entry_end pre (d.1.localHeaderOffset % 2 ^ 32) ≤ pre.length

/-- Two directory entries with their names that agree on `filenameLength` and on
`localHeaderOffset`; the other fields and the bytes of the names are free. -/
def SameTarget (a b : CentralDirectoryHeader × Bytes) : Prop :=
  a.1.filenameLength % 2 ^ 16 = b.1.filenameLength % 2 ^ 16 ∧
    a.1.localHeaderOffset % 2 ^ 32 = b.1.localHeaderOffset % 2 ^ 32 ∧
    a.2.length = b.2.length

/-- The archive written in store mode from the files `a` and `b` of `twoFiles`, up to
the end of its entry section. -/
def twoEntriesFront : Bytes := ZIP1 ++ records [entryA, smallEntry]

/-- The directory section of that archive. -/
def twoEntriesDirectory : List (CentralDirectoryHeader × Bytes) :=
  [(entryA.cdh 4, [97]), (smallEntry.cdh 38, [98])]

/-- The same directory section with other names, methods, sizes and checksums. -/
def twoEntriesDirectoryForged : List (CentralDirectoryHeader × Bytes) :=
  [({ entryA.cdh 4 with
        compression := 8, crc32 := 7, compressedSize := 1000, uncompressedSize := 2000 },
    [120]),
   ({ smallEntry.cdh 38 with
        compression := 14, crc32 := 9, compressedSize := 5, uncompressedSize := 6 },
    [121])]

/-- A file system whose only file `z` holds the given bytes. -/
def holding (content : Bytes) : Env :=
  { readable := fun p => if p = [122] then some content else none,
    creatable := fun _ => true }

/-- A 133-byte archive with one stored entry `x` whose header says `compressedSize`
3 and `uncompressedSize` 5; its payload is `1, 2, 3`. -/
def sizeMismatch : Bytes :=
  ZIP1
    ++ LocalFileHeader.bytes
        { filenameLength := 1, compression := 0, compressedSize := 3, uncompressedSize := 5 }
    ++ [120] ++ [1, 2, 3]
    ++ CentralDirectoryHeader.bytes
        { filenameLength := 1, localHeaderOffset := 4, compressedSize := 3,
          uncompressedSize := 5 }
    ++ [120]
    ++ EndOfCentralDirectory.bytes
        { entriesThisDisk := 1, entriesTotal := 1, cdSize := 47, cdOffset := 38 }

/-- Two entries (header, name, payload) that are the same but for the checksum field
of the header. -/
def SameButChecksum (a b : LocalFileHeader × Bytes × Bytes) : Prop :=
  { b.1 with crc32 := a.1.crc32 } = a.1 ∧ b.2 = a.2

/-- The entry section of the archive stored from `a` and `b`, with 999 in the
checksum field of the header of `a` (the bytes of `a` add up to 6). -/
def twoEntriesFrontForged : Bytes :=
  ZIP1 ++ LocalFileHeader.bytes { entryA.lfh with crc32 := 999 } ++ [97] ++ [1, 2, 3]
    ++ smallEntry.record

/-! ## The argument parser (source lines 239-287) -/

/-- The locals of `main` that the option scan sets, with the three process-wide
flags. -/
structure Args where
  create : Bool := false
  list : Bool := false
  extract : Bool := false
  flags : Flags := {}
  archive : Bytes := []
  outdir : Bytes := [46]
  files : List Bytes := []
deriving DecidableEq

/-- Lines `main` writes to `std::cerr`. -/
inductive MainDiag where
  /-- Message `"-f needs filename\n"`. -/
  | needsFilename
  /-- Message `"-C needs directory\n"`. -/
  | needsDirectory
  /-- Message `"Unknown option: -" << opt << "\n"`. -/
  | unknownOption (opt : Byte)
  /-- Message `"Usage: -cv[z|l]f archive file...\n"`. -/
  | usageCreate
  /-- Message `"Usage: -tvf archive\n"`. -/
  | usageList
  /-- Message `"Usage: -xvf archive [-C dir]\n"`. -/
  | usageExtract
  /-- Message `"Usage: [-c|-t|-x] [-v] [-z|-l] -f archive [file...]\n"`. -/
  | usage
deriving DecidableEq

/-- The two ways the option scan returns from `main`: `return 1` after a message on
`std::cerr`, and `return 0` after the version text on `std::cout` (option `V`). -/
inductive Stop where
  | error (d : MainDiag)
  | version
deriving DecidableEq

/-- The loop over the characters `arg[j..]` of one option argument (lines 249-272).
`next` holds `argv[i+1..]` as it was when the argument was entered and `k` counts
the `++i` done since; the result carries the new count. -/
def parse_opts : List Byte → List Bytes → Nat → Args → Except Stop (Args × Nat)
  | [], _, k, a => .ok (a, k)
  | opt :: more, next, k, a =>
    if opt = 99 then parse_opts more next k { a with create := true }
    else if opt = 116 then parse_opts more next k { a with list := true }
    else if opt = 120 then parse_opts more next k { a with extract := true }
    else if opt = 118 then
      parse_opts more next k { a with flags := { a.flags with verbose := true } }
    else if opt = 122 then
      parse_opts more next k { a with flags := { a.flags with use_zlib := true } }
    else if opt = 108 then
      parse_opts more next k { a with flags := { a.flags with use_lzma := true } }
    else if opt = 102 then
      if more ≠ [] then .ok ({ a with archive := more }, k)
      else
        match next.get? k with
        | some x => .ok ({ a with archive := x }, k + 1)
        | none => .error (.error .needsFilename)
    else if opt = 67 then
      match next.get? k with
      | some x => parse_opts more next (k + 1) { a with outdir := x }
      | none => .error (.error .needsDirectory)
    else if opt = 86 then .error .version
    else .error (.error (.unknownOption opt))

/-- The loop over `argv[i..]` (lines 245-274); `skip` counts the leading arguments
an earlier option has taken with `++i`. -/
def parse_args : List Bytes → Nat → Args → Except Stop Args
  | [], _, a => .ok a
  | _ :: rest, skip + 1, a => parse_args rest skip a
  | arg :: rest, 0, a =>
    if 1 < arg.length ∧ arg.head? = some 45 then
      match parse_opts arg.tail rest 0 a with
      | .error e => .error e
      | .ok r => parse_args rest r.2 r.1
    else parse_args rest 0 { a with files := a.files ++ [arg] }

/-- The operation `main` ran, with what it did. -/
inductive Ran where
  | create (o : CreateOutcome)
  | list (o : ListOutcome)
  | extract (o : ExtractOutcome)
deriving DecidableEq

/-- What a run of `main` does: its own lines on `std::cerr`, whether it wrote the
version text to `std::cout`, the operation it called, and its exit code (`none` when
an exception that nothing catches ends the process). -/
structure MainOutcome where
  cerr : List MainDiag
  version : Bool
  ran : Option Ran
  exit : Option Nat
deriving DecidableEq

/-- A run of `main` that ends in `std::cerr << ...; return 1;`. -/
def MainOutcome.failed (d : MainDiag) : MainOutcome :=
  { cerr := [d], version := false, ran := none, exit := some 1 }

/-- A run of `main` that calls an operation and, when the call returns, leaves `main`
at its closing brace. -/
def MainOutcome.called (r : Ran) (returns : Bool) : MainOutcome :=
  { cerr := [], version := false, ran := some r, exit := if returns then some 0 else none }

def main (c : Codec) (u : Indeterminate) (env : Env) (argv : List Bytes) : MainOutcome :=
  match parse_args argv.tail 0 {} with
  | .error .version => { cerr := [], version := true, ran := none, exit := some 0 }
  | .error (.error d) => .failed d
  | .ok a =>
    if a.create then
      if a.archive = [] ∨ a.files = [] then .failed .usageCreate
      else
        let o := create_zip_store a.flags c env a.archive a.files
        .called (.create o) o.thrown.isNone
    else if a.list then
      if a.archive = [] then .failed .usageList
      else .called (.list (list_zip u env a.archive)) true
    else if a.extract then
      if a.archive = [] then .failed .usageExtract
      else
        let o := extract_zip a.flags c u env a.archive a.outdir
        .called (.extract o) (!o.thrown)
    else .failed .usage

/-- A file system whose only file `z` holds the three bytes `ZIP`, and in which the
directory path `o/` opens as no file. -/
def threeBytes : Env :=
  { readable := fun p => if p = [122] then some [90, 73, 80] else none,
    creatable := fun p => decide (p ≠ [111, 47]) }

/-- The files of `twoFiles`, where the directory path `o/` opens as no file. -/
def twoFilesInDir : Env :=
  { twoFiles with creatable := fun p => decide (p ≠ [111, 47]) }

/-- A file system whose only file is `d/a`, of one byte, and in which every file
can be created but `o/d/a` (there is no directory `o/d`). -/
def subdirInput : Env :=
  { readable := fun p => if p = [100, 47, 97] then some [1] else none,
    creatable := fun p => decide (p ≠ [111, 47, 100, 47, 97]) }

/-- Indeterminate values in which the fourth byte of `magic` happens to be `'1'` and
the member `entriesTotal` of `eocd` happens to be 1; all others are zero. -/
def leftover : Indeterminate := { zeroed with magic := 49 * 256 ^ 3, entriesTotal := 1 }

/-- The input list `a`, `c`, `b`, `z`: with the archive `z` in `twoFiles`, the file
`c` is missing and `z` is the archive itself. -/
def fourInputs : List Bytes := [[97], [99], [98], [122]]

/-- An archive of 104 bytes with one directory entry whose `localHeaderOffset` is 50,
the place of its own name: the name is made of the 30 bytes of an entry header (a
stored entry with a name of one byte and a payload of one byte), the byte `x` and the
byte `b`. -/
def selfPointing (b : Byte) : Bytes :=
  ZIP1
    ++ CentralDirectoryHeader.bytes { filenameLength := 32, localHeaderOffset := 50 }
    ++ (LocalFileHeader.bytes { filenameLength := 1, compression := 0, compressedSize := 1 }
        ++ [120] ++ [b])
    ++ EndOfCentralDirectory.bytes
        { entriesThisDisk := 1, entriesTotal := 1, cdSize := 78, cdOffset := 4 }

/-- An archive of 154 bytes: the entry `a` of `twoFiles` stored at offset 4 with `k` in
the checksum field of its header, and a directory of two entries, the first leading
to offset 4 and the second to offset 0.  The 30 bytes at offset 0 are `ZIP1` and the
first 26 bytes of the header of `a`, so that the bytes of its checksum field are
those of the `compressedSize` field of the header found at offset 0. -/
def overlapping (k : Nat) : Bytes :=
  ZIP1 ++ LocalFileHeader.bytes { entryA.lfh with crc32 := k } ++ [97] ++ [1, 2, 3]
    ++ (entryA.cdh 4).bytes ++ [97]
    ++ CentralDirectoryHeader.bytes { filenameLength := 1, localHeaderOffset := 0 } ++ [120]
    ++ EndOfCentralDirectory.bytes
        { entriesThisDisk := 2, entriesTotal := 2, cdSize := 94, cdOffset := 38 }

/-! # Properties -/

/-! ## Fixed-width fields and records -/

theorem le_length (w v : Nat) : (le w v).length = w := by
  induction w generalizing v with
  | zero => rfl
  | succ n ih => simp [le, ih]

theorem fromLE_le (w v : Nat) : fromLE (le w v) = v % 256 ^ w := by
  induction w generalizing v with
  | zero => simp [le, fromLE, Nat.mod_one]
  | succ n ih =>
    simp only [le, fromLE, ih]
    rw [pow_succ, Nat.mul_comm (256 ^ n) 256, Nat.mod_mul]

theorem field_skip (w v : Nat) (rest : Bytes) (off k : Nat) (h : w ≤ off) :
    field (le w v ++ rest) off k = field rest (off - w) k := by
  unfold field
  rw [List.drop_append_eq_append_drop, List.drop_of_length_le (by rw [le_length]; exact h),
    le_length, List.nil_append]

theorem field_head (w v : Nat) (rest : Bytes) :
    field (le w v ++ rest) 0 w = v % 256 ^ w := by
  unfold field
  rw [List.drop_zero, List.take_append_of_le_length (by rw [le_length]),
    List.take_of_length_le (by rw [le_length]), fromLE_le]

theorem field_last (w v : Nat) : field (le w v) 0 w = v % 256 ^ w := by
  have := field_head w v []
  rwa [List.append_nil] at this

theorem lfh_bytes_length (h : LocalFileHeader) : h.bytes.length = 30 := by
  simp [LocalFileHeader.bytes, le_length]

theorem cdh_bytes_length (h : CentralDirectoryHeader) : h.bytes.length = 46 := by
  simp [CentralDirectoryHeader.bytes, le_length]

theorem eocd_bytes_length (h : EndOfCentralDirectory) : h.bytes.length = 22 := by
  simp [EndOfCentralDirectory.bytes, le_length]

theorem lfh_ofBytes_bytes (h : LocalFileHeader) :
    LocalFileHeader.ofBytes h.bytes = h.narrow := by
  simp [LocalFileHeader.ofBytes, LocalFileHeader.narrow, LocalFileHeader.bytes,
    field_skip, field_head, field_last]

theorem cdh_ofBytes_bytes (h : CentralDirectoryHeader) :
    CentralDirectoryHeader.ofBytes h.bytes = h.narrow := by
  simp [CentralDirectoryHeader.ofBytes, CentralDirectoryHeader.narrow,
    CentralDirectoryHeader.bytes, field_skip, field_head, field_last]

theorem eocd_ofBytes_bytes (h : EndOfCentralDirectory) :
    EndOfCentralDirectory.ofBytes h.bytes = h.narrow := by
  simp [EndOfCentralDirectory.ofBytes, EndOfCentralDirectory.narrow,
    EndOfCentralDirectory.bytes, field_skip, field_head, field_last]

theorem overlay_full (init got : Bytes) (h : init.length ≤ got.length) :
    overlay init got = got := by
  simp [overlay, List.drop_of_length_le h]

theorem crc_loop_lt (data : Bytes) (crc : Nat) (h : crc < 2 ^ 32) :
    crc_loop data crc < 2 ^ 32 := by
  induction data generalizing crc with
  | nil => simpa [crc_loop] using h
  | cons b rest ih => exact ih _ (Nat.mod_lt _ (by decide))

theorem simple_crc32_lt (data : Bytes) : simple_crc32 data < 2 ^ 32 :=
  crc_loop_lt data 0 (by decide)

/-! ## The writer in closed form -/

theorem add_files_out (g : Flags) (c : Codec) (rd : Bytes → Bytes → Option Bytes)
    (files : List Bytes) (w : Writer) :
    (add_files g c rd files w).out = w.out ++ records (entries g c rd w.out files) := by
  induction files generalizing w with
  | nil => simp [add_files, entries, records]
  | cons f rest ih =>
    simp only [add_files, entries]
    cases hr : rd w.out f with
    | none => simp only [ih]
    | some data =>
      cases hs : select_outdata g c data with
      | error e => simp [hs, records]
      | ok p =>
        obtain ⟨outdata, method⟩ := p
        simp only [hs, ih, write_entry, records, Entry.record, Entry.lfh, List.append_assoc]

theorem add_files_central (g : Flags) (c : Codec) (rd : Bytes → Bytes → Option Bytes)
    (files : List Bytes) (w : Writer) :
    (add_files g c rd files w).central
      = w.central ++ central_of w.out.length (entries g c rd w.out files) := by
  induction files generalizing w with
  | nil => simp [add_files, entries, central_of]
  | cons f rest ih =>
    simp only [add_files, entries]
    cases hr : rd w.out f with
    | none => simp only [ih]
    | some data =>
      cases hs : select_outdata g c data with
      | error e => simp [hs, central_of]
      | ok p =>
        obtain ⟨outdata, method⟩ := p
        simp only [hs, ih, write_entry, central_of, Entry.record, Entry.lfh, Entry.cdh,
          List.append_assoc, List.length_append, List.singleton_append, Nat.add_assoc]

theorem add_files_filenames (g : Flags) (c : Codec) (rd : Bytes → Bytes → Option Bytes)
    (files : List Bytes) (w : Writer) :
    (add_files g c rd files w).filenames
      = w.filenames ++ (entries g c rd w.out files).map Entry.name := by
  induction files generalizing w with
  | nil => simp [add_files, entries]
  | cons f rest ih =>
    simp only [add_files, entries]
    cases hr : rd w.out f with
    | none => simp only [ih]
    | some data =>
      cases hs : select_outdata g c data with
      | error e => simp [hs]
      | ok p =>
        obtain ⟨outdata, method⟩ := p
        simp only [hs, ih, write_entry, List.map_cons, List.append_assoc, List.singleton_append,
          Entry.record, Entry.lfh]

/-- In a run without an exception the written entries are, in order, the inputs
that opened. -/
theorem add_files_names (g : Flags) (c : Codec) (rd : Bytes → Bytes → Option Bytes)
    (opens : Bytes → Bool) (hop : ∀ o f, (rd o f).isSome = opens f)
    (files : List Bytes) (w : Writer) (h : (add_files g c rd files w).thrown = none) :
    (entries g c rd w.out files).map Entry.name = files.filter opens := by
  induction files generalizing w with
  | nil => simp [entries]
  | cons f rest ih =>
    simp only [add_files] at h
    simp only [entries, List.filter_cons]
    have ho := hop w.out f
    cases hr : rd w.out f with
    | none =>
      simp only [hr] at h
      rw [hr, Option.isSome_none] at ho
      simp only [← ho, Bool.false_eq_true, if_false]
      have := ih _ h
      exact this
    | some data =>
      simp only [hr] at h
      rw [hr, Option.isSome_some] at ho
      cases hs : select_outdata g c data with
      | error e => simp [hs] at h
      | ok p =>
        obtain ⟨outdata, method⟩ := p
        simp only [hs] at h
        have := ih _ h
        simp only [write_entry, List.append_assoc] at this
        simp only [hs, ← ho, if_true, List.map_cons, Entry.record, Entry.lfh,
          List.append_assoc, this]

/-- Every written entry holds what the stream on its path delivered when the
archive stream had been given the entries before it, and the payload and method
chosen for that content. -/
theorem entries_at (g : Flags) (c : Codec) (rd : Bytes → Bytes → Option Bytes)
    (files : List Bytes) (out : Bytes) (l1 l2 : List Entry) (e : Entry)
    (h : entries g c rd out files = l1 ++ e :: l2) :
    e.name ∈ files ∧ rd (out ++ records l1) e.name = some e.data ∧
      select_outdata g c e.data = .ok (e.outdata, e.method) := by
  induction files generalizing out l1 with
  | nil => simp [entries] at h
  | cons f rest ih =>
    simp only [entries] at h
    cases hr : rd out f with
    | none =>
      simp only [hr] at h
      obtain ⟨h1, h2⟩ := ih out l1 h
      exact ⟨List.mem_cons_of_mem _ h1, h2⟩
    | some data =>
      simp only [hr] at h
      cases hs : select_outdata g c data with
      | error x => simp [hs] at h
      | ok p =>
        obtain ⟨o, m⟩ := p
        simp only [hs] at h
        cases l1 with
        | nil =>
          simp only [List.nil_append, List.cons.injEq] at h
          obtain ⟨h1, -⟩ := h
          subst h1
          simp only [records, List.append_nil]
          exact ⟨List.mem_cons_self _ _, hr, hs⟩
        | cons x l1' =>
          simp only [List.cons_append, List.cons.injEq] at h
          obtain ⟨h1, h2⟩ := h
          obtain ⟨h3, h4⟩ := ih _ l1' h2
          subst h1
          simp only [records, ← List.append_assoc]
          simp only [List.append_assoc] at h4 ⊢
          exact ⟨List.mem_cons_of_mem _ h3, h4⟩

theorem entries_mem (g : Flags) (c : Codec) (rd : Bytes → Bytes → Option Bytes)
    (files : List Bytes) (out : Bytes) (e : Entry) (h : e ∈ entries g c rd out files) :
    e.name ∈ files ∧ (∃ o, rd o e.name = some e.data) ∧
      select_outdata g c e.data = .ok (e.outdata, e.method) := by
  obtain ⟨l1, l2, hsplit⟩ := List.append_of_mem h
  obtain ⟨h1, h2, h3⟩ := entries_at g c rd files out l1 l2 e hsplit
  exact ⟨h1, ⟨_, h2⟩, h3⟩

/-- When every input delivers what a fixed file system holds, the written entries
are the inputs that open, each with its content. -/
theorem entries_fixed (g : Flags) (c : Codec) (rd : Bytes → Bytes → Option Bytes)
    (r : Bytes → Option Bytes) (files : List Bytes) (w : Writer)
    (hr : ∀ f ∈ files, ∀ o, rd o f = r f)
    (h : (add_files g c rd files w).thrown = none) :
    (entries g c rd w.out files).map (fun e => (e.name, e.data)) = opened_inputs r files := by
  induction files generalizing w with
  | nil => simp [entries, opened_inputs]
  | cons f rest ih =>
    simp only [add_files] at h
    simp only [entries, opened_inputs, List.filterMap_cons]
    have hf := hr f (List.mem_cons_self _ _) w.out
    have hrest : ∀ f ∈ rest, ∀ o, rd o f = r f := fun x hx => hr x (List.mem_cons_of_mem _ hx)
    rw [hf] at h ⊢
    cases hrf : r f with
    | none =>
      simp only [hrf] at h
      simpa [opened_inputs] using ih _ hrest h
    | some data =>
      simp only [hrf] at h
      cases hs : select_outdata g c data with
      | error e => simp [hs] at h
      | ok p =>
        obtain ⟨outdata, method⟩ := p
        simp only [hs] at h
        have := ih _ hrest h
        simp only [opened_inputs, write_entry, List.append_assoc] at this
        simp only [hs, Option.map_some', List.map_cons, Entry.record, Entry.lfh,
          List.append_assoc, this]

theorem write_central_closed (start : Nat) (es : List Entry) (out : Bytes) :
    write_central (central_of start es) (es.map Entry.name) out = out ++ directory start es := by
  induction es generalizing start out with
  | nil => simp [write_central, central_of, directory]
  | cons e rest ih =>
    simp only [central_of, List.map_cons, write_central, ih, directory, List.append_assoc]

theorem input_isSome (env : Env) (archive out p : Bytes) :
    (env.input archive out p).isSome = env.opens archive p := by
  unfold Env.input Env.opens
  cases env.same p archive <;> cases env.reopens p <;> simp

/-- An input that does not name the archive file delivers its content. -/
theorem input_other (env : Env) (archive out p : Bytes) (h : env.same p archive = false) :
    env.input archive out p = env.readable p := by
  simp [Env.input, h]

/-- An input that names the archive file delivers, if it opens, a beginning of what
the archive stream has been given. -/
theorem input_archive (env : Env) (archive out p d : Bytes) (h : env.same p archive = true)
    (hd : env.input archive out p = some d) : d = out.take (env.flushed out) := by
  unfold Env.input at hd
  rw [if_pos h] at hd
  split at hd
  · exact (Option.some.inj hd).symm
  · exact absurd hd (by simp)

/-- The state in which the loop of lines 122-154 starts. -/
theorem create_unfold (g : Flags) (c : Codec) (env : Env) (archive : Bytes)
    (files : List Bytes) (hflags : (g.use_zlib && g.use_lzma) = false)
    (hcreat : env.creatable archive = true) :
    create_zip_store g c env archive files =
      (let w := add_files g c (env.input archive) files
        { out := ZIP1, central := [], filenames := [], cerr := [], cout := [], opened := [],
          thrown := none }
       match w.thrown with
       | some e =>
         { cerr := w.cerr, cout := w.cout, opened := w.opened, archive := some w.out,
           thrown := some e }
       | none =>
         { cerr := w.cerr, cout := w.cout, opened := w.opened,
           archive := some (write_central w.central w.filenames w.out ++
             (EndOfCentralDirectory.bytes
               { entriesThisDisk := w.central.length % 2 ^ 16,
                 entriesTotal := w.central.length % 2 ^ 16,
                 cdSize := ((write_central w.central w.filenames w.out).length % 2 ^ 32
                   + 2 ^ 32 - w.out.length % 2 ^ 32) % 2 ^ 32,
                 cdOffset := w.out.length % 2 ^ 32 })),
           thrown := none }) := by
  simp [create_zip_store, hflags, hcreat]

theorem create_thrown (g : Flags) (c : Codec) (env : Env) (archive : Bytes)
    (files : List Bytes) (hflags : (g.use_zlib && g.use_lzma) = false)
    (hcreat : env.creatable archive = true) :
    (create_zip_store g c env archive files).thrown
      = (add_files g c (env.input archive) files
          { out := ZIP1, central := [], filenames := [], cerr := [], cout := [], opened := [],
            thrown := none }).thrown := by
  rw [create_unfold g c env archive files hflags hcreat]
  simp only
  split <;> simp_all

/-- The archive of a run that got past both guards and met no exception: the
prefix, the entry section, the directory section and the terminator; the entries
are the inputs that opened. -/
theorem create_archive_closed (g : Flags) (c : Codec) (env : Env) (archive : Bytes)
    (files : List Bytes) (hflags : (g.use_zlib && g.use_lzma) = false)
    (hcreat : env.creatable archive = true)
    (hthrown : (create_zip_store g c env archive files).thrown = none) :
    (create_zip_store g c env archive files).archive
      = some (ZIP1 ++ records (written g c env archive files)
          ++ directory 4 (written g c env archive files)
          ++ (terminator_of (written g c env archive files)).bytes)
    ∧ (written g c env archive files).map Entry.name = files.filter (env.opens archive) := by
  have hw := hthrown
  rw [create_thrown g c env archive files hflags hcreat] at hw
  rw [create_unfold g c env archive files hflags hcreat]
  refine ⟨?_, add_files_names g c (env.input archive) (env.opens archive)
    (input_isSome env archive) files _ hw⟩
  simp only [hw, add_files_central, add_files_filenames, add_files_out, List.nil_append,
    write_central_closed, terminator_of, written]
  have h4 : ZIP1.length = 4 := rfl
  have hlen : (central_of 4 (entries g c (env.input archive) ZIP1 files)).length
      = (entries g c (env.input archive) ZIP1 files).length := by
    generalize entries g c (env.input archive) ZIP1 files = es
    generalize 4 = k
    induction es generalizing k with
    | nil => rfl
    | cons e rest ih => simp [central_of, ih]
  simp only [List.length_append, h4, hlen, List.append_assoc, Nat.add_assoc]

/-- When no input names the archive file, the written entries are the inputs that
open in the file system as it was, each with its content. -/
theorem written_fixed (g : Flags) (c : Codec) (env : Env) (archive : Bytes)
    (files : List Bytes) (hflags : (g.use_zlib && g.use_lzma) = false)
    (hcreat : env.creatable archive = true)
    (hthrown : (create_zip_store g c env archive files).thrown = none)
    (hother : ∀ f ∈ files, env.same f archive = false) :
    (written g c env archive files).map (fun e => (e.name, e.data))
      = opened_inputs env.readable files := by
  rw [create_thrown g c env archive files hflags hcreat] at hthrown
  exact entries_fixed g c (env.input archive) env.readable files _
    (fun f hf o => input_other env archive o f (hother f hf)) hthrown

/-- Every written entry holds what the stream on its path delivered when the
archive stream had been given the prefix and the entries before it. -/
theorem written_at (g : Flags) (c : Codec) (env : Env) (archive : Bytes)
    (files : List Bytes) (l1 l2 : List Entry) (e : Entry)
    (h : written g c env archive files = l1 ++ e :: l2) :
    e.name ∈ files ∧ env.input archive (ZIP1 ++ records l1) e.name = some e.data ∧
      select_outdata g c e.data = .ok (e.outdata, e.method) :=
  entries_at g c (env.input archive) files ZIP1 l1 l2 e h

/-! ## Reading from a stream -/

theorem read_take (s : IStream) (n : Nat) (x rest : Bytes) (hf : s.fail = false)
    (h : s.data.drop s.pos = x ++ rest) (hn : n ≤ x.length) :
    s.read n = ({ s with pos := s.pos + n }, x.take n) := by
  have hlen : ((s.data.drop s.pos).take n).length = n := by
    rw [h, List.length_take, List.length_append]; omega
  have htake : (s.data.drop s.pos).take n = x.take n := by
    rw [h, List.take_append_of_le_length hn]
  unfold IStream.read
  simp only [hf, Bool.false_eq_true, if_false, hlen, Nat.lt_irrefl, htake]
  rw [← htake, hlen, if_neg (Nat.lt_irrefl n)]

theorem read_exact (s : IStream) (x rest : Bytes) (hf : s.fail = false)
    (h : s.data.drop s.pos = x ++ rest) :
    s.read x.length = ({ s with pos := s.pos + x.length }, x) := by
  rw [read_take s x.length x rest hf h (Nat.le_refl _), List.take_length]

theorem read_buffer_take (s : IStream) (n : Nat) (x rest : Bytes) (hf : s.fail = false)
    (h : s.data.drop s.pos = x ++ rest) (hn : n ≤ x.length) :
    read_buffer s n = ({ s with pos := s.pos + n }, x.take n) := by
  unfold read_buffer
  rw [read_take s n x rest hf h hn]
  simp only [Prod.mk.injEq, true_and]
  apply overlay_full
  simp [List.length_take, hn]

theorem read_cdh_exact (u : Indeterminate) (i : Nat) (s : IStream)
    (h : CentralDirectoryHeader) (rest : Bytes) (hf : s.fail = false)
    (hd : s.data.drop s.pos = h.bytes ++ rest) :
    read_cdh u i s = ({ s with pos := s.pos + 46 }, h.narrow) := by
  have := read_exact s h.bytes rest hf hd
  rw [cdh_bytes_length] at this
  unfold read_cdh
  simp only [this, Prod.mk.injEq, true_and]
  rw [overlay_full _ _ (by simp [cdh_bytes_length]), cdh_ofBytes_bytes]

theorem read_lfh_exact (u : Indeterminate) (i : Nat) (s : IStream)
    (h : LocalFileHeader) (rest : Bytes) (hf : s.fail = false)
    (hd : s.data.drop s.pos = h.bytes ++ rest) :
    read_lfh u i s = ({ s with pos := s.pos + 30 }, h.narrow) := by
  have := read_exact s h.bytes rest hf hd
  rw [lfh_bytes_length] at this
  unfold read_lfh
  simp only [this, Prod.mk.injEq, true_and]
  rw [overlay_full _ _ (by simp [lfh_bytes_length]), lfh_ofBytes_bytes]

theorem read_eocd_exact (u : Indeterminate) (s : IStream)
    (h : EndOfCentralDirectory) (rest : Bytes) (hf : s.fail = false)
    (hd : s.data.drop s.pos = h.bytes ++ rest) :
    read_eocd u s = ({ s with pos := s.pos + 22 }, h.narrow) := by
  have := read_exact s h.bytes rest hf hd
  rw [eocd_bytes_length] at this
  unfold read_eocd
  simp only [this, Prod.mk.injEq, true_and]
  rw [overlay_full _ _ (by simp [eocd_bytes_length]), eocd_ofBytes_bytes]

theorem seekg_tellg (s : IStream) : s.seekg s.tellg = s := by
  unfold IStream.seekg IStream.tellg
  cases s with
  | mk data pos fail =>
    cases fail
    · simp only [Bool.false_eq_true, if_false, Int.toNat_ofNat]
      rw [if_neg (by omega)]
    · simp

/-- The readers' first steps on a file that starts with the prefix and ends with a
terminator record: the prefix check passes and the terminator is read whole. -/
theorem read_preamble (u : Indeterminate) (mid : Bytes) (e : EndOfCentralDirectory) :
    (read_magic u (IStream.ofFile (ZIP1 ++ mid ++ e.bytes))).2 = ZIP1 ∧
    read_eocd u ((read_magic u (IStream.ofFile (ZIP1 ++ mid ++ e.bytes))).1.seekg_end 22)
      = ({ data := ZIP1 ++ mid ++ e.bytes, pos := (ZIP1 ++ mid ++ e.bytes).length,
           fail := false }, e.narrow) := by
  have hm : read_magic u (IStream.ofFile (ZIP1 ++ mid ++ e.bytes))
      = ({ data := ZIP1 ++ mid ++ e.bytes, pos := 4, fail := false }, ZIP1) := by
    unfold read_magic
    have := read_exact (IStream.ofFile (ZIP1 ++ mid ++ e.bytes)) ZIP1 (mid ++ e.bytes) rfl
      (by simp [IStream.ofFile])
    rw [show ZIP1.length = 4 from rfl] at this
    rw [this]
    simp [IStream.ofFile, overlay_full, le_length, ZIP1]
  rw [hm]
  refine ⟨rfl, ?_⟩
  have hlen : (ZIP1 ++ mid ++ e.bytes).length = (ZIP1 ++ mid).length + 22 := by
    rw [List.length_append, eocd_bytes_length]
  have hs : IStream.seekg_end { data := ZIP1 ++ mid ++ e.bytes, pos := 4, fail := false } 22
      = { data := ZIP1 ++ mid ++ e.bytes, pos := (ZIP1 ++ mid).length, fail := false } := by
    unfold IStream.seekg_end
    simp only [Bool.false_eq_true, if_false, hlen]
    rw [if_pos (by omega), Nat.add_sub_cancel]
  rw [hs, read_eocd_exact u _ e [] rfl (by simp), hlen]

/-! ## Walking a written directory -/

theorem located_of_append (es : List Entry) (pre post : Bytes) :
    Located (pre ++ (records es ++ post)) pre.length es := by
  induction es generalizing pre with
  | nil => trivial
  | cons e rest ih =>
    refine ⟨⟨records rest ++ post, ?_⟩, ?_⟩
    · simp [records, List.append_assoc]
    · have := ih (pre ++ e.record)
      simpa [records, List.append_assoc] using this

theorem record_length (e : Entry) :
    e.record.length = 30 + e.name.length + e.outdata.length := by
  simp only [Entry.record, List.length_append, lfh_bytes_length]

theorem lfh_narrow_of_fits (e : Entry) (hm : e.method < 2 ^ 16) : e.lfh.narrow = e.lfh := by
  have := simple_crc32_lt e.data
  simp only [LocalFileHeader.narrow, Entry.lfh, Nat.mod_mod]
  congr 1 <;> omega

theorem cdh_narrow_of_fits (e : Entry) (start : Nat) (hm : e.method < 2 ^ 16) :
    (e.cdh start).narrow = e.cdh start := by
  have := simple_crc32_lt e.data
  simp only [CentralDirectoryHeader.narrow, Entry.cdh, Nat.mod_mod]
  congr 1 <;> omega

theorem drop_past (data : Bytes) (pos : Nat) (x rest : Bytes)
    (h : data.drop pos = x ++ rest) : data.drop (pos + x.length) = rest := by
  rw [← List.drop_drop, h, List.drop_left]

/-- One pass of lines 201-209 over a directory entry the writer produced, whose
stored offset leads to the record of the same entry. -/
theorem read_entry_written (u : Indeterminate) (content : Bytes) (i : Nat) (s : IStream)
    (e : Entry) (start : Nat) (post tail : Bytes) (hf : s.fail = false)
    (hd : s.data.drop s.pos = (e.cdh start).bytes ++ e.name ++ post)
    (hl : content.drop (start % 2 ^ 32) = e.record ++ tail)
    (hm : e.method < 2 ^ 16) :
    (read_entry u content i s).next
        = { s with pos := s.pos + 46 + e.name.length % 2 ^ 16 } ∧
    (read_entry u content i s).fname = e.name.take (e.name.length % 2 ^ 16) ∧
    (read_entry u content i s).fname2 = e.name.take (e.name.length % 2 ^ 16) ∧
    (read_entry u content i s).lfh = e.lfh ∧
    (e.name.length < 2 ^ 16 → e.outdata.length < 2 ^ 32 →
      (read_entry u content i s).data = e.outdata) := by
  have h1 : read_cdh u i s = ({ s with pos := s.pos + 46 }, e.cdh start) := by
    rw [read_cdh_exact u i s (e.cdh start) (e.name ++ post) hf (by rw [hd, List.append_assoc]),
      cdh_narrow_of_fits e start hm]
  have hk : e.name.length % 2 ^ 16 ≤ e.name.length := Nat.mod_le _ _
  have hd1 : s.data.drop (s.pos + 46) = e.name ++ post := by
    have := drop_past s.data s.pos (e.cdh start).bytes (e.name ++ post)
      (by rw [hd, List.append_assoc])
    rwa [cdh_bytes_length] at this
  have h2 : read_buffer { s with pos := s.pos + 46 } (e.name.length % 2 ^ 16)
      = ({ s with pos := s.pos + 46 + e.name.length % 2 ^ 16 },
          e.name.take (e.name.length % 2 ^ 16)) :=
    read_buffer_take _ _ e.name post hf hd1 hk
  have h3 : read_lfh u i ((IStream.ofFile content).seekg_beg (start % 2 ^ 32))
      = ({ data := content, pos := start % 2 ^ 32 + 30, fail := false }, e.lfh) := by
    rw [read_lfh_exact u i _ e.lfh (e.name ++ (e.outdata ++ tail)) rfl
      (by simpa [IStream.seekg_beg, IStream.ofFile, Entry.record, List.append_assoc] using hl),
      lfh_narrow_of_fits e hm]
    rfl
  have hd3 : content.drop (start % 2 ^ 32 + 30) = e.name ++ (e.outdata ++ tail) := by
    have := drop_past content (start % 2 ^ 32) e.lfh.bytes (e.name ++ (e.outdata ++ tail))
      (by simpa [Entry.record, List.append_assoc] using hl)
    rwa [lfh_bytes_length] at this
  have h4 : read_buffer { data := content, pos := start % 2 ^ 32 + 30, fail := false }
      (e.name.length % 2 ^ 16)
      = ({ data := content, pos := start % 2 ^ 32 + 30 + e.name.length % 2 ^ 16,
           fail := false }, e.name.take (e.name.length % 2 ^ 16)) :=
    read_buffer_take _ _ e.name (e.outdata ++ tail) rfl hd3 hk
  have hfl : e.lfh.filenameLength = e.name.length % 2 ^ 16 := rfl
  have hcl : (e.cdh start).filenameLength = e.name.length % 2 ^ 16 := rfl
  have hco : (e.cdh start).localHeaderOffset = start % 2 ^ 32 := rfl
  have hcs : e.lfh.compressedSize = e.outdata.length % 2 ^ 32 := rfl
  simp only [read_entry, h1, hcl, h2, hco, h3, hfl, h4, hcs, true_and]
  intro hn ho
  have hd5 : content.drop (start % 2 ^ 32 + 30 + e.name.length % 2 ^ 16)
      = e.outdata ++ tail := by
    have := drop_past content (start % 2 ^ 32 + 30) e.name (e.outdata ++ tail) hd3
    rwa [← Nat.mod_eq_of_lt hn] at this
  rw [read_buffer_take _ _ e.outdata tail rfl hd5 (Nat.mod_le _ _), Nat.mod_eq_of_lt ho,
    List.take_length]

theorem list_loop_written (u : Indeterminate) (es : List Entry) (start i : Nat)
    (s : IStream) (post : Bytes) (hf : s.fail = false)
    (hd : s.data.drop s.pos = directory start es ++ post)
    (hfit : ∀ e ∈ es, e.name.length < 2 ^ 16 ∧ e.method < 2 ^ 16) :
    list_loop u es.length i s = es.map Entry.name := by
  induction es generalizing start i s with
  | nil => rfl
  | cons e rest ih =>
    obtain ⟨hn, hm⟩ := hfit e (List.mem_cons_self _ _)
    have hd0 : s.data.drop s.pos
        = (e.cdh start).bytes ++ (e.name ++ (directory (start + e.record.length) rest ++ post)) := by
      simpa [directory, List.append_assoc] using hd
    have h1 : read_cdh u i s = ({ s with pos := s.pos + 46 }, e.cdh start) := by
      rw [read_cdh_exact u i s (e.cdh start) _ hf hd0, cdh_narrow_of_fits e start hm]
    have hd1 : s.data.drop (s.pos + 46)
        = e.name ++ (directory (start + e.record.length) rest ++ post) := by
      have := drop_past s.data s.pos (e.cdh start).bytes _ hd0
      rwa [cdh_bytes_length] at this
    have hcl : (e.cdh start).filenameLength = e.name.length := Nat.mod_eq_of_lt hn
    have h2 : read_buffer { s with pos := s.pos + 46 } e.name.length
        = ({ s with pos := s.pos + 46 + e.name.length }, e.name) := by
      rw [read_buffer_take { s with pos := s.pos + 46 } _ e.name _ hf hd1 (Nat.le_refl _),
        List.take_length]
    have hd2 := drop_past s.data (s.pos + 46) e.name _ hd1
    simp only [List.length_cons, list_loop, h1, hcl, h2, List.map_cons, List.cons.injEq,
      true_and]
    exact ih (start + e.record.length) (i + 1) _ hf hd2
      (fun e' he' => hfit e' (List.mem_cons_of_mem _ he'))

theorem located_start_lt (content : Bytes) (start : Nat) (e : Entry) (es : List Entry)
    (h : Located content start (e :: es)) : start < content.length := by
  obtain ⟨⟨tail, ht⟩, _⟩ := h
  by_contra hge
  rw [List.drop_of_length_le (by omega)] at ht
  have := congrArg List.length ht
  simp only [List.length_nil, List.length_append, record_length] at this
  omega

theorem extract_passes_written (g : Flags) (c : Codec) (u : Indeterminate)
    (content outdir : Bytes) (es : List Entry) (start i : Nat) (s : IStream) (post : Bytes)
    (hf : s.fail = false)
    (hd : s.data.drop s.pos = directory start es ++ post)
    (hloc : Located content start es) (hlen : content.length < 2 ^ 32)
    (hfit : ∀ e ∈ es, e.Fits ∧
      write_payload c e.lfh e.outdata = { cerr := [], written := e.data, completed := true }) :
    extract_passes g c u content outdir es.length i s
      = { cerr := [],
          cout := if g.verbose then es.map Entry.name else [],
          dirs := List.replicate es.length outdir,
          files := es.map (fun e => (outdir ++ slash ++ e.name, e.data)) } := by
  induction es generalizing start i s with
  | nil => simp [extract_passes]
  | cons e rest ih =>
    obtain ⟨⟨hn, hdl, hol, hm⟩, hp⟩ := hfit e (List.mem_cons_self _ _)
    have hlt := located_start_lt content start e rest hloc
    obtain ⟨⟨tail, ht⟩, hloc'⟩ := hloc
    have hd0 : s.data.drop s.pos
        = (e.cdh start).bytes ++ e.name ++ (directory (start + e.record.length) rest ++ post) := by
      simpa [directory, List.append_assoc] using hd
    have hstart : start % 2 ^ 32 = start := Nat.mod_eq_of_lt (by omega)
    obtain ⟨hnext, -, hf2, hlfh, hdata⟩ := read_entry_written u content i s e start _ tail hf hd0
      (by rw [hstart]; exact ht) hm
    have hdata := hdata hn hol
    have hnl : e.name.length % 2 ^ 16 = e.name.length := Nat.mod_eq_of_lt hn
    rw [hnl] at hnext hf2
    rw [List.take_length] at hf2
    have hd2 : s.data.drop (s.pos + 46 + e.name.length)
        = directory (start + e.record.length) rest ++ post := by
      have h46 := drop_past s.data s.pos (e.cdh start).bytes _
        (by rw [hd0, List.append_assoc])
      rw [cdh_bytes_length] at h46
      exact drop_past s.data (s.pos + 46) e.name _ h46
    have hrest := ih (start + e.record.length) (i + 1)
      { s with pos := s.pos + 46 + e.name.length } hf hd2 hloc'
      (fun e' he' => hfit e' (List.mem_cons_of_mem _ he'))
    simp only [List.length_cons, extract_passes, hnext, hf2, hlfh, hdata, hp, seekg_tellg,
      if_true, hrest, List.nil_append, List.map_cons, List.replicate_succ, Bool.true_and]
    cases g.verbose <;> simp

/-! ## The entries of a run -/

theorem select_outdata_cases (g : Flags) (c : Codec) (d o : Bytes) (m : Nat)
    (h : select_outdata g c d = .ok (o, m)) :
    (g.use_zlib = true ∧ c.compress2 d = some o ∧ m = 8) ∨
    (g.use_zlib = false ∧ g.use_lzma = true ∧ c.lzma_encode d = some o ∧ m = 14) ∨
    (g.use_zlib = false ∧ g.use_lzma = false ∧ o = d ∧ m = 0) := by
  unfold select_outdata at h
  cases hz : g.use_zlib with
  | true =>
    left
    simp only [hz, if_true, compress_zlib] at h
    cases hc : c.compress2 d with
    | none => simp [hc] at h
    | some z =>
      simp only [hc, Except.ok.injEq, Prod.mk.injEq] at h
      exact ⟨rfl, by rw [h.1], h.2.symm⟩
  | false =>
    right
    cases hl : g.use_lzma with
    | true =>
      left
      simp only [hz, hl, if_true, Bool.false_eq_true, if_false, compress_lzma] at h
      cases hc : c.lzma_encode d with
      | none => simp [hc] at h
      | some z =>
        simp only [hc, Except.ok.injEq, Prod.mk.injEq] at h
        exact ⟨rfl, rfl, by rw [h.1], h.2.symm⟩
    | false =>
      right
      simp only [hz, hl, Bool.false_eq_true, if_false, Except.ok.injEq, Prod.mk.injEq] at h
      exact ⟨rfl, rfl, h.1.symm, h.2.symm⟩

theorem record_le_records (es : List Entry) (e : Entry) (h : e ∈ es) :
    e.record.length ≤ (records es).length := by
  induction es with
  | nil => simp at h
  | cons x rest ih =>
    simp only [records, List.length_append]
    rcases List.mem_cons.mp h with h | h
    · subst h; omega
    · have := ih h; omega

theorem dec_buffer_exact (d : Bytes) : dec_buffer d.length d = d := by
  simp [dec_buffer, overlay]

/-- Decoding the payload the writer chose gives back the content, for codecs whose
decoder inverts their encoder. -/
theorem write_payload_select (g : Flags) (c : Codec) (e : Entry)
    (hs : select_outdata g c e.data = .ok (e.outdata, e.method))
    (hzlib : ∀ x z, c.compress2 x = some z → c.uncompress z x.length = (true, x))
    (hlzma : ∀ x z, c.lzma_encode x = some z → c.lzma_decode z x.length = some (true, x))
    (hd : e.data.length < 2 ^ 32) :
    write_payload c e.lfh e.outdata = { cerr := [], written := e.data, completed := true } := by
  have hu : e.lfh.uncompressedSize = e.data.length := Nat.mod_eq_of_lt hd
  have hc : e.lfh.compression = e.method := rfl
  unfold write_payload
  rw [hu, hc]
  rcases select_outdata_cases g c _ _ _ hs with ⟨-, h, hm⟩ | ⟨-, -, h, hm⟩ | ⟨-, -, h, hm⟩
  · simp [hm, hzlib _ _ h, dec_buffer_exact]
  · simp [hm, hlzma _ _ h, dec_buffer_exact]
  · simp [hm, h]

theorem select_outdata_method_lt (g : Flags) (c : Codec) (d o : Bytes) (m : Nat)
    (h : select_outdata g c d = .ok (o, m)) : m < 2 ^ 16 := by
  rcases select_outdata_cases g c _ _ _ h with ⟨-, -, hm⟩ | ⟨-, -, -, hm⟩ | ⟨-, -, -, hm⟩ <;>
    subst hm <;> decide

theorem terminator_narrow (es : List Entry) : (terminator_of es).narrow = terminator_of es := by
  simp only [EndOfCentralDirectory.narrow, terminator_of, Nat.mod_mod]
  congr 1

theorem add_files_thrown_store (g : Flags) (c : Codec) (rd : Bytes → Bytes → Option Bytes)
    (files : List Bytes) (w : Writer) (hz : g.use_zlib = false) (hl : g.use_lzma = false)
    (hw : w.thrown = none) : (add_files g c rd files w).thrown = none := by
  induction files generalizing w with
  | nil => exact hw
  | cons f rest ih =>
    simp only [add_files]
    cases hr : rd w.out f with
    | none => exact ih _ hw
    | some data =>
      have : select_outdata g c data = .ok (data, 0) := by simp [select_outdata, hz, hl]
      simp only [this]
      exact ih _ hw

/-- A run that stores (neither `-z` nor `-l`) meets no exception. -/
theorem create_thrown_store (g : Flags) (c : Codec) (env : Env) (archive : Bytes)
    (files : List Bytes) (hz : g.use_zlib = false) (hl : g.use_lzma = false) :
    (create_zip_store g c env archive files).thrown = none := by
  unfold create_zip_store
  simp only [hz, hl, Bool.and_self, Bool.false_eq_true, if_false]
  split
  · rfl
  · have := add_files_thrown_store g c (env.input archive) files
      { out := ZIP1, central := [], filenames := [], cerr := [], cout := [], opened := [],
        thrown := none } hz hl rfl
    simp only [this]

/-! ## Runs of `extract_zip` that leave their archive alone -/

theorem settle_of_dir (env : Env) (outdir : Bytes) (o : ExtractOutcome)
    (h : env.makes_dir outdir = true) :
    o.settle env outdir
      = { o with
          files := o.files.filter (fun f => env.creatable f.1),
          unopened := (o.files.filter (fun f => !env.creatable f.1)).map Prod.fst } := by
  simp [ExtractOutcome.settle, h]

/-- When every output stream opens, the passes take place as they are. -/
theorem settle_of_creatable (env : Env) (outdir : Bytes) (o : ExtractOutcome)
    (h : env.makes_dir outdir = true) (hc : ∀ f ∈ o.files, env.creatable f.1 = true)
    (hu : o.unopened = []) (ht : o.thrown = false) :
    o.settle env outdir = o := by
  rw [settle_of_dir env outdir o h]
  have h1 : o.files.filter (fun f => env.creatable f.1) = o.files :=
    List.filter_eq_self.mpr hc
  have h2 : o.files.filter (fun f => !env.creatable f.1) = [] := by
    apply List.filter_eq_nil_iff.mpr
    intro f hf
    simp [hc f hf]
  rw [h1, h2]
  cases o
  simp_all

theorem extract_passes_fields (g : Flags) (c : Codec) (u : Indeterminate)
    (content outdir : Bytes) (n i : Nat) (s : IStream) :
    (extract_passes g c u content outdir n i s).unopened = [] ∧
    (extract_passes g c u content outdir n i s).thrown = false ∧
    (extract_passes g c u content outdir n i s).dirs = List.replicate n outdir := by
  induction n generalizing i s with
  | zero => exact ⟨rfl, rfl, rfl⟩
  | succ k ih =>
    refine ⟨rfl, rfl, ?_⟩
    simp only [extract_passes, List.replicate_succ, (ih _ _).2.2]

/-- A run of the loop in which no output stream opens on the archive file makes the
passes of `extract_passes`, as far as the file system lets it. -/
theorem extract_loop_settle (g : Flags) (c : Codec) (u : Indeterminate) (env : Env)
    (archive outdir content : Bytes) (n i : Nat) (s : IStream)
    (hq : ∀ f ∈ (extract_passes g c u content outdir n i s).files,
      (env.creatable f.1 && env.same f.1 archive) = false) :
    extract_loop g c u env archive outdir n i content s
      = (extract_passes g c u content outdir n i s).settle env outdir := by
  induction n generalizing i s with
  | zero => simp [extract_loop, extract_passes, ExtractOutcome.settle]
  | succ k ih =>
    cases hd : env.makes_dir outdir with
    | false =>
      simp [extract_loop, extract_passes, ExtractOutcome.settle, hd]
    | true =>
      simp only [extract_passes, List.mem_cons, forall_eq_or_imp] at hq
      obtain ⟨hq1, hq2⟩ := hq
      have hrest := ih _ _ hq2
      rw [settle_of_dir _ _ _ hd] at hrest ⊢
      simp only [extract_loop, hd, Bool.not_true, Bool.false_eq_true, if_false, hq1,
        extract_passes]
      rw [hrest]
      have ht := fun i s => (extract_passes_fields g c u content outdir k i s).2.1
      generalize outdir ++ slash ++ (read_entry u content i s).fname2 = path
      cases hcr : env.creatable path <;> simp [List.filter_cons, hcr, ht]

/-! ## The readers on a written archive -/

/-- The bytes of an archive with the given entries. -/
theorem layout_length (es : List Entry) :
    (ZIP1 ++ records es ++ directory 4 es ++ (terminator_of es).bytes).length
      = 4 + (records es).length + (directory 4 es).length + 22 := by
  simp only [List.length_append, eocd_bytes_length, show ZIP1.length = 4 from rfl]

theorem after_create_readable (g : Flags) (c : Codec) (env : Env) (archive : Bytes)
    (files : List Bytes) (hflags : (g.use_zlib && g.use_lzma) = false)
    (hcreat : env.creatable archive = true)
    (hthrown : (create_zip_store g c env archive files).thrown = none)
    (hre : env.reopens archive = true) :
    (env.after_create g c archive files).readable archive
      = some (ZIP1 ++ records (written g c env archive files)
          ++ directory 4 (written g c env archive files)
          ++ (terminator_of (written g c env archive files)).bytes) := by
  simp only [Env.after_create, Env.same, decide_True, Bool.true_or, if_true, hre,
    (create_archive_closed g c env archive files hflags hcreat hthrown).1]

theorem list_zip_layout (u : Indeterminate) (env : Env) (archive : Bytes) (es : List Entry)
    (hread : env.readable archive
      = some (ZIP1 ++ records es ++ directory 4 es ++ (terminator_of es).bytes))
    (hsize : 4 + (records es).length < 2 ^ 32) (hcount : es.length < 2 ^ 16)
    (hfit : ∀ e ∈ es, e.name.length < 2 ^ 16 ∧ e.method < 2 ^ 16) :
    list_zip u env archive = { cerr := [], cout := es.map Entry.name } := by
  obtain ⟨hm, he⟩ := read_preamble u (records es ++ directory 4 es) (terminator_of es)
  simp only [← List.append_assoc] at hm he
  unfold list_zip
  simp only [hread, hm, ne_eq, not_true_eq_false, if_false, he, terminator_narrow]
  have hn : (terminator_of es).entriesTotal = es.length := Nat.mod_eq_of_lt hcount
  have ho : (terminator_of es).cdOffset = 4 + (records es).length := Nat.mod_eq_of_lt hsize
  rw [hn, ho]
  congr 1
  refine list_loop_written u es 4 0 _ (terminator_of es).bytes rfl ?_ hfit
  simp only [IStream.seekg_beg, Bool.false_eq_true, if_false]
  have := drop_past (ZIP1 ++ records es ++ directory 4 es ++ (terminator_of es).bytes) 0
    (ZIP1 ++ records es) (directory 4 es ++ (terminator_of es).bytes)
    (by simp [List.append_assoc])
  simpa [show ZIP1.length = 4 from rfl] using this

/-- A run of `extract_zip` on an archive that passes the prefix check, in which no
output stream opens on the archive file: the passes `X` of `extract_passes` from the
place the terminator names, as far as the file system lets them take place. -/
theorem extract_zip_quiet (g : Flags) (c : Codec) (u : Indeterminate) (env : Env)
    (archive outdir content : Bytes) (X : ExtractOutcome)
    (hread : env.readable archive = some content)
    (hmagic : (read_magic u (IStream.ofFile content)).2 = ZIP1)
    (hX : extract_passes g c u content outdir
        (read_eocd u ((read_magic u (IStream.ofFile content)).1.seekg_end 22)).2.entriesTotal 0
        ((read_eocd u ((read_magic u (IStream.ofFile content)).1.seekg_end 22)).1.seekg_beg
          (read_eocd u ((read_magic u (IStream.ofFile content)).1.seekg_end 22)).2.cdOffset)
      = X)
    (hq : ∀ f ∈ X.files, (env.creatable f.1 && env.same f.1 archive) = false) :
    extract_zip g c u env archive outdir = X.settle env outdir := by
  unfold extract_zip
  simp only [hread, hmagic, ne_eq, not_true_eq_false, if_false]
  rw [extract_loop_settle _ _ _ _ _ _ _ _ _ _ (by rw [hX]; exact hq), hX]

theorem extract_zip_layout (g : Flags) (c : Codec) (u : Indeterminate) (env : Env)
    (archive outdir : Bytes) (es : List Entry)
    (hread : env.readable archive
      = some (ZIP1 ++ records es ++ directory 4 es ++ (terminator_of es).bytes))
    (hsize : (ZIP1 ++ records es ++ directory 4 es ++ (terminator_of es).bytes).length < 2 ^ 32)
    (hcount : es.length < 2 ^ 16)
    (hfit : ∀ e ∈ es, e.Fits ∧
      write_payload c e.lfh e.outdata = { cerr := [], written := e.data, completed := true })
    (hq : ∀ e ∈ es, (env.creatable (outdir ++ slash ++ e.name)
      && env.same (outdir ++ slash ++ e.name) archive) = false) :
    extract_zip g c u env archive outdir
      = ExtractOutcome.settle env outdir
          { cerr := [],
            cout := if g.verbose then es.map Entry.name else [],
            dirs := List.replicate es.length outdir,
            files := es.map (fun e => (outdir ++ slash ++ e.name, e.data)) } := by
  obtain ⟨hm, he⟩ := read_preamble u (records es ++ directory 4 es) (terminator_of es)
  simp only [← List.append_assoc] at hm he
  have hlen := layout_length es
  refine extract_zip_quiet g c u env archive outdir _ _ hread hm ?_ ?_
  · simp only [hm, he, terminator_narrow]
    have hn : (terminator_of es).entriesTotal = es.length := Nat.mod_eq_of_lt hcount
    have ho : (terminator_of es).cdOffset = 4 + (records es).length :=
      Nat.mod_eq_of_lt (by omega)
    rw [hn, ho]
    refine extract_passes_written g c u _ outdir es 4 0 _ (terminator_of es).bytes rfl ?_ ?_
      hsize hfit
    · simp only [IStream.seekg_beg, Bool.false_eq_true, if_false]
      have := drop_past (ZIP1 ++ records es ++ directory 4 es ++ (terminator_of es).bytes) 0
        (ZIP1 ++ records es) (directory 4 es ++ (terminator_of es).bytes)
        (by simp [List.append_assoc])
      simpa [show ZIP1.length = 4 from rfl] using this
    · have := located_of_append es ZIP1 (directory 4 es ++ (terminator_of es).bytes)
      simpa [List.append_assoc, show ZIP1.length = 4 from rfl] using this
  · intro f hf
    simp only [List.mem_map] at hf
    obtain ⟨e, he, rfl⟩ := hf
    exact hq e he

theorem extract_zip_enters (g : Flags) (c : Codec) (u : Indeterminate) (env : Env)
    (archive outdir : Bytes) (es : List Entry)
    (hread : env.readable archive
      = some (ZIP1 ++ records es ++ directory 4 es ++ (terminator_of es).bytes)) :
    extract_zip g c u env archive outdir
      = extract_loop g c u env archive outdir (es.length % 2 ^ 16) 0
          (ZIP1 ++ records es ++ directory 4 es ++ (terminator_of es).bytes)
          { data := ZIP1 ++ records es ++ directory 4 es ++ (terminator_of es).bytes,
            pos := (4 + (records es).length) % 2 ^ 32, fail := false } := by
  obtain ⟨hm, he⟩ := read_preamble u (records es ++ directory 4 es) (terminator_of es)
  simp only [← List.append_assoc] at hm he
  unfold extract_zip
  simp only [hread, hm, ne_eq, not_true_eq_false, if_false, he, terminator_narrow]
  rfl

theorem list_zip_enters (u : Indeterminate) (env : Env) (archive : Bytes) (es : List Entry)
    (hread : env.readable archive
      = some (ZIP1 ++ records es ++ directory 4 es ++ (terminator_of es).bytes)) :
    list_zip u env archive
      = { cerr := [],
          cout := list_loop u (es.length % 2 ^ 16) 0
            { data := ZIP1 ++ records es ++ directory 4 es ++ (terminator_of es).bytes,
              pos := (4 + (records es).length) % 2 ^ 32, fail := false } } := by
  obtain ⟨hm, he⟩ := read_preamble u (records es ++ directory 4 es) (terminator_of es)
  simp only [← List.append_assoc] at hm he
  unfold list_zip
  simp only [hread, hm, ne_eq, not_true_eq_false, if_false, he, terminator_narrow]
  rfl

theorem entries_length (g : Flags) (c : Codec) (env : Env) (archive : Bytes)
    (files : List Bytes) (hflags : (g.use_zlib && g.use_lzma) = false)
    (hcreat : env.creatable archive = true)
    (hthrown : (create_zip_store g c env archive files).thrown = none) :
    (written g c env archive files).length = (files.filter (env.opens archive)).length := by
  rw [← (create_archive_closed g c env archive files hflags hcreat hthrown).2, List.length_map]

/-- The entries of the run on `manyFiles`. -/
theorem manyFiles_entries_length :
    (written {} noCodec oneEmptyFile [122] manyFiles).length = 65536 := by
  rw [entries_length {} noCodec oneEmptyFile [122] manyFiles rfl rfl
    (create_thrown_store _ _ _ _ _ rfl rfl), manyFiles,
    List.filter_replicate_of_pos (by decide), List.length_replicate]

/-- The archive written from the empty file `a` given 65536 times says that it has
no entry, and `extract_zip` writes no file from it. -/
theorem nothing_extracted_from_65536_entries :
    extract_zip {} noCodec zeroed (oneEmptyFile.after_create {} noCodec [122] manyFiles)
        [122] [111]
      = { cerr := [], cout := [], dirs := [], files := [] } := by
  rw [extract_zip_enters _ _ _ _ _ _ _
    (after_create_readable {} noCodec oneEmptyFile [122] manyFiles rfl rfl
      (create_thrown_store _ _ _ _ _ rfl rfl) rfl), manyFiles_entries_length]
  rfl

/-- C1, as stated, fails.
* The writer is given the empty file `a` 65536 times and stores it 65536 times; the
  16-bit entry count of the terminator wraps to 0, and `extract_zip` on the archive
  writes no file at all.
* The writer is given its own archive path `a` as the input, a file of three bytes:
  the archive stream has truncated the file before it is read, the entry `a` is
  stored with no content, and `extract_zip` writes an empty `o/a`.
* With the empty path for the output directory, `fs::create_directories` throws in
  the first pass and nothing is written.
* The entry `d/a` is to be written to `o/d/a`, the output stream does not open (no
  directory `o/d` is created) and nothing is written or reported.
* The archive `o/a` holds the entries `a` and `b` and is extracted into `o`: the
  first pass overwrites the archive with the three bytes of `a`, and the second pass
  finds no entry `b` in it (its reads come up short; with zeros in the objects they
  leave untouched it tries the path `o/`, which does not open). -/
theorem round_trip_fails :
    (manyFiles.filter (oneEmptyFile.opens [122])).length = 65536 ∧
    (extract_zip {} noCodec zeroed (oneEmptyFile.after_create {} noCodec [122] manyFiles)
        [122] [111]).files = [] ∧
    twoFiles.readable [97] = some [1, 2, 3] ∧
    (create_zip_store {} noCodec twoFiles [97] [[97]]).thrown = none ∧
    (extract_zip {} noCodec zeroed (twoFiles.after_create {} noCodec [97] [[97]])
        [97] [111]).files = [([111, 47, 97], [])] ∧
    extract_zip {} noCodec zeroed (twoFiles.after_create {} noCodec [122] [[97]]) [122] []
      = { cerr := [], cout := [], dirs := [[]], files := [], thrown := true } ∧
    extract_zip {} noCodec zeroed (subdirInput.after_create {} noCodec [122] [[100, 47, 97]])
        [122] [111]
      = { cerr := [], cout := [], dirs := [[111]], files := [],
          unopened := [[111, 47, 100, 47, 97]] } ∧
    extract_zip {} noCodec zeroed
        (twoFilesInDir.after_create {} noCodec [111, 47, 97] [[97], [98]]) [111, 47, 97] [111]
      = { cerr := [], cout := [], dirs := [[111], [111]],
          files := [([111, 47, 97], [1, 2, 3])], unopened := [[111, 47]] } := by
  refine ⟨?_, ?_, rfl, by decide, by decide, by decide, by decide, by decide⟩
  · rw [manyFiles, List.filter_replicate_of_pos (by decide), List.length_replicate]
  · rw [nothing_extracted_from_65536_entries]

/-- C1 (amended): round trip within the limits of the fixed-width fields, for runs
that leave their own archive alone.  Take a run of `create_zip_store` under one
compression method (store, deflate or lzma, with decoders that invert the encoders)
that ends without an exception, where no input names the archive file, every name is
shorter than `2 ^ 16` bytes, every content shorter than `2 ^ 32` bytes, fewer than
`2 ^ 16` files are written and the archive is shorter than `2 ^ 32` bytes.  Take a
run of `extract_zip` on a file that holds the written archive, where the output
directory can be created, every output stream opens and none of them opens on the
archive file.  It reports no error and writes exactly the inputs that opened, in
order: each under `outdir/name` with the bytes of the input. -/
theorem round_trip_within_limits (g g' : Flags) (c : Codec) (u : Indeterminate)
    (env env' : Env) (archive archive' outdir : Bytes) (files : List Bytes)
    (hflags : (g.use_zlib && g.use_lzma) = false)
    (hcreat : env.creatable archive = true)
    (hthrown : (create_zip_store g c env archive files).thrown = none)
    (hzlib : ∀ x z, c.compress2 x = some z → c.uncompress z x.length = (true, x))
    (hlzma : ∀ x z, c.lzma_encode x = some z → c.lzma_decode z x.length = some (true, x))
    (hother : ∀ f ∈ files, env.same f archive = false)
    (hnames : ∀ f ∈ files, f.length < 2 ^ 16)
    (hdata : ∀ f ∈ files, ∀ d, env.readable f = some d → d.length < 2 ^ 32)
    (hcount : (opened_inputs env.readable files).length < 2 ^ 16)
    (hsize : ∀ a, (create_zip_store g c env archive files).archive = some a →
      a.length < 2 ^ 32)
    (hstored : env'.readable archive' = (create_zip_store g c env archive files).archive)
    (hdir : env'.makes_dir outdir = true)
    (hout : ∀ p ∈ opened_inputs env.readable files,
      env'.creatable (outdir ++ slash ++ p.1) = true ∧
      env'.same (outdir ++ slash ++ p.1) archive' = false) :
    extract_zip g' c u env' archive' outdir
      = { cerr := [],
          cout := if g'.verbose then (opened_inputs env.readable files).map Prod.fst else [],
          dirs := List.replicate (opened_inputs env.readable files).length outdir,
          files := (opened_inputs env.readable files).map
            (fun p => (outdir ++ slash ++ p.1, p.2)) } := by
  obtain ⟨harch, -⟩ := create_archive_closed g c env archive files hflags hcreat hthrown
  have hmap := written_fixed g c env archive files hflags hcreat hthrown hother
  have hsz := hsize _ harch
  have hlen := layout_length (written g c env archive files)
  have hl : (written g c env archive files).length
      = (opened_inputs env.readable files).length := by
    rw [← hmap, List.length_map]
  have hfit : ∀ e ∈ written g c env archive files, e.Fits ∧
      write_payload c e.lfh e.outdata
        = { cerr := [], written := e.data, completed := true } := by
    intro e he
    obtain ⟨hmem, ⟨o, hrd⟩, hsel⟩ := entries_mem g c (env.input archive) files ZIP1 e he
    rw [input_other env archive o e.name (hother _ hmem)] at hrd
    have hd := hdata _ hmem _ hrd
    have hrec := record_le_records _ e he
    rw [record_length] at hrec
    exact ⟨⟨hnames _ hmem, hd, by omega, select_outdata_method_lt g c _ _ _ hsel⟩,
      write_payload_select g c e hsel hzlib hlzma hd⟩
  have hmem : ∀ e ∈ written g c env archive files,
      (e.name, e.data) ∈ opened_inputs env.readable files := fun e he => by
    rw [← hmap]
    exact List.mem_map.mpr ⟨e, he, rfl⟩
  rw [extract_zip_layout g' c u env' archive' outdir (written g c env archive files)
    (by rw [hstored, harch]) hsz (by rw [hl]; exact hcount) hfit
    (fun e he => by rw [(hout _ (hmem e he)).2, Bool.and_false])]
  rw [settle_of_creatable env' outdir _ hdir
    (by
      intro f hf
      simp only [List.mem_map] at hf
      obtain ⟨e, he, rfl⟩ := hf
      exact (hout _ (hmem e he)).1) rfl rfl, hl, ← hmap]
  simp only [List.map_map]
  rfl

/-- Witness for C1 (amended): deflate mode with the toy codec over the inputs `a`
(three bytes), a missing `c` and the empty `b`. -/
theorem round_trip_within_limits_witness :
    extract_zip { verbose := true } toyCodec zeroed
        (twoFiles.after_create { use_zlib := true } toyCodec [122] [[97], [99], [98]])
        [122] [111]
      = { cerr := [], cout := [[97], [98]], dirs := [[111], [111]],
          files := [([111, 47, 97], [1, 2, 3]), ([111, 47, 98], [])] } :=
  round_trip_within_limits { use_zlib := true } { verbose := true } toyCodec zeroed twoFiles
    (twoFiles.after_create { use_zlib := true } toyCodec [122] [[97], [99], [98]])
    [122] [122] [111] [[97], [99], [98]] rfl rfl (by decide)
    (by intro x z h; simp only [toyCodec, Option.some.injEq] at h; subst h; rfl)
    (by intro x z h; simp only [toyCodec, Option.some.injEq] at h; subst h; rfl)
    (by decide)
    (by decide)
    (by
      intro f hf d hd
      simp only [twoFiles] at hd
      split at hd
      · cases hd; decide
      · split at hd
        · cases hd; decide
        · cases hd)
    (by decide)
    (by
      intro a ha
      have h2 : ((create_zip_store { use_zlib := true } toyCodec twoFiles [122]
          [[97], [99], [98]]).archive).map List.length = some 187 := rfl
      rw [ha] at h2
      simp only [Option.map_some', Option.some.injEq] at h2
      omega)
    rfl rfl (by decide)

/-! ## The terminator -/

theorem drop_to_terminator (body : Bytes) (e : EndOfCentralDirectory) :
    (body ++ e.bytes).drop ((body ++ e.bytes).length - 22) = e.bytes := by
  rw [List.length_append, eocd_bytes_length, Nat.add_sub_cancel, List.drop_left]

theorem read_eocd_at_end (u : Indeterminate) (body : Bytes) (e : EndOfCentralDirectory) :
    read_eocd u ((IStream.ofFile (body ++ e.bytes)).seekg_end 22)
      = ({ data := body ++ e.bytes, pos := (body ++ e.bytes).length, fail := false },
          e.narrow) := by
  have hlen : (body ++ e.bytes).length = body.length + 22 := by
    rw [List.length_append, eocd_bytes_length]
  have hs : (IStream.ofFile (body ++ e.bytes)).seekg_end 22
      = { data := body ++ e.bytes, pos := body.length, fail := false } := by
    unfold IStream.seekg_end IStream.ofFile
    simp only [Bool.false_eq_true, if_false, hlen]
    rw [if_pos (by omega), Nat.add_sub_cancel]
  rw [hs, read_eocd_exact u _ e [] rfl (by simp), hlen]

/-- C2: terminator discoverability.  Whatever the input list (also when no input
opens and the archive has zero entries), a run of `create_zip_store` that gets past
its two guards and meets no exception writes an archive whose last 22 bytes are
exactly the serialised terminator the writer built, with magic `0x06054b50` and
comment length 0; seeking to 22 bytes before the end and reading 22 bytes, as
`list_zip` does on lines 178-179, returns that terminator. -/
theorem terminator_is_the_last_22_bytes (g : Flags) (c : Codec) (env : Env)
    (archive : Bytes) (files : List Bytes)
    (hflags : (g.use_zlib && g.use_lzma) = false)
    (hcreat : env.creatable archive = true)
    (hthrown : (create_zip_store g c env archive files).thrown = none) :
    ∃ body : Bytes,
      (create_zip_store g c env archive files).archive
        = some (body ++ (terminator_of (written g c env archive files)).bytes) ∧
      (terminator_of (written g c env archive files)).bytes.length = 22 ∧
      (terminator_of (written g c env archive files)).signature = 0x06054b50 ∧
      (terminator_of (written g c env archive files)).commentLength = 0 ∧
      (body ++ (terminator_of (written g c env archive files)).bytes).drop
          ((body ++ (terminator_of (written g c env archive files)).bytes).length - 22)
        = (terminator_of (written g c env archive files)).bytes ∧
      ∀ u : Indeterminate,
        (read_eocd u ((IStream.ofFile
            (body ++ (terminator_of (written g c env archive files)).bytes)).seekg_end 22)).2
          = terminator_of (written g c env archive files) := by
  refine ⟨ZIP1 ++ records (written g c env archive files)
    ++ directory 4 (written g c env archive files),
    (create_archive_closed g c env archive files hflags hcreat hthrown).1,
    eocd_bytes_length _, rfl, rfl, drop_to_terminator _ _, ?_⟩
  intro u
  rw [read_eocd_at_end, terminator_narrow]

/-- Witness for C2: the only input is missing, so the archive has zero entries. -/
theorem terminator_is_the_last_22_bytes_witness :
    ∃ body : Bytes,
      (create_zip_store {} noCodec twoFiles [122] [[99]]).archive
        = some (body ++ (terminator_of (written {} noCodec twoFiles [122] [[99]])).bytes) ∧
      (terminator_of (written {} noCodec twoFiles [122] [[99]])).bytes.length = 22 ∧
      (terminator_of (written {} noCodec twoFiles [122] [[99]])).signature = 0x06054b50 ∧
      (terminator_of (written {} noCodec twoFiles [122] [[99]])).commentLength = 0 ∧
      (body ++ (terminator_of (written {} noCodec twoFiles [122] [[99]])).bytes).drop
          ((body ++ (terminator_of (written {} noCodec twoFiles [122] [[99]])).bytes).length
            - 22)
        = (terminator_of (written {} noCodec twoFiles [122] [[99]])).bytes ∧
      ∀ u : Indeterminate,
        (read_eocd u ((IStream.ofFile
            (body ++ (terminator_of (written {} noCodec twoFiles [122] [[99]])).bytes)).seekg_end
              22)).2
          = terminator_of (written {} noCodec twoFiles [122] [[99]]) :=
  terminator_is_the_last_22_bytes {} noCodec twoFiles [122] [[99]] rfl rfl rfl

/-- The terminator found at the end of a written archive. -/
theorem written_terminator_closed (g : Flags) (c : Codec) (env : Env) (archive : Bytes)
    (files : List Bytes) (hflags : (g.use_zlib && g.use_lzma) = false)
    (hcreat : env.creatable archive = true)
    (hthrown : (create_zip_store g c env archive files).thrown = none) :
    written_terminator (create_zip_store g c env archive files)
      = some (terminator_of (written g c env archive files)) := by
  rw [written_terminator, (create_archive_closed g c env archive files hflags hcreat hthrown).1,
    Option.map_some', drop_to_terminator, eocd_ofBytes_bytes, terminator_narrow]

theorem terminator_entriesTotal (es : List Entry) :
    (terminator_of es).entriesTotal = es.length % 2 ^ 16 := rfl

theorem terminator_entriesThisDisk (es : List Entry) :
    (terminator_of es).entriesThisDisk = es.length % 2 ^ 16 := rfl

/-- C3, as stated, fails: with the empty file `a` given 65536 times, 65536 inputs open
and 65536 entries are written, and both counts of the terminator are 0. -/
theorem entry_count_wraps_at_65536 :
    (manyFiles.filter (oneEmptyFile.opens [122])).length = 65536 ∧
    (written {} noCodec oneEmptyFile [122] manyFiles).length = 65536 ∧
    ∃ t, written_terminator (create_zip_store {} noCodec oneEmptyFile [122] manyFiles) = some t ∧
      t.entriesTotal = 0 ∧ t.entriesThisDisk = 0 ∧
      t.entriesTotal ≠ (written {} noCodec oneEmptyFile [122] manyFiles).length := by
  have hn : (manyFiles.filter (oneEmptyFile.opens [122])).length = 65536 := by
    rw [manyFiles, List.filter_replicate_of_pos (by decide), List.length_replicate]
  have he := manyFiles_entries_length
  refine ⟨hn, he, _, written_terminator_closed {} noCodec oneEmptyFile [122] manyFiles rfl rfl
    (create_thrown_store _ _ _ _ _ rfl rfl), ?_, ?_, ?_⟩
  · rw [terminator_entriesTotal, he]; decide
  · rw [terminator_entriesThisDisk, he]; decide
  · rw [terminator_entriesTotal, he]
    decide

/-- C3 (amended): directory entry count.  For a run of `create_zip_store` that gets
past its two guards and meets no exception, the files written are the inputs on
which a stream opened during the run, the archive holds one entry header for each of
them, and the terminator at the end of the archive has `entriesTotal =
entriesThisDisk =` their number reduced modulo `2 ^ 16`, the width of the two
fields; the three numbers are equal whenever fewer than `2 ^ 16` files are written. -/
theorem entry_count_modulo_65536 (g : Flags) (c : Codec) (env : Env)
    (archive : Bytes) (files : List Bytes)
    (hflags : (g.use_zlib && g.use_lzma) = false)
    (hcreat : env.creatable archive = true)
    (hthrown : (create_zip_store g c env archive files).thrown = none) :
    (written g c env archive files).map Entry.name = files.filter (env.opens archive) ∧
    ∃ t, written_terminator (create_zip_store g c env archive files) = some t ∧
      (create_zip_store g c env archive files).archive
        = some (ZIP1
            ++ ((written g c env archive files).map
                (fun e => e.lfh.bytes ++ e.name ++ e.outdata)).flatten
            ++ directory 4 (written g c env archive files) ++ t.bytes) ∧
      t.entriesTotal = (files.filter (env.opens archive)).length % 2 ^ 16 ∧
      t.entriesThisDisk = (files.filter (env.opens archive)).length % 2 ^ 16 ∧
      ((files.filter (env.opens archive)).length < 2 ^ 16 →
        t.entriesTotal = (files.filter (env.opens archive)).length ∧
        t.entriesThisDisk = (files.filter (env.opens archive)).length) := by
  have hl := entries_length g c env archive files hflags hcreat hthrown
  obtain ⟨harch, hnames⟩ := create_archive_closed g c env archive files hflags hcreat hthrown
  have hrec : ∀ es : List Entry,
      records es = (es.map (fun e => e.lfh.bytes ++ e.name ++ e.outdata)).flatten := by
    intro es
    induction es with
    | nil => rfl
    | cons e rest ih => simp only [records, Entry.record, List.map_cons, List.flatten_cons, ih]
  refine ⟨hnames, _, written_terminator_closed g c env archive files hflags hcreat hthrown,
    ?_, ?_, ?_, ?_⟩
  · rw [harch, hrec]
  · rw [terminator_entriesTotal, hl]
  · rw [terminator_entriesThisDisk, hl]
  · intro hlt
    rw [terminator_entriesTotal, terminator_entriesThisDisk, hl, Nat.mod_eq_of_lt hlt]
    exact ⟨rfl, rfl⟩

/-- Witness for C3 (amended): the archive `z` is given the inputs `a`, a missing `c`,
`b` and its own path `z`; three of them open. -/
theorem entry_count_modulo_65536_witness :
    (written { use_lzma := true } toyCodec twoFiles [122] [[97], [99], [98], [122]]).map
        Entry.name
      = [[97], [99], [98], [122]].filter (twoFiles.opens [122]) ∧
    ∃ t, written_terminator
        (create_zip_store { use_lzma := true } toyCodec twoFiles [122]
          [[97], [99], [98], [122]]) = some t ∧
      (create_zip_store { use_lzma := true } toyCodec twoFiles [122]
          [[97], [99], [98], [122]]).archive
        = some (ZIP1
            ++ ((written { use_lzma := true } toyCodec twoFiles [122]
                  [[97], [99], [98], [122]]).map
                (fun e => e.lfh.bytes ++ e.name ++ e.outdata)).flatten
            ++ directory 4 (written { use_lzma := true } toyCodec twoFiles [122]
                  [[97], [99], [98], [122]]) ++ t.bytes) ∧
      t.entriesTotal = ([[97], [99], [98], [122]].filter (twoFiles.opens [122])).length % 2 ^ 16 ∧
      t.entriesThisDisk
        = ([[97], [99], [98], [122]].filter (twoFiles.opens [122])).length % 2 ^ 16 ∧
      (([[97], [99], [98], [122]].filter (twoFiles.opens [122])).length < 2 ^ 16 →
        t.entriesTotal = ([[97], [99], [98], [122]].filter (twoFiles.opens [122])).length ∧
        t.entriesThisDisk = ([[97], [99], [98], [122]].filter (twoFiles.opens [122])).length) :=
  entry_count_modulo_65536 { use_lzma := true } toyCodec twoFiles [122]
    [[97], [99], [98], [122]] rfl rfl (by decide)

/-! ## Offsets -/

theorem records_append (l1 l2 : List Entry) :
    records (l1 ++ l2) = records l1 ++ records l2 := by
  induction l1 with
  | nil => rfl
  | cons e rest ih =>
    rw [List.cons_append]
    simp only [records, ih, List.append_assoc]

theorem directory_append (start : Nat) (l1 l2 : List Entry) :
    directory start (l1 ++ l2)
      = directory start l1 ++ directory (start + (records l1).length) l2 := by
  induction l1 generalizing start with
  | nil => simp [records, directory]
  | cons e rest ih =>
    rw [List.cons_append]
    simp only [directory, records, ih, List.append_assoc, List.length_append, Nat.add_assoc]

/-- Where the records and directory entries of a written archive lie: the bytes from
the directory entry of `e` on, and the bytes from the header of `e` on. -/
theorem layout_split (l1 l2 : List Entry) (e : Entry) :
    (ZIP1 ++ records (l1 ++ e :: l2) ++ directory 4 (l1 ++ e :: l2)
        ++ (terminator_of (l1 ++ e :: l2)).bytes).drop
          (4 + (records (l1 ++ e :: l2)).length + (directory 4 l1).length)
      = (e.cdh (4 + (records l1).length)).bytes ++ e.name
          ++ (directory (4 + (records l1).length + e.record.length) l2
              ++ (terminator_of (l1 ++ e :: l2)).bytes) ∧
    (ZIP1 ++ records (l1 ++ e :: l2) ++ directory 4 (l1 ++ e :: l2)
        ++ (terminator_of (l1 ++ e :: l2)).bytes).drop (4 + (records l1).length)
      = e.record ++ (records l2 ++ directory 4 (l1 ++ e :: l2)
          ++ (terminator_of (l1 ++ e :: l2)).bytes) := by
  constructor
  · have := drop_past (ZIP1 ++ records (l1 ++ e :: l2) ++ directory 4 (l1 ++ e :: l2)
        ++ (terminator_of (l1 ++ e :: l2)).bytes) 0
      (ZIP1 ++ records (l1 ++ e :: l2) ++ directory 4 l1)
      ((e.cdh (4 + (records l1).length)).bytes ++ e.name
          ++ (directory (4 + (records l1).length + e.record.length) l2
              ++ (terminator_of (l1 ++ e :: l2)).bytes))
      (by simp only [List.drop_zero, directory_append 4 l1 (e :: l2), directory,
            List.append_assoc])
    simpa only [Nat.zero_add, List.length_append, show ZIP1.length = 4 from rfl] using this
  · have := drop_past (ZIP1 ++ records (l1 ++ e :: l2) ++ directory 4 (l1 ++ e :: l2)
        ++ (terminator_of (l1 ++ e :: l2)).bytes) 0
      (ZIP1 ++ records l1)
      (e.record ++ (records l2 ++ directory 4 (l1 ++ e :: l2)
          ++ (terminator_of (l1 ++ e :: l2)).bytes))
      (by simp only [List.drop_zero, records_append l1 (e :: l2), records, List.append_assoc])
    simpa only [Nat.zero_add, List.length_append, show ZIP1.length = 4 from rfl] using this

theorem seekg_beg_ofFile (a : Bytes) (p : Nat) :
    (IStream.ofFile a).seekg_beg p = { data := a, pos := p, fail := false } := rfl

/-- C4 (amended): offset resolvability below 4 GiB.  In the archive of a run of
`create_zip_store` that gets past its two guards and meets no exception, take any
written entry `e` whose header begins before byte `2 ^ 32`.  The bytes at the place
of its directory entry are the directory entry of `e` with the header position as
`localHeaderOffset`, and reading the directory entry and its name, then the entry
header at `localHeaderOffset` and `filenameLength` bytes after it (lines 201-208),
yields twice the same name: that of `e` (cut to `filenameLength` bytes). -/
theorem offsets_resolve_below_4GiB (g : Flags) (c : Codec) (u : Indeterminate) (env : Env)
    (archive : Bytes) (files : List Bytes) (i : Nat) (l1 l2 : List Entry) (e : Entry)
    (hflags : (g.use_zlib && g.use_lzma) = false)
    (hcreat : env.creatable archive = true)
    (hthrown : (create_zip_store g c env archive files).thrown = none)
    (hsplit : written g c env archive files = l1 ++ e :: l2)
    (hoff : 4 + (records l1).length < 2 ^ 32) :
    ∃ a, (create_zip_store g c env archive files).archive = some a ∧
      (read_entry u a i ((IStream.ofFile a).seekg_beg
          (4 + (records (l1 ++ e :: l2)).length + (directory 4 l1).length))).cdh
        = e.cdh (4 + (records l1).length) ∧
      (read_entry u a i ((IStream.ofFile a).seekg_beg
          (4 + (records (l1 ++ e :: l2)).length + (directory 4 l1).length))).fname
        = e.name.take (e.name.length % 2 ^ 16) ∧
      (read_entry u a i ((IStream.ofFile a).seekg_beg
          (4 + (records (l1 ++ e :: l2)).length + (directory 4 l1).length))).fname2
        = (read_entry u a i ((IStream.ofFile a).seekg_beg
            (4 + (records (l1 ++ e :: l2)).length + (directory 4 l1).length))).fname := by
  obtain ⟨harch, -⟩ := create_archive_closed g c env archive files hflags hcreat hthrown
  rw [hsplit] at harch
  refine ⟨_, harch, ?_⟩
  obtain ⟨hdir, hrec⟩ := layout_split l1 l2 e
  have hm : e.method < 2 ^ 16 := by
    have he : e ∈ written g c env archive files := by rw [hsplit]; simp
    exact select_outdata_method_lt g c _ _ _ (entries_mem g c (env.input archive) files ZIP1 e he).2.2
  generalize ZIP1 ++ records (l1 ++ e :: l2) ++ directory 4 (l1 ++ e :: l2)
    ++ (terminator_of (l1 ++ e :: l2)).bytes = a at hdir hrec ⊢
  generalize hp : 4 + (records (l1 ++ e :: l2)).length + (directory 4 l1).length = p
    at hdir ⊢
  obtain ⟨-, hf, hf2, -, -⟩ := read_entry_written u a i ((IStream.ofFile a).seekg_beg p)
    e (4 + (records l1).length) _ _ rfl hdir
    (by rw [Nat.mod_eq_of_lt hoff]; exact hrec) hm
  refine ⟨?_, hf, by rw [hf2, hf]⟩
  show (read_cdh u i ((IStream.ofFile a).seekg_beg p)).2 = _
  rw [read_cdh_exact u i _ (e.cdh (4 + (records l1).length)) _ rfl
    (by rw [seekg_beg_ofFile]; rw [hdir, List.append_assoc]), cdh_narrow_of_fits e _ hm]

/-- Witness for C4 (amended): the second of two stored entries. -/
theorem offsets_resolve_below_4GiB_witness :
    ∃ a, (create_zip_store {} noCodec twoFiles [122] [[97], [99], [98]]).archive = some a ∧
      (read_entry zeroed a 1 ((IStream.ofFile a).seekg_beg
          (4 + (records ([entryA] ++ smallEntry :: [])).length
            + (directory 4 [entryA]).length))).cdh
        = smallEntry.cdh (4 + (records [entryA]).length) ∧
      (read_entry zeroed a 1 ((IStream.ofFile a).seekg_beg
          (4 + (records ([entryA] ++ smallEntry :: [])).length
            + (directory 4 [entryA]).length))).fname
        = smallEntry.name.take (smallEntry.name.length % 2 ^ 16) ∧
      (read_entry zeroed a 1 ((IStream.ofFile a).seekg_beg
          (4 + (records ([entryA] ++ smallEntry :: [])).length
            + (directory 4 [entryA]).length))).fname2
        = (read_entry zeroed a 1 ((IStream.ofFile a).seekg_beg
            (4 + (records ([entryA] ++ smallEntry :: [])).length
              + (directory 4 [entryA]).length))).fname :=
  offsets_resolve_below_4GiB {} noCodec zeroed twoFiles [122] [[97], [99], [98]] 1
    [entryA] [] smallEntry rfl rfl (by decide) rfl (by decide)

theorem fourGiB_length : fourGiB.length = 2 ^ 32 := by
  rw [fourGiB, List.length_replicate]

theorem fourGiB_take : fourGiB.take 30 = List.replicate 30 0 := by
  rw [fourGiB, List.take_replicate, Nat.min_eq_left (by decide)]

theorem cdh_localHeaderOffset (e : Entry) (start : Nat) :
    (e.cdh start).localHeaderOffset = start % 2 ^ 32 := rfl

theorem cdh_filenameLength (e : Entry) (start : Nat) :
    (e.cdh start).filenameLength = e.name.length % 2 ^ 16 := rfl

theorem bigFile_entries :
    written {} noCodec bigFile [122] [[97], [98]] = [bigEntry, smallEntry] := by
  have h1 : ∀ o, bigFile.input [122] o [97] = some fourGiB := fun _ => rfl
  have h2 : ∀ o, bigFile.input [122] o [98] = some [] := fun _ => rfl
  have h3 : ∀ d, select_outdata {} noCodec d = .ok (d, 0) := fun _ => rfl
  simp only [written, entries, h1, h2, h3, bigEntry, smallEntry]

/-- One pass of lines 201-209 over the directory entry of the second of two stored
entries, when the position of its header wraps to a place inside the payload of the
first entry that holds zero bytes. -/
theorem read_entry_wrapped (u : Indeterminate) (i : Nat) (e0 e1 : Entry)
    (hn : e1.name.length < 2 ^ 16) (hm : e1.method < 2 ^ 16)
    (hoff : (4 + (records [e0]).length) % 2 ^ 32 = 4 + (30 + e0.name.length))
    (hzero : e0.outdata.take 30 = List.replicate 30 0) :
    (read_entry u
        (ZIP1 ++ records [e0, e1] ++ directory 4 [e0, e1] ++ (terminator_of [e0, e1]).bytes) i
        ((IStream.ofFile
          (ZIP1 ++ records [e0, e1] ++ directory 4 [e0, e1] ++ (terminator_of [e0, e1]).bytes)).seekg_beg
          (4 + (records [e0, e1]).length + (directory 4 [e0]).length))).cdh.localHeaderOffset
      = 4 + (30 + e0.name.length) ∧
    (read_entry u
        (ZIP1 ++ records [e0, e1] ++ directory 4 [e0, e1] ++ (terminator_of [e0, e1]).bytes) i
        ((IStream.ofFile
          (ZIP1 ++ records [e0, e1] ++ directory 4 [e0, e1] ++ (terminator_of [e0, e1]).bytes)).seekg_beg
          (4 + (records [e0, e1]).length + (directory 4 [e0]).length))).fname = e1.name ∧
    (read_entry u
        (ZIP1 ++ records [e0, e1] ++ directory 4 [e0, e1] ++ (terminator_of [e0, e1]).bytes) i
        ((IStream.ofFile
          (ZIP1 ++ records [e0, e1] ++ directory 4 [e0, e1] ++ (terminator_of [e0, e1]).bytes)).seekg_beg
          (4 + (records [e0, e1]).length + (directory 4 [e0]).length))).fname2 = [] := by
  have hdir := (layout_split [e0] [] e1).1
  have hbig := (layout_split [] [e1] e0).2
  simp only [List.nil_append, List.singleton_append] at hdir hbig
  generalize ZIP1 ++ records [e0, e1] ++ directory 4 [e0, e1]
    ++ (terminator_of [e0, e1]).bytes = a at hdir hbig ⊢
  generalize 4 + (records [e0, e1]).length + (directory 4 [e0]).length = p at hdir ⊢
  have h30 : 30 ≤ e0.outdata.length := by
    have := congrArg List.length hzero
    rw [List.length_take, List.length_replicate] at this
    omega
  have h1 : read_cdh u i { data := a, pos := p, fail := false }
      = ({ data := a, pos := p + 46, fail := false }, e1.cdh (4 + (records [e0]).length)) := by
    rw [read_cdh_exact u i _ (e1.cdh (4 + (records [e0]).length)) _ rfl
      (by rw [hdir, List.append_assoc]), cdh_narrow_of_fits _ _ hm]
  have hd1 : a.drop (p + 46) = e1.name ++ (directory
      (4 + (records [e0]).length + e1.record.length) []
      ++ (terminator_of [e0, e1]).bytes) := by
    have := drop_past a p (e1.cdh (4 + (records [e0]).length)).bytes _
      (by rw [hdir, List.append_assoc])
    rwa [cdh_bytes_length] at this
  have h2 : read_buffer { data := a, pos := p + 46, fail := false } e1.name.length
      = ({ data := a, pos := p + 46 + e1.name.length, fail := false }, e1.name) := by
    rw [read_buffer_take { data := a, pos := p + 46, fail := false } _ e1.name _ rfl hd1
      (Nat.le_refl _), List.take_length]
  have hd3 : a.drop (4 + (30 + e0.name.length)) = e0.outdata ++ (records [e1]
      ++ directory 4 [e0, e1] ++ (terminator_of [e0, e1]).bytes) := by
    have hbig4 : a.drop 4 = e0.record ++ (records [e1] ++ directory 4 [e0, e1]
        ++ (terminator_of [e0, e1]).bytes) := hbig
    rw [Entry.record, List.append_assoc (e0.lfh.bytes ++ e0.name)] at hbig4
    have := drop_past a 4 (e0.lfh.bytes ++ e0.name) _ hbig4
    rwa [List.length_append, lfh_bytes_length] at this
  have h3 : read_lfh u i { data := a, pos := 4 + (30 + e0.name.length), fail := false }
      = ({ data := a, pos := 4 + (30 + e0.name.length) + 30, fail := false },
          LocalFileHeader.ofBytes (List.replicate 30 0)) := by
    unfold read_lfh
    rw [read_take _ 30 e0.outdata _ rfl hd3 h30, hzero]
    simp only [Prod.mk.injEq, true_and]
    rw [overlay_full _ _ (by rw [lfh_bytes_length, List.length_replicate])]
  have hlo : (e1.cdh (4 + (records [e0]).length)).localHeaderOffset
      = 4 + (30 + e0.name.length) := by
    rw [cdh_localHeaderOffset, hoff]
  have hfl : (e1.cdh (4 + (records [e0]).length)).filenameLength = e1.name.length := by
    rw [cdh_filenameLength, Nat.mod_eq_of_lt hn]
  have h4 : (LocalFileHeader.ofBytes (List.replicate 30 0)).filenameLength = 0 := by decide
  have h5 : ∀ q, (read_buffer { data := a, pos := q, fail := false } 0).2 = [] := fun _ => rfl
  simp only [read_entry, seekg_beg_ofFile, h1, hlo, hfl, h2, h3, h4, h5, and_self]

theorem bigEntry_offset : (4 + (records [bigEntry]).length) % 2 ^ 32
    = 4 + (30 + bigEntry.name.length) := by
  have h1 : bigEntry.outdata.length = 2 ^ 32 := fourGiB_length
  have h2 : bigEntry.name.length = 1 := rfl
  have h3 : (records [bigEntry]).length
      = 30 + bigEntry.name.length + bigEntry.outdata.length := by
    rw [records, records, List.append_nil, record_length]
  rw [h3, h1, h2]
  norm_num

/-- C4, as stated, fails: the file `a` holds `2 ^ 32` bytes and is stored before the
empty file `b`.  The header of `b` begins at byte `2 ^ 32 + 35`, its directory entry
carries `localHeaderOffset = 35`, and the entry header read there consists of payload
bytes of `a`: its `filenameLength` is 0 and the name read after it is empty, while
the name after the directory entry is `b`. -/
theorem offset_wraps_past_4GiB :
    ∃ a, (create_zip_store {} noCodec bigFile [122] [[97], [98]]).archive = some a ∧
      (read_entry zeroed a 1 ((IStream.ofFile a).seekg_beg
          (4 + (records [bigEntry, smallEntry]).length
            + (directory 4 [bigEntry]).length))).cdh.localHeaderOffset = 35 ∧
      (read_entry zeroed a 1 ((IStream.ofFile a).seekg_beg
          (4 + (records [bigEntry, smallEntry]).length
            + (directory 4 [bigEntry]).length))).fname = [98] ∧
      (read_entry zeroed a 1 ((IStream.ofFile a).seekg_beg
          (4 + (records [bigEntry, smallEntry]).length
            + (directory 4 [bigEntry]).length))).fname2 = [] ∧
      (read_entry zeroed a 1 ((IStream.ofFile a).seekg_beg
          (4 + (records [bigEntry, smallEntry]).length
            + (directory 4 [bigEntry]).length))).fname2
        ≠ (read_entry zeroed a 1 ((IStream.ofFile a).seekg_beg
            (4 + (records [bigEntry, smallEntry]).length
              + (directory 4 [bigEntry]).length))).fname := by
  obtain ⟨harch, -⟩ := create_archive_closed {} noCodec bigFile [122] [[97], [98]] rfl rfl
    (create_thrown_store _ _ _ _ _ rfl rfl)
  rw [bigFile_entries] at harch
  obtain ⟨h1, h2, h3⟩ := read_entry_wrapped zeroed 1 bigEntry smallEntry (by decide)
    (by decide) bigEntry_offset fourGiB_take
  refine ⟨_, harch, h1.trans rfl, h2.trans rfl, h3, ?_⟩
  rw [h2, h3]
  decide

/-! ## Listing a written archive -/

/-- C5, as stated, fails: for the archive written from the empty file `a` given 65536
times, the entry count read from the terminator is 0 and `list_zip` prints no name,
where the claim expects the name `a` 65536 times. -/
theorem listing_fails_for_65536_files :
    (written {} noCodec oneEmptyFile [122] manyFiles).map Entry.name
      = List.replicate 65536 [97] ∧
    list_zip zeroed (oneEmptyFile.after_create {} noCodec [122] manyFiles) [122]
      = { cerr := [], cout := [] } := by
  constructor
  · rw [(create_archive_closed {} noCodec oneEmptyFile [122] manyFiles rfl rfl
      (create_thrown_store _ _ _ _ _ rfl rfl)).2, manyFiles,
      List.filter_replicate_of_pos (by decide)]
  · rw [list_zip_enters _ _ _ _
      (after_create_readable {} noCodec oneEmptyFile [122] manyFiles rfl rfl
        (create_thrown_store _ _ _ _ _ rfl rfl) rfl), manyFiles_entries_length]
    rfl

/-- C5 (amended): listing a created archive within the limits of the fixed-width
fields.  For a run of `create_zip_store` that gets past its two guards and meets no
exception, where every name is shorter than `2 ^ 16` bytes, fewer than `2 ^ 16`
files are written and the archive is shorter than `2 ^ 32` bytes, `list_zip` on a
file that holds the written archive reports no error and prints exactly the names of
the written files, which are the inputs on which a stream opened during the run,
once per written entry, in the order given to the writer. -/
theorem listing_within_limits (g : Flags) (c : Codec) (u : Indeterminate) (env env' : Env)
    (archive archive' : Bytes) (files : List Bytes)
    (hflags : (g.use_zlib && g.use_lzma) = false)
    (hcreat : env.creatable archive = true)
    (hthrown : (create_zip_store g c env archive files).thrown = none)
    (hnames : ∀ f ∈ files, f.length < 2 ^ 16)
    (hcount : (files.filter (env.opens archive)).length < 2 ^ 16)
    (hsize : ∀ a, (create_zip_store g c env archive files).archive = some a →
      a.length < 2 ^ 32)
    (hstored : env'.readable archive' = (create_zip_store g c env archive files).archive) :
    list_zip u env' archive' = { cerr := [], cout := files.filter (env.opens archive) } ∧
    (written g c env archive files).map Entry.name = files.filter (env.opens archive) := by
  obtain ⟨harch, hmap⟩ := create_archive_closed g c env archive files hflags hcreat hthrown
  have hsz := hsize _ harch
  rw [layout_length] at hsz
  refine ⟨?_, hmap⟩
  rw [list_zip_layout u env' archive' (written g c env archive files)
    (by rw [hstored, harch]) (by omega)
    (by rw [entries_length g c env archive files hflags hcreat hthrown]; exact hcount)
    (fun e he => by
      obtain ⟨hmem, -, hsel⟩ := entries_mem g c (env.input archive) files ZIP1 e he
      exact ⟨hnames _ hmem, select_outdata_method_lt g c _ _ _ hsel⟩),
    hmap]

/-- Witness for C5 (amended): lzma mode with the toy codec over `a`, a missing `c`,
`b` and the archive path `z` itself. -/
theorem listing_within_limits_witness :
    list_zip zeroed
        (twoFiles.after_create { use_lzma := true } toyCodec [122] [[97], [99], [98], [122]])
        [122]
      = { cerr := [], cout := [[97], [99], [98], [122]].filter (twoFiles.opens [122]) } ∧
    (written { use_lzma := true } toyCodec twoFiles [122] [[97], [99], [98], [122]]).map
        Entry.name
      = [[97], [99], [98], [122]].filter (twoFiles.opens [122]) :=
  listing_within_limits { use_lzma := true } toyCodec zeroed twoFiles
    (twoFiles.after_create { use_lzma := true } toyCodec [122] [[97], [99], [98], [122]])
    [122] [122] [[97], [99], [98], [122]] rfl rfl (by decide) (by decide) (by decide)
    (by
      intro a ha
      have h2 : ((create_zip_store { use_lzma := true } toyCodec twoFiles [122]
          [[97], [99], [98], [122]]).archive).map List.length = some 266 := by decide
      rw [ha] at h2
      simp only [Option.map_some', Option.some.injEq] at h2
      omega)
    (by decide)

/-! ## Inputs that do not open -/

theorem entries_filter (g : Flags) (c : Codec) (rd : Bytes → Bytes → Option Bytes)
    (opens : Bytes → Bool) (hop : ∀ o f, (rd o f).isSome = opens f)
    (files : List Bytes) (out : Bytes) :
    entries g c rd out (files.filter opens) = entries g c rd out files := by
  induction files generalizing out with
  | nil => rfl
  | cons f rest ih =>
    have ho := hop out f
    cases hr : rd out f with
    | none =>
      rw [hr, Option.isSome_none] at ho
      simp only [List.filter_cons, ← ho, Bool.false_eq_true, if_false, entries, hr, ih]
    | some d =>
      rw [hr, Option.isSome_some] at ho
      simp only [List.filter_cons, ← ho, if_true, entries, hr, ih]

theorem add_files_thrown_congr (g : Flags) (c : Codec) (rd : Bytes → Bytes → Option Bytes)
    (opens : Bytes → Bool) (hop : ∀ o f, (rd o f).isSome = opens f)
    (files : List Bytes) (w w' : Writer) (h : w.thrown = w'.thrown) (hout : w.out = w'.out) :
    (add_files g c rd (files.filter opens) w').thrown
      = (add_files g c rd files w).thrown := by
  induction files generalizing w w' with
  | nil => exact h.symm
  | cons f rest ih =>
    have ho := hop w.out f
    cases hr : rd w.out f with
    | none =>
      rw [hr, Option.isSome_none] at ho
      simp only [List.filter_cons, ← ho, Bool.false_eq_true, if_false, add_files, hr]
      exact ih _ _ h hout
    | some d =>
      rw [hr, Option.isSome_some] at ho
      have hr' : rd w'.out f = some d := by rw [← hout]; exact hr
      simp only [List.filter_cons, ← ho, if_true, add_files, hr, hr']
      cases hs : select_outdata g c d with
      | error x => rfl
      | ok p =>
        obtain ⟨o, m⟩ := p
        exact ih _ _ h (by simp only [write_entry, hout])

/-- C6: missing-input resilience.  `create_zip_store` skips the paths on which no
input stream opens during the run: the archive it writes is byte for byte the
archive it writes for the sub-list of the paths that open, in the same order, and
the run ends the same way: a path that does not open never ends the run.  A path
opens when it names the archive file that the run has created and that file can be
read, or when it names another file that can be read. -/
theorem missing_inputs_are_skipped (g : Flags) (c : Codec) (env : Env) (archive : Bytes)
    (files : List Bytes) :
    (create_zip_store g c env archive files).archive
      = (create_zip_store g c env archive (files.filter (env.opens archive))).archive ∧
    (create_zip_store g c env archive files).thrown
      = (create_zip_store g c env archive (files.filter (env.opens archive))).thrown := by
  have hop := input_isSome env archive
  have h1 := add_files_thrown_congr g c (env.input archive) (env.opens archive) hop files
    { out := ZIP1, central := [], filenames := [], cerr := [], cout := [], opened := [],
      thrown := none }
    { out := ZIP1, central := [], filenames := [], cerr := [], cout := [], opened := [],
      thrown := none } rfl rfl
  have h2 := add_files_out g c (env.input archive) files
    { out := ZIP1, central := [], filenames := [], cerr := [], cout := [], opened := [],
      thrown := none }
  have h3 := add_files_central g c (env.input archive) files
    { out := ZIP1, central := [], filenames := [], cerr := [], cout := [], opened := [],
      thrown := none }
  have h4 := add_files_filenames g c (env.input archive) files
    { out := ZIP1, central := [], filenames := [], cerr := [], cout := [], opened := [],
      thrown := none }
  have h2' := add_files_out g c (env.input archive) (files.filter (env.opens archive))
    { out := ZIP1, central := [], filenames := [], cerr := [], cout := [], opened := [],
      thrown := none }
  have h3' := add_files_central g c (env.input archive) (files.filter (env.opens archive))
    { out := ZIP1, central := [], filenames := [], cerr := [], cout := [], opened := [],
      thrown := none }
  have h4' := add_files_filenames g c (env.input archive) (files.filter (env.opens archive))
    { out := ZIP1, central := [], filenames := [], cerr := [], cout := [], opened := [],
      thrown := none }
  rw [entries_filter g c (env.input archive) (env.opens archive) hop] at h2' h3' h4'
  unfold create_zip_store
  split
  · exact ⟨rfl, rfl⟩
  · split
    · exact ⟨rfl, rfl⟩
    · simp only [h1, h2, h3, h4, h2', h3', h4']
      cases (add_files g c (env.input archive) files
        { out := ZIP1, central := [], filenames := [], cerr := [], cout := [], opened := [],
          thrown := none }).thrown <;> exact ⟨rfl, rfl⟩

/-! ## Rejections -/


theorem read_magic_value (u : Indeterminate) (content : Bytes) :
    ∃ rest, (read_magic u (IStream.ofFile content)).2 = content.take 4 ++ rest := by
  unfold read_magic IStream.read IStream.ofFile
  simp only [Bool.false_eq_true, if_false, List.drop_zero, overlay]
  split <;> exact ⟨_, rfl⟩

/-- Every file that is not a beginning of `ZIP1` is rejected: when the first four
bytes are not `ZIP1` and, for a file shorter than four bytes, its bytes are not the
beginning of `ZIP1` of that length, `list_zip` and `extract_zip` print the line
`Unknown archive` and do nothing else. -/
theorem bad_magic_is_rejected (g : Flags) (c : Codec) (u : Indeterminate) (env : Env)
    (archive outdir content : Bytes)
    (hread : env.readable archive = some content)
    (hbad : content.take 4 ≠ ZIP1.take content.length) :
    list_zip u env archive = { cerr := [.unknownArchive], cout := [] } ∧
    extract_zip g c u env archive outdir
      = { cerr := [.unknownArchive], cout := [], dirs := [], files := [] } := by
  obtain ⟨rest, hm⟩ := read_magic_value u content
  have hne : (read_magic u (IStream.ofFile content)).2 ≠ ZIP1 := by
    rw [hm]
    intro h
    apply hbad
    have h1 := congrArg (List.take (content.take 4).length) h
    rw [List.take_left] at h1
    rw [h1, List.length_take]
    by_cases hl : 4 ≤ content.length
    · rw [Nat.min_eq_left hl, List.take_of_length_le (show ZIP1.length ≤ 4 from Nat.le_refl 4),
        List.take_of_length_le (show ZIP1.length ≤ content.length from hl)]
    · rw [Nat.min_eq_right (by omega)]
  constructor
  · unfold list_zip
    simp only [hread, hne, ne_eq, not_false_eq_true, if_true]
  · unfold extract_zip
    simp only [hread, hne, ne_eq, not_false_eq_true, if_true]

/-- C7 fails on the code for a file that is a proper beginning of `ZIP1`.  The file
`z` holds the three bytes `ZIP`, so its first four bytes are not `ZIP1`.  Lines
175-176 and 193-194 read four bytes into the uninitialised `char magic[4]` and
compare all four without looking at the outcome of the read; here the fourth byte
of the buffer is a left-over `'1'`.  Both readers take the file for an archive:
neither prints `Unknown archive`, `list_zip` prints a line and `extract_zip` creates
the output directory and tries to open an output file.  A file of `PK\x03\x04` and 26
more bytes is rejected with the same left-over values. -/
theorem short_archive_passes_the_magic_check :
    ([90, 73, 80] : Bytes).take 4 ≠ ZIP1 ∧
    threeBytes.readable [122] = some [90, 73, 80] ∧
    list_zip leftover threeBytes [122] = { cerr := [], cout := [[]] } ∧
    extract_zip {} noCodec leftover threeBytes [122] [111]
      = { cerr := [], cout := [], dirs := [[111]], files := [], unopened := [[111, 47]] } ∧
    list_zip leftover notOurs [122] = { cerr := [.unknownArchive], cout := [] } ∧
    extract_zip {} noCodec leftover notOurs [122] [111]
      = { cerr := [.unknownArchive], cout := [], dirs := [], files := [] } := by
  refine ⟨by decide, rfl, by decide, by decide, by decide, by decide⟩

/-- C8: compression selection exclusivity.  With both `use_zlib` and `use_lzma` set,
`create_zip_store` prints `Cannot use both -z and -l` and returns at once, for every
archive path and input list: no output stream is opened on the archive path (the
file is neither created nor truncated and no byte is written), no input is opened,
and the file system is as before. -/
theorem both_codecs_is_refused_before_any_io (g : Flags) (c : Codec) (env : Env)
    (archive : Bytes) (files : List Bytes)
    (hz : g.use_zlib = true) (hl : g.use_lzma = true) :
    create_zip_store g c env archive files
      = { cerr := [.bothCodecs], cout := [], opened := [], archive := none, thrown := none } ∧
    (env.after_create g c archive files).readable = env.readable := by
  have h : create_zip_store g c env archive files
      = { cerr := [.bothCodecs], cout := [], opened := [], archive := none,
          thrown := none } := by
    unfold create_zip_store
    simp only [hz, hl, Bool.and_self, if_true]
  refine ⟨h, ?_⟩
  funext p
  simp only [Env.after_create, h]
  split <;> rfl

/-- Witness for C8: `-z` and `-l` together, over an existing archive path `a`. -/
theorem both_codecs_is_refused_before_any_io_witness :
    create_zip_store { use_zlib := true, use_lzma := true } toyCodec twoFiles [97] [[97], [98]]
      = { cerr := [.bothCodecs], cout := [], opened := [], archive := none, thrown := none } ∧
    (twoFiles.after_create { use_zlib := true, use_lzma := true } toyCodec [97]
        [[97], [98]]).readable = twoFiles.readable :=
  both_codecs_is_refused_before_any_io { use_zlib := true, use_lzma := true } toyCodec twoFiles
    [97] [[97], [98]] rfl rfl

/-! ## The terminator's magic -/

theorem list_loop_length (u : Indeterminate) (n i : Nat) (s : IStream) :
    (list_loop u n i s).length = n := by
  induction n generalizing i s with
  | zero => rfl
  | succ k ih => simp only [list_loop, List.length_cons, ih]

theorem write_payload_cerr (c : Codec) (lfh : LocalFileHeader) (data : Bytes) :
    Diag.unknownArchive ∉ (write_payload c lfh data).cerr := by
  unfold write_payload
  split
  · simp only
    split <;> simp
  · split
    · split
      · simp
      · simp only
        split <;> simp
    · simp

theorem extract_loop_cerr (g : Flags) (c : Codec) (u : Indeterminate) (env : Env)
    (archive outdir : Bytes) (n i : Nat) (content : Bytes) (s : IStream) :
    Diag.unknownArchive ∉ (extract_loop g c u env archive outdir n i content s).cerr := by
  induction n generalizing i content s with
  | zero => simp [extract_loop]
  | succ k ih =>
    simp only [extract_loop]
    split
    · simp
    · simp only [List.mem_append, not_or]
      exact ⟨write_payload_cerr _ _ _, ih _ _ _⟩

/-- A run of the loop in which `fs::create_directories` returns makes all its
passes, each with one `fs::create_directories` call and one output stream. -/
theorem extract_loop_count (g : Flags) (c : Codec) (u : Indeterminate) (env : Env)
    (archive outdir : Bytes) (n i : Nat) (content : Bytes) (s : IStream)
    (hd : env.makes_dir outdir = true) :
    (extract_loop g c u env archive outdir n i content s).dirs = List.replicate n outdir ∧
    (extract_loop g c u env archive outdir n i content s).files.length
      + (extract_loop g c u env archive outdir n i content s).unopened.length = n ∧
    (extract_loop g c u env archive outdir n i content s).thrown = false := by
  induction n generalizing i content s with
  | zero => exact ⟨rfl, rfl, rfl⟩
  | succ k ih =>
    simp only [extract_loop, hd, Bool.not_true, Bool.false_eq_true, if_false,
      List.replicate_succ]
    obtain ⟨h1, h2, h3⟩ := ih (i + 1)
      (if (env.creatable (outdir ++ slash ++ (read_entry u content i s).fname2)
            && env.same (outdir ++ slash ++ (read_entry u content i s).fname2) archive) = true
        then (write_payload c (read_entry u content i s).lfh
          (read_entry u content i s).data).written
        else content)
      (if (write_payload c (read_entry u content i s).lfh
            (read_entry u content i s).data).completed = true then
          IStream.seekg
            (if (env.creatable (outdir ++ slash ++ (read_entry u content i s).fname2)
                && env.same (outdir ++ slash ++ (read_entry u content i s).fname2) archive)
                = true then
              (read_entry u content i s).next.overwritten
                (env.kept (read_entry u content i s).next.data
                  (read_entry u content i s).next.pos)
                (write_payload c (read_entry u content i s).lfh
                  (read_entry u content i s).data).written
            else (read_entry u content i s).next)
            (read_entry u content i s).next.tellg
        else
          (if (env.creatable (outdir ++ slash ++ (read_entry u content i s).fname2)
              && env.same (outdir ++ slash ++ (read_entry u content i s).fname2) archive)
              = true then
            (read_entry u content i s).next.overwritten
              (env.kept (read_entry u content i s).next.data
                (read_entry u content i s).next.pos)
              (write_payload c (read_entry u content i s).lfh
                (read_entry u content i s).data).written
          else (read_entry u content i s).next))
    refine ⟨by rw [h1], ?_, h3⟩
    split
    · simp only [List.length_cons]; omega
    · simp only [List.length_cons]; omega

/-- A run of the loop in which `fs::create_directories` throws ends in its first
pass, before an output stream is constructed. -/
theorem extract_loop_throws (g : Flags) (c : Codec) (u : Indeterminate) (env : Env)
    (archive outdir : Bytes) (n i : Nat) (content : Bytes) (s : IStream)
    (hd : env.makes_dir outdir = false) :
    extract_loop g c u env archive outdir (n + 1) i content s
      = { cerr := [], cout := [], dirs := [outdir], files := [], thrown := true } := by
  simp [extract_loop, hd]

/-- The readers' first steps on a file of at least 22 bytes that starts with the
prefix: the prefix check passes and the last 22 bytes are taken as the terminator. -/
theorem read_preamble_any (u : Indeterminate) (content : Bytes)
    (hmagic : content.take 4 = ZIP1) (hlen : 22 ≤ content.length) :
    (read_magic u (IStream.ofFile content)).2 = ZIP1 ∧
    read_eocd u ((read_magic u (IStream.ofFile content)).1.seekg_end 22)
      = ({ data := content, pos := content.length, fail := false },
          EndOfCentralDirectory.ofBytes (content.drop (content.length - 22))) := by
  have hsplit : content = ZIP1 ++ content.drop 4 := by
    conv_lhs => rw [← List.take_append_drop 4 content, hmagic]
  have hm : read_magic u (IStream.ofFile content)
      = ({ data := content, pos := 4, fail := false }, ZIP1) := by
    unfold read_magic
    have := read_exact (IStream.ofFile content) ZIP1 (content.drop 4) rfl
      (by simpa [IStream.ofFile] using hsplit)
    rw [show ZIP1.length = 4 from rfl] at this
    rw [this]
    simp [IStream.ofFile, overlay_full, le_length, ZIP1]
  rw [hm]
  refine ⟨rfl, ?_⟩
  have hs : IStream.seekg_end { data := content, pos := 4, fail := false } 22
      = { data := content, pos := content.length - 22, fail := false } := by
    unfold IStream.seekg_end
    simp only [Bool.false_eq_true, if_false]
    rw [if_pos hlen]
  have hl : (content.drop (content.length - 22)).length = 22 := by
    rw [List.length_drop]; omega
  have hr := read_exact { data := content, pos := content.length - 22, fail := false }
    (content.drop (content.length - 22)) [] rfl (by simp)
  rw [hl] at hr
  rw [hs]
  unfold read_eocd
  simp only [hr]
  rw [overlay_full _ _ (by rw [eocd_bytes_length, hl])]
  have hp : content.length - 22 + 22 = content.length := by omega
  rw [hp]

/-- C9, as stated, fails: `badTerminator` starts with `ZIP1`, its final 22-byte
record has 0 in place of the magic `0x06054b50`, and `list_zip` reports no error and
prints the name `x` found in the directory; `extract_zip` reports no error either,
creates the output directory and writes the file `o/x`. -/
theorem bad_terminator_magic_is_accepted :
    badTerminator.take 4 = ZIP1 ∧
    (EndOfCentralDirectory.ofBytes
        (badTerminator.drop (badTerminator.length - 22))).signature = 0 ∧
    list_zip zeroed badTerminatorFile [122] = { cerr := [], cout := [[120]] } ∧
    extract_zip {} noCodec zeroed badTerminatorFile [122] [111]
      = { cerr := [], cout := [], dirs := [[111]],
          files := [([111, 47, 120], [1, 2, 3])] } := by
  refine ⟨by decide, by decide, by decide, by decide⟩

/-- C9 (amended): the terminator's magic is not validated.  For every archive of at
least 22 bytes that starts with `ZIP1`, whatever its final 22-byte record holds in
the place of the magic, `list_zip` reports no error and prints as many names as the
`entriesTotal` field of that record says, and `extract_zip` never reports a format
error and, where `fs::create_directories` returns, makes as many passes, with one
`fs::create_directories` call and one output stream each; where it throws, the
first pass ends the run. -/
theorem terminator_magic_is_not_validated (g : Flags) (c : Codec) (u : Indeterminate)
    (env : Env) (archive outdir content : Bytes)
    (hread : env.readable archive = some content)
    (hmagic : content.take 4 = ZIP1) (hlen : 22 ≤ content.length) :
    (list_zip u env archive).cerr = [] ∧
    (list_zip u env archive).cout.length
      = (EndOfCentralDirectory.ofBytes (content.drop (content.length - 22))).entriesTotal ∧
    Diag.unknownArchive ∉ (extract_zip g c u env archive outdir).cerr ∧
    (env.makes_dir outdir = true →
      (extract_zip g c u env archive outdir).dirs
        = List.replicate (EndOfCentralDirectory.ofBytes
            (content.drop (content.length - 22))).entriesTotal outdir ∧
      (extract_zip g c u env archive outdir).files.length
          + (extract_zip g c u env archive outdir).unopened.length
        = (EndOfCentralDirectory.ofBytes (content.drop (content.length - 22))).entriesTotal ∧
      (extract_zip g c u env archive outdir).thrown = false) ∧
    (env.makes_dir outdir = false →
      0 < (EndOfCentralDirectory.ofBytes (content.drop (content.length - 22))).entriesTotal →
      extract_zip g c u env archive outdir
        = { cerr := [], cout := [], dirs := [outdir], files := [], thrown := true }) := by
  obtain ⟨hm, he⟩ := read_preamble_any u content hmagic hlen
  unfold list_zip extract_zip
  simp only [hread, hm, ne_eq, not_true_eq_false, if_false, he]
  refine ⟨trivial, list_loop_length _ _ _ _, extract_loop_cerr _ _ _ _ _ _ _ _ _ _,
    fun hd => extract_loop_count _ _ _ _ _ _ _ _ _ _ hd, ?_⟩
  intro hd hn
  obtain ⟨k, hk⟩ := Nat.exists_eq_succ_of_ne_zero (Nat.pos_iff_ne_zero.mp hn)
  rw [hk]
  exact extract_loop_throws _ _ _ _ _ _ _ _ _ _ hd

/-- Witness for C9 (amended): the file `badTerminator`, extracted into `o`. -/
theorem terminator_magic_is_not_validated_witness :
    (list_zip zeroed badTerminatorFile [122]).cerr = [] ∧
    (list_zip zeroed badTerminatorFile [122]).cout.length
      = (EndOfCentralDirectory.ofBytes
          (badTerminator.drop (badTerminator.length - 22))).entriesTotal ∧
    Diag.unknownArchive ∉ (extract_zip {} noCodec zeroed badTerminatorFile [122] [111]).cerr ∧
    (badTerminatorFile.makes_dir [111] = true →
      (extract_zip {} noCodec zeroed badTerminatorFile [122] [111]).dirs
        = List.replicate (EndOfCentralDirectory.ofBytes
            (badTerminator.drop (badTerminator.length - 22))).entriesTotal [111] ∧
      (extract_zip {} noCodec zeroed badTerminatorFile [122] [111]).files.length
          + (extract_zip {} noCodec zeroed badTerminatorFile [122] [111]).unopened.length
        = (EndOfCentralDirectory.ofBytes
            (badTerminator.drop (badTerminator.length - 22))).entriesTotal ∧
      (extract_zip {} noCodec zeroed badTerminatorFile [122] [111]).thrown = false) ∧
    (badTerminatorFile.makes_dir [111] = false →
      0 < (EndOfCentralDirectory.ofBytes
          (badTerminator.drop (badTerminator.length - 22))).entriesTotal →
      extract_zip {} noCodec zeroed badTerminatorFile [122] [111]
        = { cerr := [], cout := [], dirs := [[111]], files := [], thrown := true }) :=
  terminator_magic_is_not_validated {} noCodec zeroed badTerminatorFile [122] [111]
    badTerminator rfl (by decide) (by decide)

/-! ## Record layouts -/

theorem little_endian_from_eq (k : Nat) (l : Bytes) :
    little_endian_from k l = 256 ^ k * fromLE l := by
  induction l generalizing k with
  | nil => simp [little_endian_from, fromLE]
  | cons b bs ih =>
    simp only [little_endian_from, fromLE, ih, pow_succ]
    ring

theorem split_fields_le (w v : Nat) (ws : List Nat) (rest : Bytes) :
    split_fields (w :: ws) (le w v ++ rest) = v % 256 ^ w :: split_fields ws rest := by
  simp only [split_fields]
  rw [List.take_append_of_le_length (by rw [le_length]),
    List.take_of_length_le (by rw [le_length]), little_endian_from_eq, fromLE_le,
    List.drop_append_of_le_length (by rw [le_length]),
    List.drop_of_length_le (by rw [le_length]), List.nil_append, pow_zero, Nat.one_mul]

theorem split_fields_le_last (w v : Nat) :
    split_fields [w] (le w v) = [v % 256 ^ w] := by
  have := split_fields_le w v [] []
  rwa [List.append_nil] at this

/-- C10: record layouts.  Every entry header is written as exactly 30 bytes, every
directory entry as exactly 46 and the terminator as exactly 22; read as the format
description lists them (unsigned little-endian fields of the listed widths, in the
listed order, nothing between them) these bytes give back every field of the record,
reduced to its width; the widths add up to the record sizes; and the records the
writer builds start with the little-endian bytes of the magics `0x04034b50`
(`50 4B 03 04`), `0x02014b50` and `0x06054b50`. -/
theorem record_layouts :
    (∀ h : LocalFileHeader, h.bytes.length = 30 ∧
      split_fields entry_header_widths h.bytes
        = [h.signature % 2 ^ 32, h.version % 2 ^ 16, h.flags % 2 ^ 16,
           h.compression % 2 ^ 16, h.modTime % 2 ^ 16, h.modDate % 2 ^ 16,
           h.crc32 % 2 ^ 32, h.compressedSize % 2 ^ 32, h.uncompressedSize % 2 ^ 32,
           h.filenameLength % 2 ^ 16, h.extraFieldLength % 2 ^ 16]) ∧
    (∀ h : CentralDirectoryHeader, h.bytes.length = 46 ∧
      split_fields directory_entry_widths h.bytes
        = [h.signature % 2 ^ 32, h.versionMadeBy % 2 ^ 16, h.versionNeeded % 2 ^ 16,
           h.flags % 2 ^ 16, h.compression % 2 ^ 16, h.modTime % 2 ^ 16,
           h.modDate % 2 ^ 16, h.crc32 % 2 ^ 32, h.compressedSize % 2 ^ 32,
           h.uncompressedSize % 2 ^ 32, h.filenameLength % 2 ^ 16,
           h.extraFieldLength % 2 ^ 16, h.fileCommentLength % 2 ^ 16,
           h.diskNumber % 2 ^ 16, h.internalAttr % 2 ^ 16, h.externalAttr % 2 ^ 32,
           h.localHeaderOffset % 2 ^ 32]) ∧
    (∀ h : EndOfCentralDirectory, h.bytes.length = 22 ∧
      split_fields terminator_widths h.bytes
        = [h.signature % 2 ^ 32, h.diskNumber % 2 ^ 16, h.startDisk % 2 ^ 16,
           h.entriesThisDisk % 2 ^ 16, h.entriesTotal % 2 ^ 16, h.cdSize % 2 ^ 32,
           h.cdOffset % 2 ^ 32, h.commentLength % 2 ^ 16]) ∧
    entry_header_widths.sum = 30 ∧ directory_entry_widths.sum = 46 ∧
    terminator_widths.sum = 22 ∧
    (∀ e : Entry, e.lfh.signature = 0x04034b50 ∧ e.lfh.bytes.take 4 = [0x50, 0x4B, 0x03, 0x04]) ∧
    (∀ (e : Entry) (start : Nat), (e.cdh start).signature = 0x02014b50 ∧
      (e.cdh start).bytes.take 4 = [0x50, 0x4B, 0x01, 0x02]) ∧
    (∀ es : List Entry, (terminator_of es).signature = 0x06054b50 ∧
      (terminator_of es).bytes.take 4 = [0x50, 0x4B, 0x05, 0x06]) := by
  refine ⟨fun h => ⟨lfh_bytes_length h, ?_⟩, fun h => ⟨cdh_bytes_length h, ?_⟩,
    fun h => ⟨eocd_bytes_length h, ?_⟩, by decide, by decide, by decide,
    fun e => ⟨rfl, ?_⟩, fun e start => ⟨rfl, ?_⟩, fun es => ⟨rfl, ?_⟩⟩
  · simp only [entry_header_widths, LocalFileHeader.bytes, List.append_assoc,
      split_fields_le, split_fields_le_last]
    rfl
  · simp only [directory_entry_widths, CentralDirectoryHeader.bytes, List.append_assoc,
      split_fields_le, split_fields_le_last]
    rfl
  · simp only [terminator_widths, EndOfCentralDirectory.bytes, List.append_assoc,
      split_fields_le, split_fields_le_last]
    rfl
  · simp only [LocalFileHeader.bytes, List.append_assoc]
    rw [List.take_append_of_le_length (by rw [le_length]),
      List.take_of_length_le (by rw [le_length])]
    exact (by decide : le 4 0x04034b50 = [0x50, 0x4B, 0x03, 0x04])
  · simp only [CentralDirectoryHeader.bytes, List.append_assoc]
    rw [List.take_append_of_le_length (by rw [le_length]),
      List.take_of_length_le (by rw [le_length])]
    exact (by decide : le 4 0x02014b50 = [0x50, 0x4B, 0x01, 0x02])
  · simp only [EndOfCentralDirectory.bytes, List.append_assoc]
    rw [List.take_append_of_le_length (by rw [le_length]),
      List.take_of_length_le (by rw [le_length])]
    exact (by decide : le 4 0x06054b50 = [0x50, 0x4B, 0x05, 0x06])

/-! ## The byte layout of a written archive -/

theorem records_flatten (es : List Entry) :
    records es = (es.map (fun e => e.lfh.bytes ++ e.name ++ e.outdata)).flatten := by
  induction es with
  | nil => rfl
  | cons e rest ih => simp only [records, Entry.record, ih, List.map_cons, List.flatten_cons]

theorem directory_flatten (start : Nat) (es : List Entry) :
    directory start es
      = ((es.zip (central_of start es)).map (fun p => p.2.bytes ++ p.1.name)).flatten := by
  induction es generalizing start with
  | nil => rfl
  | cons e rest ih =>
    simp only [directory, central_of, ih, List.zip_cons_cons, List.map_cons,
      List.flatten_cons, List.append_assoc]

theorem central_of_length (start : Nat) (es : List Entry) :
    (central_of start es).length = es.length := by
  induction es generalizing start with
  | nil => rfl
  | cons e rest ih => simp only [central_of, List.length_cons, ih]

/-- C11: archive byte layout.  The archive of a run of `create_zip_store` that gets
past its two guards and meets no exception is, for the list `es` of the written
files (the inputs on which a stream opened during the run, in order, each with the
content that stream delivered and the payload and method chosen for it), exactly:
the four bytes `ZIP1`; for each file its 30-byte entry header, its name and its
payload; for each file in the same order its 46-byte directory entry and its name;
one 22-byte terminator; nothing else.  When no input names the archive file, the
contents are those the files had before the run. -/
theorem archive_byte_layout (g : Flags) (c : Codec) (env : Env) (archive : Bytes)
    (files : List Bytes)
    (hflags : (g.use_zlib && g.use_lzma) = false)
    (hcreat : env.creatable archive = true)
    (hthrown : (create_zip_store g c env archive files).thrown = none) :
    ∃ es : List Entry,
      es.map Entry.name = files.filter (env.opens archive) ∧
      (∀ l1 e l2, es = l1 ++ e :: l2 →
        env.input archive
            (ZIP1 ++ (l1.map (fun x => x.lfh.bytes ++ x.name ++ x.outdata)).flatten) e.name
          = some e.data ∧
        select_outdata g c e.data = .ok (e.outdata, e.method)) ∧
      ((∀ f ∈ files, env.same f archive = false) →
        es.map (fun e => (e.name, e.data)) = opened_inputs env.readable files) ∧
      (create_zip_store g c env archive files).archive
        = some (ZIP1
            ++ (es.map (fun e => e.lfh.bytes ++ e.name ++ e.outdata)).flatten
            ++ ((es.zip (central_of 4 es)).map (fun p => p.2.bytes ++ p.1.name)).flatten
            ++ (terminator_of es).bytes) ∧
      (∀ e ∈ es, e.lfh.bytes.length = 30) ∧
      (central_of 4 es).length = es.length ∧
      (∀ h ∈ central_of 4 es, h.bytes.length = 46) ∧
      (terminator_of es).bytes.length = 22 := by
  obtain ⟨harch, hmap⟩ := create_archive_closed g c env archive files hflags hcreat hthrown
  refine ⟨written g c env archive files, hmap, ?_,
    written_fixed g c env archive files hflags hcreat hthrown, ?_,
    fun e _ => lfh_bytes_length _, central_of_length _ _, fun h _ => cdh_bytes_length _,
    eocd_bytes_length _⟩
  · intro l1 e l2 h
    rw [← records_flatten]
    exact (written_at g c env archive files l1 l2 e h).2
  · rw [harch, records_flatten, directory_flatten]

/-- Witness for C11: deflate mode with the toy codec over `a`, a missing `c`, `b`
and the archive path `z` itself. -/
theorem archive_byte_layout_witness :
    ∃ es : List Entry,
      es.map Entry.name = [[97], [99], [98], [122]].filter (twoFiles.opens [122]) ∧
      (∀ l1 e l2, es = l1 ++ e :: l2 →
        twoFiles.input [122]
            (ZIP1 ++ (l1.map (fun x => x.lfh.bytes ++ x.name ++ x.outdata)).flatten) e.name
          = some e.data ∧
        select_outdata { use_zlib := true } toyCodec e.data = .ok (e.outdata, e.method)) ∧
      ((∀ f ∈ [[97], [99], [98], [122]], twoFiles.same f [122] = false) →
        es.map (fun e => (e.name, e.data))
          = opened_inputs twoFiles.readable [[97], [99], [98], [122]]) ∧
      (create_zip_store { use_zlib := true } toyCodec twoFiles [122]
          [[97], [99], [98], [122]]).archive
        = some (ZIP1
            ++ (es.map (fun e => e.lfh.bytes ++ e.name ++ e.outdata)).flatten
            ++ ((es.zip (central_of 4 es)).map (fun p => p.2.bytes ++ p.1.name)).flatten
            ++ (terminator_of es).bytes) ∧
      (∀ e ∈ es, e.lfh.bytes.length = 30) ∧
      (central_of 4 es).length = es.length ∧
      (∀ h ∈ central_of 4 es, h.bytes.length = 46) ∧
      (terminator_of es).bytes.length = 22 :=
  archive_byte_layout { use_zlib := true } toyCodec twoFiles [122] [[97], [99], [98], [122]]
    rfl rfl (by decide)

/-! ## Headers, directory entries and the terminator inside a written archive -/

/-- The 46 bytes at the place of the directory entry of `e`, and the 30 bytes at the
place of its header, read back as records. -/
theorem records_at (l1 l2 : List Entry) (e : Entry) (hm : e.method < 2 ^ 16) :
    CentralDirectoryHeader.ofBytes
        (((ZIP1 ++ records (l1 ++ e :: l2) ++ directory 4 (l1 ++ e :: l2)
            ++ (terminator_of (l1 ++ e :: l2)).bytes).drop
          (4 + (records (l1 ++ e :: l2)).length + (directory 4 l1).length)).take 46)
      = e.cdh (4 + (records l1).length) ∧
    LocalFileHeader.ofBytes
        (((ZIP1 ++ records (l1 ++ e :: l2) ++ directory 4 (l1 ++ e :: l2)
            ++ (terminator_of (l1 ++ e :: l2)).bytes).drop (4 + (records l1).length)).take 30)
      = e.lfh := by
  obtain ⟨hdir, hrec⟩ := layout_split l1 l2 e
  constructor
  · rw [hdir, List.append_assoc, List.take_append_of_le_length (by rw [cdh_bytes_length]),
      List.take_of_length_le (by rw [cdh_bytes_length]), cdh_ofBytes_bytes,
      cdh_narrow_of_fits e _ hm]
  · rw [hrec, Entry.record, List.append_assoc, List.append_assoc,
      List.take_append_of_le_length (by rw [lfh_bytes_length]),
      List.take_of_length_le (by rw [lfh_bytes_length]), lfh_ofBytes_bytes,
      lfh_narrow_of_fits e hm]

theorem records_snoc_length (l0 : List Entry) (p : Entry) :
    (records (l0 ++ [p])).length
      = (records l0).length + 30 + p.name.length + p.outdata.length := by
  rw [records_append, List.length_append, records, records, List.append_nil, record_length]
  omega

theorem split_method_lt (g : Flags) (c : Codec) (rd : Bytes → Bytes → Option Bytes)
    (files : List Bytes) (out : Bytes) (l1 l2 : List Entry) (e : Entry)
    (hsplit : entries g c rd out files = l1 ++ e :: l2) :
    e.method < 2 ^ 16 ∧ rd (out ++ records l1) e.name = some e.data ∧ e.name ∈ files ∧
      select_outdata g c e.data = .ok (e.outdata, e.method) := by
  obtain ⟨h1, h2, h3⟩ := entries_at g c rd files out l1 l2 e hsplit
  exact ⟨select_outdata_method_lt g c _ _ _ h3, h2, h1, h3⟩

/-- C12 (amended): the directory mirrors the entries.  In the archive of a run of
`create_zip_store` that gets past its two guards and meets no exception, for every
written entry `e` (after the entries `l1`): the directory entry at its place in the
directory carries the same checksum, compressed size, uncompressed size, method and
`filenameLength` as the entry header of `e`, and its `localHeaderOffset` is the byte
offset at which that header begins reduced modulo `2 ^ 32`, hence the exact offset
whenever the header begins before byte `2 ^ 32`.  The header of the first entry
begins at byte 4, each later one where the previous one begins plus 30 plus the
length of its name plus the length of its payload. -/
theorem directory_mirrors_entries (g : Flags) (c : Codec) (env : Env)
    (archive : Bytes) (files : List Bytes) (l1 l2 : List Entry) (e : Entry)
    (hflags : (g.use_zlib && g.use_lzma) = false)
    (hcreat : env.creatable archive = true)
    (hthrown : (create_zip_store g c env archive files).thrown = none)
    (hsplit : written g c env archive files = l1 ++ e :: l2) :
    ∃ (a : Bytes) (H : LocalFileHeader) (D : CentralDirectoryHeader),
      (create_zip_store g c env archive files).archive = some a ∧
      H = LocalFileHeader.ofBytes ((a.drop (4 + (records l1).length)).take 30) ∧
      D = CentralDirectoryHeader.ofBytes ((a.drop
        (4 + (records (l1 ++ e :: l2)).length + (directory 4 l1).length)).take 46) ∧
      D.crc32 = H.crc32 ∧ D.compressedSize = H.compressedSize ∧
      D.uncompressedSize = H.uncompressedSize ∧ D.compression = H.compression ∧
      D.filenameLength = H.filenameLength ∧
      D.localHeaderOffset = (4 + (records l1).length) % 2 ^ 32 ∧
      (4 + (records l1).length < 2 ^ 32 → D.localHeaderOffset = 4 + (records l1).length) ∧
      4 + (records ([] : List Entry)).length = 4 ∧
      (∀ (l0 : List Entry) (p : Entry), 4 + (records (l0 ++ [p])).length
        = 4 + (records l0).length + 30 + p.name.length + p.outdata.length) := by
  obtain ⟨harch, -⟩ := create_archive_closed g c env archive files hflags hcreat hthrown
  rw [hsplit] at harch
  obtain ⟨hm, -⟩ := split_method_lt g c (env.input archive) files ZIP1 l1 l2 e hsplit
  obtain ⟨hD, hH⟩ := records_at l1 l2 e hm
  refine ⟨_, _, _, harch, rfl, rfl, ?_⟩
  rw [hD, hH]
  refine ⟨rfl, rfl, rfl, rfl, rfl, rfl, fun h => ?_, rfl, fun l0 p => ?_⟩
  · rw [cdh_localHeaderOffset, Nat.mod_eq_of_lt h]
  · rw [records_snoc_length]; omega

/-- Witness for C12 (amended): the second of two stored entries. -/
theorem directory_mirrors_entries_witness :
    ∃ (a : Bytes) (H : LocalFileHeader) (D : CentralDirectoryHeader),
      (create_zip_store {} noCodec twoFiles [122] [[97], [99], [98]]).archive = some a ∧
      H = LocalFileHeader.ofBytes ((a.drop (4 + (records [entryA]).length)).take 30) ∧
      D = CentralDirectoryHeader.ofBytes ((a.drop
        (4 + (records ([entryA] ++ smallEntry :: [])).length
          + (directory 4 [entryA]).length)).take 46) ∧
      D.crc32 = H.crc32 ∧ D.compressedSize = H.compressedSize ∧
      D.uncompressedSize = H.uncompressedSize ∧ D.compression = H.compression ∧
      D.filenameLength = H.filenameLength ∧
      D.localHeaderOffset = (4 + (records [entryA]).length) % 2 ^ 32 ∧
      (4 + (records [entryA]).length < 2 ^ 32 →
        D.localHeaderOffset = 4 + (records [entryA]).length) ∧
      4 + (records ([] : List Entry)).length = 4 ∧
      (∀ (l0 : List Entry) (p : Entry), 4 + (records (l0 ++ [p])).length
        = 4 + (records l0).length + 30 + p.name.length + p.outdata.length) :=
  directory_mirrors_entries {} noCodec twoFiles [122] [[97], [99], [98]] [entryA] []
    smallEntry rfl rfl (by decide) rfl

/-- C12, as stated, fails: in the archive written from the file `a` of `2 ^ 32` bytes
followed by the empty file `b`, the header of `b` begins at byte `2 ^ 32 + 35`, and
the directory entry of `b` carries `localHeaderOffset = 35`. -/
theorem stored_offset_is_not_the_exact_offset :
    4 + (records [bigEntry]).length = 2 ^ 32 + 35 ∧
    ∃ a, (create_zip_store {} noCodec bigFile [122] [[97], [98]]).archive = some a ∧
      (CentralDirectoryHeader.ofBytes ((a.drop
        (4 + (records ([bigEntry] ++ smallEntry :: [])).length
          + (directory 4 [bigEntry]).length)).take 46)).localHeaderOffset = 35 := by
  have hlen : (records [bigEntry]).length = 30 + 1 + 2 ^ 32 := by
    have h1 : bigEntry.outdata.length = 2 ^ 32 := fourGiB_length
    have h2 : bigEntry.name.length = 1 := rfl
    rw [records, records, List.append_nil, record_length, h1, h2]
  refine ⟨by rw [hlen]; norm_num, ?_⟩
  obtain ⟨harch, -⟩ := create_archive_closed {} noCodec bigFile [122] [[97], [98]] rfl rfl
    (create_thrown_store _ _ _ _ _ rfl rfl)
  rw [bigFile_entries] at harch
  refine ⟨_, harch, ?_⟩
  have h := (records_at [bigEntry] [] smallEntry (by decide)).1
  rw [List.singleton_append] at h
  rw [List.singleton_append, h, cdh_localHeaderOffset, bigEntry_offset]
  rfl

theorem directory_length (start : Nat) (es : List Entry) :
    (directory start es).length = (es.map (fun e => 46 + e.name.length)).sum := by
  induction es generalizing start with
  | nil => rfl
  | cons e rest ih =>
    simp only [directory, List.length_append, cdh_bytes_length, ih, List.map_cons,
      List.sum_cons]

theorem terminator_cdOffset (es : List Entry) :
    (terminator_of es).cdOffset = (4 + (records es).length) % 2 ^ 32 := rfl

theorem terminator_cdSize (es : List Entry) :
    (terminator_of es).cdSize = (directory 4 es).length % 2 ^ 32 := by
  show ((4 + (records es).length + (directory 4 es).length) % 2 ^ 32 + 2 ^ 32
      - (4 + (records es).length) % 2 ^ 32) % 2 ^ 32 = _
  omega

/-- C13 (amended): terminator summary.  For a run of `create_zip_store` that gets
past its two guards and meets no exception, the archive has `4 + R + D + 22` bytes,
where `R` is the size of the entry section and `D` the size of the directory
section, the sum over the written files of 46 plus the length of the name; the first
directory entry begins at byte `4 + R`; the terminator at the end of the archive has
`cdOffset = (4 + R) mod 2 ^ 32` and `cdSize = D mod 2 ^ 32`.  When the archive is
shorter than `2 ^ 32` bytes, `cdOffset = 4 + R`, `cdSize = D` and
`cdOffset + cdSize + 22` is the length of the archive. -/
theorem terminator_summary (g : Flags) (c : Codec) (env : Env)
    (archive : Bytes) (files : List Bytes)
    (hflags : (g.use_zlib && g.use_lzma) = false)
    (hcreat : env.creatable archive = true)
    (hthrown : (create_zip_store g c env archive files).thrown = none) :
    ∃ (a : Bytes) (t : EndOfCentralDirectory),
      (create_zip_store g c env archive files).archive = some a ∧
      written_terminator (create_zip_store g c env archive files) = some t ∧
      a.length = 4 + (records (written g c env archive files)).length
        + (directory 4 (written g c env archive files)).length + 22 ∧
      (directory 4 (written g c env archive files)).length
        = ((files.filter (env.opens archive)).map (fun p => 46 + p.length)).sum ∧
      a.drop (4 + (records (written g c env archive files)).length)
        = directory 4 (written g c env archive files) ++ t.bytes ∧
      t.cdOffset = (4 + (records (written g c env archive files)).length) % 2 ^ 32 ∧
      t.cdSize = (directory 4 (written g c env archive files)).length % 2 ^ 32 ∧
      (a.length < 2 ^ 32 →
        t.cdOffset = 4 + (records (written g c env archive files)).length ∧
        t.cdSize = (directory 4 (written g c env archive files)).length ∧
        t.cdOffset + t.cdSize + 22 = a.length) := by
  obtain ⟨harch, hmap⟩ := create_archive_closed g c env archive files hflags hcreat hthrown
  have hlen := layout_length (written g c env archive files)
  refine ⟨_, _, harch, written_terminator_closed g c env archive files hflags hcreat hthrown,
    hlen, ?_, ?_, terminator_cdOffset _, terminator_cdSize _, fun h => ?_⟩
  · rw [directory_length, ← hmap, List.map_map]
    rfl
  · have := drop_past (ZIP1 ++ records (written g c env archive files)
        ++ directory 4 (written g c env archive files)
        ++ (terminator_of (written g c env archive files)).bytes) 0
      (ZIP1 ++ records (written g c env archive files))
      (directory 4 (written g c env archive files)
        ++ (terminator_of (written g c env archive files)).bytes)
      (by simp only [List.drop_zero, List.append_assoc])
    simpa only [Nat.zero_add, List.length_append, show ZIP1.length = 4 from rfl] using this
  · rw [hlen] at h ⊢
    rw [terminator_cdOffset, terminator_cdSize, Nat.mod_eq_of_lt (by omega),
      Nat.mod_eq_of_lt (by omega)]
    exact ⟨rfl, rfl, rfl⟩

/-- Witness for C13 (amended): lzma mode with the toy codec, two of three inputs
open. -/
theorem terminator_summary_witness :
    ∃ (a : Bytes) (t : EndOfCentralDirectory),
      (create_zip_store { use_lzma := true } toyCodec twoFiles [122]
        [[97], [99], [98]]).archive = some a ∧
      written_terminator (create_zip_store { use_lzma := true } toyCodec twoFiles [122]
        [[97], [99], [98]]) = some t ∧
      a.length = 4
        + (records (written { use_lzma := true } toyCodec twoFiles [122]
            [[97], [99], [98]])).length
        + (directory 4 (written { use_lzma := true } toyCodec twoFiles [122]
            [[97], [99], [98]])).length + 22 ∧
      (directory 4 (written { use_lzma := true } toyCodec twoFiles [122]
            [[97], [99], [98]])).length
        = (([[97], [99], [98]].filter (twoFiles.opens [122])).map
            (fun p => 46 + p.length)).sum ∧
      a.drop (4 + (records (written { use_lzma := true } toyCodec twoFiles [122]
            [[97], [99], [98]])).length)
        = directory 4 (written { use_lzma := true } toyCodec twoFiles [122]
            [[97], [99], [98]]) ++ t.bytes ∧
      t.cdOffset = (4 + (records (written { use_lzma := true } toyCodec twoFiles [122]
            [[97], [99], [98]])).length) % 2 ^ 32 ∧
      t.cdSize = (directory 4 (written { use_lzma := true } toyCodec twoFiles [122]
            [[97], [99], [98]])).length % 2 ^ 32 ∧
      (a.length < 2 ^ 32 →
        t.cdOffset = 4 + (records (written { use_lzma := true } toyCodec twoFiles [122]
            [[97], [99], [98]])).length ∧
        t.cdSize = (directory 4 (written { use_lzma := true } toyCodec twoFiles [122]
            [[97], [99], [98]])).length ∧
        t.cdOffset + t.cdSize + 22 = a.length) :=
  terminator_summary { use_lzma := true } toyCodec twoFiles [122] [[97], [99], [98]]
    rfl rfl (by decide)

theorem big_records_length : (records [bigEntry, smallEntry]).length = 2 ^ 32 + 62 := by
  have h1 : bigEntry.outdata.length = 2 ^ 32 := fourGiB_length
  have h2 : bigEntry.name.length = 1 := rfl
  have h3 : smallEntry.outdata.length = 0 := rfl
  have h4 : smallEntry.name.length = 1 := rfl
  rw [records, records, records, List.append_nil, List.length_append, record_length,
    record_length, h1, h2, h3, h4]
  omega

/-- C13, as stated, fails: in the archive written from the file `a` of `2 ^ 32` bytes
followed by the empty file `b`, the first directory entry begins at byte
`2 ^ 32 + 66`, the terminator says `cdOffset = 66`, and `cdOffset + cdSize + 22` is
182 while the archive has `2 ^ 32 + 182` bytes. -/
theorem directory_offset_wraps_past_4GiB :
    4 + (records (written {} noCodec bigFile [122] [[97], [98]])).length = 2 ^ 32 + 66 ∧
    ∃ (a : Bytes) (t : EndOfCentralDirectory),
      (create_zip_store {} noCodec bigFile [122] [[97], [98]]).archive = some a ∧
      written_terminator (create_zip_store {} noCodec bigFile [122] [[97], [98]]) = some t ∧
      a.length = 2 ^ 32 + 182 ∧ t.cdOffset = 66 ∧ t.cdSize = 94 ∧
      t.cdOffset + t.cdSize + 22 ≠ a.length := by
  obtain ⟨harch, -⟩ := create_archive_closed {} noCodec bigFile [122] [[97], [98]] rfl rfl
    (create_thrown_store _ _ _ _ _ rfl rfl)
  have hterm := written_terminator_closed {} noCodec bigFile [122] [[97], [98]] rfl rfl
    (create_thrown_store _ _ _ _ _ rfl rfl)
  have hlen := layout_length (written {} noCodec bigFile [122] [[97], [98]])
  rw [bigFile_entries] at harch hterm hlen ⊢
  have hdir : (directory 4 [bigEntry, smallEntry]).length = 94 := by
    rw [directory_length]
    rfl
  have hoff : (terminator_of [bigEntry, smallEntry]).cdOffset = 66 := by
    rw [terminator_cdOffset, big_records_length]
    norm_num
  have hsize : (terminator_of [bigEntry, smallEntry]).cdSize = 94 := by
    rw [terminator_cdSize, hdir]
    norm_num
  rw [big_records_length, hdir] at hlen
  refine ⟨by rw [big_records_length]; omega, _, _, harch, hterm, by rw [hlen]; omega, hoff,
    hsize, ?_⟩
  rw [hoff, hsize, hlen]
  omega

/-! ## The checksum -/

theorem crc_loop_sum (data : Bytes) (crc : Nat) (h : crc < 2 ^ 32) :
    crc_loop data crc = (crc + (data.map Fin.val).sum) % 2 ^ 32 := by
  induction data generalizing crc with
  | nil => rw [crc_loop, List.map_nil, List.sum_nil, Nat.add_zero, Nat.mod_eq_of_lt h]
  | cons b rest ih =>
    rw [crc_loop, ih _ (Nat.mod_lt _ (by decide)), List.map_cons, List.sum_cons]
    omega

theorem simple_crc32_sum (data : Bytes) :
    simple_crc32 data = (data.map Fin.val).sum % 2 ^ 32 := by
  rw [simple_crc32, crc_loop_sum data 0 (by decide), Nat.zero_add]

/-- C17: checksum definition.  `simple_crc32` returns the sum of the bytes, each taken
as a value from 0 to 255, modulo `2 ^ 32`, and 0 for the empty sequence.  In the
archive of a run of `create_zip_store` that gets past its two guards and meets no
exception, under any compression method, the checksum field of the entry header and
of the directory entry of every written file `e` is this sum over the content that
the input stream delivered (for an input other than the archive itself, the content
of the file), not over the payload stored after the header. -/
theorem checksum_is_the_byte_sum (g : Flags) (c : Codec) (env : Env)
    (archive : Bytes) (files : List Bytes) (l1 l2 : List Entry) (e : Entry)
    (hflags : (g.use_zlib && g.use_lzma) = false)
    (hcreat : env.creatable archive = true)
    (hthrown : (create_zip_store g c env archive files).thrown = none)
    (hsplit : written g c env archive files = l1 ++ e :: l2) :
    (∀ data : Bytes, simple_crc32 data = (data.map Fin.val).sum % 2 ^ 32) ∧
    simple_crc32 [] = 0 ∧
    env.input archive (ZIP1 ++ records l1) e.name = some e.data ∧
    (env.same e.name archive = false → env.readable e.name = some e.data) ∧
    select_outdata g c e.data = .ok (e.outdata, e.method) ∧
    ∃ a, (create_zip_store g c env archive files).archive = some a ∧
      (a.drop (4 + (records l1).length + 30)).take (e.name.length + e.outdata.length)
        = e.name ++ e.outdata ∧
      (LocalFileHeader.ofBytes ((a.drop (4 + (records l1).length)).take 30)).crc32
        = (e.data.map Fin.val).sum % 2 ^ 32 ∧
      (CentralDirectoryHeader.ofBytes ((a.drop
        (4 + (records (l1 ++ e :: l2)).length + (directory 4 l1).length)).take 46)).crc32
        = (e.data.map Fin.val).sum % 2 ^ 32 := by
  obtain ⟨harch, -⟩ := create_archive_closed g c env archive files hflags hcreat hthrown
  rw [hsplit] at harch
  obtain ⟨hm, hrd, -, hsel⟩ := split_method_lt g c (env.input archive) files ZIP1 l1 l2 e hsplit
  obtain ⟨hD, hH⟩ := records_at l1 l2 e hm
  refine ⟨simple_crc32_sum, rfl, hrd,
    fun h => by rw [← input_other env archive (ZIP1 ++ records l1) e.name h]; exact hrd,
    hsel, _, harch, ?_, ?_, ?_⟩
  · have hrec := (layout_split l1 l2 e).2
    have hrec' : (ZIP1 ++ records (l1 ++ e :: l2) ++ directory 4 (l1 ++ e :: l2)
        ++ (terminator_of (l1 ++ e :: l2)).bytes).drop (4 + (records l1).length)
        = e.lfh.bytes ++ ((e.name ++ e.outdata) ++ (records l2 ++ directory 4 (l1 ++ e :: l2)
          ++ (terminator_of (l1 ++ e :: l2)).bytes)) := by
      rw [hrec, Entry.record]
      simp only [List.append_assoc]
    have := drop_past _ _ _ _ hrec'
    rw [lfh_bytes_length] at this
    rw [this, List.take_append_of_le_length (by rw [List.length_append]),
      List.take_of_length_le (by rw [List.length_append])]
  · rw [hH, ← simple_crc32_sum]
    rfl
  · rw [hD, ← simple_crc32_sum]
    rfl

/-- Witness for C17: deflate mode with the toy codec; the payload of `a` is
`1, 1, 2, 3` (sum 7), its content `1, 2, 3` (sum 6). -/
theorem checksum_is_the_byte_sum_witness :
    (∀ data : Bytes, simple_crc32 data = (data.map Fin.val).sum % 2 ^ 32) ∧
    simple_crc32 [] = 0 ∧
    twoFiles.input [122] (ZIP1 ++ records []) toyEntryA.name = some toyEntryA.data ∧
    (twoFiles.same toyEntryA.name [122] = false →
      twoFiles.readable toyEntryA.name = some toyEntryA.data) ∧
    select_outdata { use_zlib := true } toyCodec toyEntryA.data
      = .ok (toyEntryA.outdata, toyEntryA.method) ∧
    ∃ a, (create_zip_store { use_zlib := true } toyCodec twoFiles [122]
        [[97], [99], [98]]).archive = some a ∧
      (a.drop (4 + (records []).length + 30)).take
          (toyEntryA.name.length + toyEntryA.outdata.length)
        = toyEntryA.name ++ toyEntryA.outdata ∧
      (LocalFileHeader.ofBytes ((a.drop (4 + (records []).length)).take 30)).crc32
        = (toyEntryA.data.map Fin.val).sum % 2 ^ 32 ∧
      (CentralDirectoryHeader.ofBytes ((a.drop
        (4 + (records ([] ++ toyEntryA :: [toyEntryB])).length
          + (directory 4 []).length)).take 46)).crc32
        = (toyEntryA.data.map Fin.val).sum % 2 ^ 32 :=
  checksum_is_the_byte_sum { use_zlib := true } toyCodec twoFiles [122] [[97], [99], [98]]
    [] [toyEntryB] toyEntryA rfl rfl (by decide) rfl

/-! ## Walking an archive -/

theorem extract_passes_walk (g : Flags) (c : Codec) (u : Indeterminate)
    (content outdir : Bytes) (n i : Nat) (s : IStream) :
    (extract_passes g c u content outdir n i s).files
      = (walk u content n i s).map
          (fun r => (outdir ++ slash ++ r.fname2, (write_payload c r.lfh r.data).written)) ∧
    (extract_passes g c u content outdir n i s).cerr
      = ((walk u content n i s).map (fun r => (write_payload c r.lfh r.data).cerr)).flatten := by
  induction n generalizing i s with
  | zero => exact ⟨rfl, rfl⟩
  | succ k ih =>
    simp only [extract_passes, walk, seekg_tellg, ite_self, List.map_cons, List.flatten_cons]
    exact ⟨by rw [(ih _ _).1], by rw [(ih _ _).2]⟩

/-- The traversal of `extract_zip` is the one `read_archive` records: in a run in
which no output stream opens on the archive file, each pass puts into its output
stream what `write_payload` makes of the header and payload read in that pass. -/
theorem extract_zip_read_archive (g : Flags) (c : Codec) (u : Indeterminate) (env : Env)
    (archive outdir content : Bytes) (t : EndOfCentralDirectory) (reads : List EntryRead)
    (hread : env.readable archive = some content)
    (hwalk : read_archive u content = some (t, reads))
    (hq : ∀ r ∈ reads, (env.creatable (outdir ++ slash ++ r.fname2)
      && env.same (outdir ++ slash ++ r.fname2) archive) = false) :
    ∃ X : ExtractOutcome, extract_zip g c u env archive outdir = X.settle env outdir ∧
      X.files = reads.map
          (fun r => (outdir ++ slash ++ r.fname2, (write_payload c r.lfh r.data).written)) ∧
      X.cerr = (reads.map (fun r => (write_payload c r.lfh r.data).cerr)).flatten := by
  unfold read_archive at hwalk
  by_cases hm : (read_magic u (IStream.ofFile content)).2 = ZIP1
  · simp only [hm, ne_eq, not_true_eq_false, if_false, Option.some.injEq,
      Prod.mk.injEq] at hwalk
    obtain ⟨h1, h2⟩ := extract_passes_walk g c u content outdir
      (read_eocd u ((read_magic u (IStream.ofFile content)).1.seekg_end 22)).2.entriesTotal 0
      ((read_eocd u ((read_magic u (IStream.ofFile content)).1.seekg_end 22)).1.seekg_beg
        (read_eocd u ((read_magic u (IStream.ofFile content)).1.seekg_end 22)).2.cdOffset)
    rw [hwalk.2] at h1 h2
    refine ⟨_, extract_zip_quiet g c u env archive outdir content _ hread hm rfl ?_, h1, h2⟩
    intro f hf
    rw [h1, List.mem_map] at hf
    obtain ⟨r, hr, rfl⟩ := hf
    exact hq r hr
  · simp [hm] at hwalk

theorem walk_written (u : Indeterminate) (content : Bytes) (es : List Entry) (start i : Nat)
    (s : IStream) (post : Bytes) (hf : s.fail = false)
    (hd : s.data.drop s.pos = directory start es ++ post)
    (hloc : Located content start es) (hlen : content.length < 2 ^ 32)
    (hfit : ∀ e ∈ es, e.Fits) :
    (walk u content es.length i s).map EntryRead.cdh = central_of start es ∧
    (walk u content es.length i s).map EntryRead.fname = es.map Entry.name ∧
    (walk u content es.length i s).map EntryRead.lfh = es.map Entry.lfh ∧
    (walk u content es.length i s).map EntryRead.fname2 = es.map Entry.name ∧
    (walk u content es.length i s).map EntryRead.data = es.map Entry.outdata := by
  induction es generalizing start i s with
  | nil => exact ⟨rfl, rfl, rfl, rfl, rfl⟩
  | cons e rest ih =>
    obtain ⟨hn, hdl, hol, hm⟩ := hfit e (List.mem_cons_self _ _)
    have hlt := located_start_lt content start e rest hloc
    obtain ⟨⟨tail, ht⟩, hloc'⟩ := hloc
    have hd0 : s.data.drop s.pos
        = (e.cdh start).bytes ++ e.name ++ (directory (start + e.record.length) rest ++ post) := by
      simpa [directory, List.append_assoc] using hd
    have hstart : start % 2 ^ 32 = start := Nat.mod_eq_of_lt (by omega)
    obtain ⟨hnext, hf1, hf2, hlfh, hdata⟩ := read_entry_written u content i s e start _ tail
      hf hd0 (by rw [hstart]; exact ht) hm
    have hdata := hdata hn hol
    have hnl : e.name.length % 2 ^ 16 = e.name.length := Nat.mod_eq_of_lt hn
    rw [hnl] at hnext hf1 hf2
    rw [List.take_length] at hf1 hf2
    have hcdh : (read_entry u content i s).cdh = e.cdh start := by
      show (read_cdh u i s).2 = _
      rw [read_cdh_exact u i s (e.cdh start) _ hf (by rw [hd0, List.append_assoc]),
        cdh_narrow_of_fits e start hm]
    have hd2 : s.data.drop (s.pos + 46 + e.name.length)
        = directory (start + e.record.length) rest ++ post := by
      have h46 := drop_past s.data s.pos (e.cdh start).bytes _
        (by rw [hd0, List.append_assoc])
      rw [cdh_bytes_length] at h46
      exact drop_past s.data (s.pos + 46) e.name _ h46
    obtain ⟨r1, r2, r3, r4, r5⟩ := ih (start + e.record.length) (i + 1)
      { s with pos := s.pos + 46 + e.name.length } hf hd2 hloc'
      (fun e' he' => hfit e' (List.mem_cons_of_mem _ he'))
    simp only [List.length_cons, walk, seekg_tellg, hnext, List.map_cons, hcdh, hf1, hf2,
      hlfh, hdata, r1, r2, r3, r4, r5, central_of, and_self]

theorem read_archive_layout (u : Indeterminate) (es : List Entry)
    (hsize : (ZIP1 ++ records es ++ directory 4 es ++ (terminator_of es).bytes).length < 2 ^ 32)
    (hcount : es.length < 2 ^ 16) :
    read_archive u (ZIP1 ++ records es ++ directory 4 es ++ (terminator_of es).bytes)
      = some (terminator_of es,
          walk u (ZIP1 ++ records es ++ directory 4 es ++ (terminator_of es).bytes) es.length 0
            ((IStream.ofFile (ZIP1 ++ records es ++ directory 4 es
              ++ (terminator_of es).bytes)).seekg_beg (4 + (records es).length))) := by
  obtain ⟨hm, he⟩ := read_preamble u (records es ++ directory 4 es) (terminator_of es)
  simp only [← List.append_assoc] at hm he
  have hlen := layout_length es
  unfold read_archive
  simp only [hm, ne_eq, not_true_eq_false, if_false, he, terminator_narrow]
  have hn : (terminator_of es).entriesTotal = es.length := Nat.mod_eq_of_lt hcount
  have ho : (terminator_of es).cdOffset = 4 + (records es).length :=
    Nat.mod_eq_of_lt (by omega)
  rw [hn, ho]
  rfl

theorem reads_fields (reads : List EntryRead) (es : List Entry)
    (h3 : reads.map EntryRead.lfh = es.map Entry.lfh)
    (h4 : reads.map EntryRead.fname2 = es.map Entry.name)
    (h5 : reads.map EntryRead.data = es.map Entry.outdata)
    (hex : ∀ e ∈ es, e.lfh.filenameLength = e.name.length ∧
      e.lfh.compressedSize = e.outdata.length ∧ e.lfh.uncompressedSize = e.data.length) :
    reads.map (fun r => (r.fname2, r.lfh.compression, r.lfh.compressedSize,
        r.lfh.uncompressedSize, r.data))
      = es.map (fun e => (e.name, e.method, e.outdata.length, e.data.length, e.outdata)) := by
  induction es generalizing reads with
  | nil =>
    cases reads with
    | nil => rfl
    | cons r rs => simp at h3
  | cons e rest ih =>
    cases reads with
    | nil => simp at h3
    | cons r rs =>
      simp only [List.map_cons, List.cons.injEq] at h3 h4 h5 ⊢
      obtain ⟨-, x2, x3⟩ := hex e (List.mem_cons_self _ _)
      refine ⟨?_, ih rs h3.2 h4.2 h5.2 (fun e' he' => hex e' (List.mem_cons_of_mem _ he'))⟩
      rw [h3.1, h4.1, h5.1, x2, x3]
      rfl

/-- C19: nothing is lost within the limits of the format.  For a run of
`create_zip_store` that gets past its two guards and meets no exception, where every
name is shorter than `2 ^ 16` bytes, every content shorter than `2 ^ 32` bytes, fewer
than `2 ^ 16` files are written and the archive is shorter than `2 ^ 32` bytes: the
written files are the inputs on which a stream opened, each with the content the
stream delivered, the narrowed fields hold the exact values (`filenameLength`, `compressedSize`,
`uncompressedSize` of every header, `localHeaderOffset` of every directory entry,
`entriesTotal`, `cdOffset` and `cdSize` of the terminator), and the traversal of the
reader over the written archive (terminator, directory, each entry header at its
offset) finds that terminator and, for every written file in order, the directory
entry and the header the writer built, the name, the method, both sizes and the
payload bytes. -/
theorem nothing_is_lost_within_limits (g : Flags) (c : Codec) (u : Indeterminate) (env : Env)
    (archive : Bytes) (files : List Bytes)
    (hflags : (g.use_zlib && g.use_lzma) = false)
    (hcreat : env.creatable archive = true)
    (hthrown : (create_zip_store g c env archive files).thrown = none)
    (hnames : ∀ f ∈ files, f.length < 2 ^ 16)
    (hdata : ∀ f ∈ files, ∀ d, env.readable f = some d → d.length < 2 ^ 32)
    (hcount : (files.filter (env.opens archive)).length < 2 ^ 16)
    (hsize : ∀ a, (create_zip_store g c env archive files).archive = some a →
      a.length < 2 ^ 32) :
    ∃ (a : Bytes) (reads : List EntryRead),
      (create_zip_store g c env archive files).archive = some a ∧
      (written g c env archive files).map Entry.name = files.filter (env.opens archive) ∧
      (∀ l1 e l2, written g c env archive files = l1 ++ e :: l2 →
        env.input archive (ZIP1 ++ records l1) e.name = some e.data ∧
        select_outdata g c e.data = .ok (e.outdata, e.method)) ∧
      ((∀ f ∈ files, env.same f archive = false) →
        (written g c env archive files).map (fun e => (e.name, e.data))
          = opened_inputs env.readable files) ∧
      (∀ e ∈ written g c env archive files,
        e.lfh.filenameLength = e.name.length ∧ e.lfh.compressedSize = e.outdata.length ∧
        e.lfh.uncompressedSize = e.data.length) ∧
      (∀ l1 e l2, written g c env archive files = l1 ++ e :: l2 →
        (e.cdh (4 + (records l1).length)).localHeaderOffset = 4 + (records l1).length) ∧
      (terminator_of (written g c env archive files)).entriesTotal
        = (files.filter (env.opens archive)).length ∧
      (terminator_of (written g c env archive files)).entriesThisDisk
        = (files.filter (env.opens archive)).length ∧
      (terminator_of (written g c env archive files)).cdOffset
        = 4 + (records (written g c env archive files)).length ∧
      (terminator_of (written g c env archive files)).cdSize
        = (directory 4 (written g c env archive files)).length ∧
      read_archive u a = some (terminator_of (written g c env archive files), reads) ∧
      reads.map EntryRead.cdh = central_of 4 (written g c env archive files) ∧
      reads.map EntryRead.lfh = (written g c env archive files).map Entry.lfh ∧
      reads.map EntryRead.fname = (written g c env archive files).map Entry.name ∧
      reads.map (fun r => (r.fname2, r.lfh.compression, r.lfh.compressedSize,
          r.lfh.uncompressedSize, r.data))
        = (written g c env archive files).map
            (fun e => (e.name, e.method, e.outdata.length, e.data.length, e.outdata)) := by
  obtain ⟨harch, hmap⟩ := create_archive_closed g c env archive files hflags hcreat hthrown
  have hsz := hsize _ harch
  have hlen := layout_length (written g c env archive files)
  have hel := entries_length g c env archive files hflags hcreat hthrown
  have hfit : ∀ e ∈ written g c env archive files, e.Fits := by
    intro e he
    obtain ⟨l1, l2, hsplit⟩ := List.append_of_mem he
    obtain ⟨hmem, hrd, hsel⟩ := written_at g c env archive files l1 l2 e hsplit
    have hrec := record_le_records _ e he
    rw [record_length] at hrec
    have hl1 : (records l1).length ≤ (records (written g c env archive files)).length := by
      rw [hsplit, records_append, List.length_append]
      omega
    have hd : e.data.length < 2 ^ 32 := by
      cases hs : env.same e.name archive with
      | false =>
        rw [input_other env archive _ e.name hs] at hrd
        exact hdata _ hmem _ hrd
      | true =>
        rw [input_archive env archive _ e.name e.data hs hrd, List.length_take,
          List.length_append]
        have : ZIP1.length = 4 := rfl
        omega
    exact ⟨hnames _ hmem, hd, by omega, select_outdata_method_lt g c _ _ _ hsel⟩
  have hexact : ∀ e ∈ written g c env archive files,
      e.lfh.filenameLength = e.name.length ∧ e.lfh.compressedSize = e.outdata.length ∧
      e.lfh.uncompressedSize = e.data.length := by
    intro e he
    obtain ⟨h1, h2, h3, -⟩ := hfit e he
    exact ⟨Nat.mod_eq_of_lt h1, Nat.mod_eq_of_lt h3, Nat.mod_eq_of_lt h2⟩
  obtain ⟨w1, w2, w3, w4, w5⟩ := walk_written u
    (ZIP1 ++ records (written g c env archive files)
      ++ directory 4 (written g c env archive files)
      ++ (terminator_of (written g c env archive files)).bytes)
    (written g c env archive files) 4 0
    ((IStream.ofFile (ZIP1 ++ records (written g c env archive files)
      ++ directory 4 (written g c env archive files)
      ++ (terminator_of (written g c env archive files)).bytes)).seekg_beg
        (4 + (records (written g c env archive files)).length))
    (terminator_of (written g c env archive files)).bytes rfl
    (by
      have := drop_past (ZIP1 ++ records (written g c env archive files)
          ++ directory 4 (written g c env archive files)
          ++ (terminator_of (written g c env archive files)).bytes) 0
        (ZIP1 ++ records (written g c env archive files))
        (directory 4 (written g c env archive files)
          ++ (terminator_of (written g c env archive files)).bytes)
        (by simp only [List.drop_zero, List.append_assoc])
      simpa only [Nat.zero_add, List.length_append, show ZIP1.length = 4 from rfl,
        seekg_beg_ofFile] using this)
    (by
      have := located_of_append (written g c env archive files) ZIP1
        (directory 4 (written g c env archive files)
          ++ (terminator_of (written g c env archive files)).bytes)
      simpa [List.append_assoc, show ZIP1.length = 4 from rfl] using this)
    hsz hfit
  refine ⟨_, _, harch, hmap,
    fun l1 e l2 h => (written_at g c env archive files l1 l2 e h).2,
    written_fixed g c env archive files hflags hcreat hthrown, hexact, ?_, ?_, ?_, ?_, ?_,
    read_archive_layout u _ hsz (by rw [hel]; exact hcount), w1, w3, w2, ?_⟩
  · intro l1 e l2 hsplit
    rw [cdh_localHeaderOffset]
    apply Nat.mod_eq_of_lt
    have : (records (written g c env archive files)).length
        = (records l1).length + (records (e :: l2)).length := by
      rw [hsplit, records_append, List.length_append]
    omega
  · rw [terminator_entriesTotal, hel, Nat.mod_eq_of_lt hcount]
  · rw [terminator_entriesThisDisk, hel, Nat.mod_eq_of_lt hcount]
  · rw [terminator_cdOffset]
    exact Nat.mod_eq_of_lt (by omega)
  · rw [terminator_cdSize]
    exact Nat.mod_eq_of_lt (by omega)
  · exact reads_fields _ _ w3 w4 w5 hexact

/-- Witness for C19: deflate mode with the toy codec over `a`, a missing `c`, `b` and
the archive path `z` itself. -/
theorem nothing_is_lost_within_limits_witness :
    ∃ (a : Bytes) (reads : List EntryRead),
      (create_zip_store { use_zlib := true } toyCodec twoFiles [122] fourInputs).archive
        = some a ∧
      (written { use_zlib := true } toyCodec twoFiles [122] fourInputs).map Entry.name
        = fourInputs.filter (twoFiles.opens [122]) ∧
      (∀ l1 e l2, written { use_zlib := true } toyCodec twoFiles [122] fourInputs
          = l1 ++ e :: l2 →
        twoFiles.input [122] (ZIP1 ++ records l1) e.name = some e.data ∧
        select_outdata { use_zlib := true } toyCodec e.data = .ok (e.outdata, e.method)) ∧
      ((∀ f ∈ fourInputs, twoFiles.same f [122] = false) →
        (written { use_zlib := true } toyCodec twoFiles [122] fourInputs).map
            (fun e => (e.name, e.data))
          = opened_inputs twoFiles.readable fourInputs) ∧
      (∀ e ∈ written { use_zlib := true } toyCodec twoFiles [122] fourInputs,
        e.lfh.filenameLength = e.name.length ∧ e.lfh.compressedSize = e.outdata.length ∧
        e.lfh.uncompressedSize = e.data.length) ∧
      (∀ l1 e l2, written { use_zlib := true } toyCodec twoFiles [122] fourInputs
          = l1 ++ e :: l2 →
        (e.cdh (4 + (records l1).length)).localHeaderOffset = 4 + (records l1).length) ∧
      (terminator_of (written { use_zlib := true } toyCodec twoFiles [122]
          fourInputs)).entriesTotal
        = (fourInputs.filter (twoFiles.opens [122])).length ∧
      (terminator_of (written { use_zlib := true } toyCodec twoFiles [122]
          fourInputs)).entriesThisDisk
        = (fourInputs.filter (twoFiles.opens [122])).length ∧
      (terminator_of (written { use_zlib := true } toyCodec twoFiles [122]
          fourInputs)).cdOffset
        = 4 + (records (written { use_zlib := true } toyCodec twoFiles [122]
            fourInputs)).length ∧
      (terminator_of (written { use_zlib := true } toyCodec twoFiles [122]
          fourInputs)).cdSize
        = (directory 4 (written { use_zlib := true } toyCodec twoFiles [122]
            fourInputs)).length ∧
      read_archive zeroed a
        = some (terminator_of (written { use_zlib := true } toyCodec twoFiles [122]
            fourInputs), reads) ∧
      reads.map EntryRead.cdh
        = central_of 4 (written { use_zlib := true } toyCodec twoFiles [122] fourInputs) ∧
      reads.map EntryRead.lfh
        = (written { use_zlib := true } toyCodec twoFiles [122] fourInputs).map Entry.lfh ∧
      reads.map EntryRead.fname
        = (written { use_zlib := true } toyCodec twoFiles [122] fourInputs).map Entry.name ∧
      reads.map (fun r => (r.fname2, r.lfh.compression, r.lfh.compressedSize,
          r.lfh.uncompressedSize, r.data))
        = (written { use_zlib := true } toyCodec twoFiles [122] fourInputs).map
            (fun e => (e.name, e.method, e.outdata.length, e.data.length, e.outdata)) :=
  nothing_is_lost_within_limits { use_zlib := true } toyCodec zeroed twoFiles [122]
    fourInputs rfl rfl (by decide) (by decide)
    (by
      intro f hf d hd
      simp only [twoFiles] at hd
      split at hd
      · cases hd; decide
      · split at hd
        · cases hd; decide
        · cases hd)
    (by decide)
    (by
      intro a ha
      have h2 : ((create_zip_store { use_zlib := true } toyCodec twoFiles [122]
          fourInputs).archive).map List.length = some 266 := by decide
      rw [ha] at h2
      simp only [Option.map_some', Option.some.injEq] at h2
      omega)

/-! ## Listing reads forward only -/

theorem read_sameAhead (a b : IStream) (n : Nat) (h : a.SameAhead b) :
    (a.read n).2 = (b.read n).2 ∧ (a.read n).1.SameAhead (b.read n).1 := by
  obtain ⟨hf, hd⟩ := h
  unfold IStream.read
  rw [← hf, hd]
  cases hfa : a.fail with
  | true => exact ⟨rfl, by rw [hfa] at hf; exact ⟨hfa.trans hf, hd⟩⟩
  | false =>
    simp only [Bool.false_eq_true, if_false]
    split
    · refine ⟨rfl, rfl, ?_⟩
      show a.data.drop (a.pos + _) = b.data.drop (b.pos + _)
      rw [← List.drop_drop, ← List.drop_drop, hd]
    · refine ⟨rfl, rfl, ?_⟩
      · show a.data.drop (a.pos + n) = b.data.drop (b.pos + n)
        rw [← List.drop_drop, ← List.drop_drop, hd]

theorem read_cdh_sameAhead (u : Indeterminate) (i : Nat) (a b : IStream)
    (h : a.SameAhead b) :
    (read_cdh u i a).2 = (read_cdh u i b).2 ∧ (read_cdh u i a).1.SameAhead (read_cdh u i b).1 := by
  obtain ⟨h1, h2⟩ := read_sameAhead a b 46 h
  unfold read_cdh
  exact ⟨by simp only [h1], h2⟩

theorem read_buffer_sameAhead (a b : IStream) (n : Nat) (h : a.SameAhead b) :
    (read_buffer a n).2 = (read_buffer b n).2 ∧
      (read_buffer a n).1.SameAhead (read_buffer b n).1 := by
  obtain ⟨h1, h2⟩ := read_sameAhead a b n h
  unfold read_buffer
  exact ⟨by simp only [h1], h2⟩

theorem list_loop_sameAhead (u : Indeterminate) (n i : Nat) (a b : IStream)
    (h : a.SameAhead b) : list_loop u n i a = list_loop u n i b := by
  induction n generalizing i a b with
  | zero => rfl
  | succ k ih =>
    obtain ⟨h1, h2⟩ := read_cdh_sameAhead u i a b h
    simp only [list_loop]
    rw [h1]
    obtain ⟨h3, h4⟩ := read_buffer_sameAhead _ _ (read_cdh u i b).2.filenameLength h2
    rw [h3, ih _ _ _ h4]

/-- What `list_zip` does on a file that starts with the prefix and ends with a
terminator record. -/
theorem list_zip_enters_any (u : Indeterminate) (env : Env) (archive mid : Bytes)
    (t : EndOfCentralDirectory)
    (hread : env.readable archive = some (ZIP1 ++ mid ++ t.bytes)) :
    list_zip u env archive
      = { cerr := [],
          cout := list_loop u (t.entriesTotal % 2 ^ 16) 0
            ((IStream.ofFile (ZIP1 ++ mid ++ t.bytes)).seekg_beg (t.cdOffset % 2 ^ 32)) } := by
  obtain ⟨hm, he⟩ := read_preamble u mid t
  unfold list_zip
  simp only [hread, hm, ne_eq, not_true_eq_false, if_false, he]
  rfl

theorem list_zip_body (u : Indeterminate) (env : Env) (archive body dir : Bytes)
    (t : EndOfCentralDirectory)
    (hread : env.readable archive = some (ZIP1 ++ body ++ dir ++ t.bytes))
    (hoff : t.cdOffset % 2 ^ 32 = 4 + body.length) :
    list_zip u env archive
      = { cerr := [],
          cout := list_loop u (t.entriesTotal % 2 ^ 16) 0
            { data := dir ++ t.bytes, pos := 0, fail := false } } := by
  rw [list_zip_enters_any u env archive (body ++ dir) t
    (by rw [hread]; simp only [List.append_assoc]), hoff]
  congr 1
  apply list_loop_sameAhead
  refine ⟨rfl, ?_⟩
  have := drop_past (ZIP1 ++ (body ++ dir) ++ t.bytes) 0 (ZIP1 ++ body) (dir ++ t.bytes)
    (by simp only [List.drop_zero, List.append_assoc])
  simpa only [Nat.zero_add, List.length_append, show ZIP1.length = 4 from rfl,
    seekg_beg_ofFile, List.drop_zero] using this

theorem records_payload_length (l1 l2 : List Entry) (e : Entry) (p : Bytes)
    (hp : p.length = e.outdata.length) :
    (records (l1 ++ { e with outdata := p } :: l2)).length
      = (records (l1 ++ e :: l2)).length := by
  simp only [records_append, records, List.length_append, record_length, hp]

/-- C16 (amended): listing is metadata-only.  Take the archive of a run of
`create_zip_store` that gets past its two guards and meets no exception and whose
directory section begins before byte `2 ^ 32`.  Replacing the payload of any entry
by any bytes of the same length, and more generally replacing the whole entry
section by any bytes of the same length, leaves the output of `list_zip` unchanged:
it depends only on the leading `ZIP1`, the directory section and the terminator. -/
theorem listing_is_metadata_only (g : Flags) (c : Codec) (u : Indeterminate)
    (env env0 : Env) (archive archive0 : Bytes) (files : List Bytes) (l1 l2 : List Entry)
    (e : Entry) (p : Bytes)
    (hflags : (g.use_zlib && g.use_lzma) = false)
    (hcreat : env.creatable archive = true)
    (hthrown : (create_zip_store g c env archive files).thrown = none)
    (hsplit : written g c env archive files = l1 ++ e :: l2)
    (hp : p.length = e.outdata.length)
    (hoff : 4 + (records (l1 ++ e :: l2)).length < 2 ^ 32)
    (hstored : env0.readable archive0 = (create_zip_store g c env archive files).archive) :
    (∀ (env' : Env) (archive' : Bytes),
      env'.readable archive'
        = some (ZIP1 ++ records (l1 ++ { e with outdata := p } :: l2)
            ++ directory 4 (l1 ++ e :: l2) ++ (terminator_of (l1 ++ e :: l2)).bytes) →
      list_zip u env' archive' = list_zip u env0 archive0) ∧
    (∀ (env' : Env) (archive' body : Bytes),
      body.length = (records (l1 ++ e :: l2)).length →
      env'.readable archive'
        = some (ZIP1 ++ body ++ directory 4 (l1 ++ e :: l2)
            ++ (terminator_of (l1 ++ e :: l2)).bytes) →
      list_zip u env' archive' = list_zip u env0 archive0) := by
  have hwritten := (create_archive_closed g c env archive files hflags hcreat hthrown).1
  rw [hsplit, ← hstored] at hwritten
  have hgen : ∀ (env' : Env) (archive' body : Bytes),
      body.length = (records (l1 ++ e :: l2)).length →
      env'.readable archive'
        = some (ZIP1 ++ body ++ directory 4 (l1 ++ e :: l2)
            ++ (terminator_of (l1 ++ e :: l2)).bytes) →
      list_zip u env' archive' = list_zip u env0 archive0 := by
    intro env' archive' body hb hread
    rw [list_zip_body u env' archive' body _ _ hread
        (by rw [terminator_cdOffset, Nat.mod_mod, Nat.mod_eq_of_lt hoff, hb]),
      list_zip_body u _ archive0 (records (l1 ++ e :: l2)) _ _ hwritten
        (by rw [terminator_cdOffset, Nat.mod_mod, Nat.mod_eq_of_lt hoff])]
  exact ⟨fun env' archive' hread =>
    hgen env' archive' _ (records_payload_length l1 l2 e p hp) hread, hgen⟩

/-- Witness for C16 (amended): the payload `1, 2, 3` of the first of two stored
entries is replaced by `9, 9, 9`. -/
theorem listing_is_metadata_only_witness :
    (∀ (env' : Env) (archive' : Bytes),
      env'.readable archive'
        = some (ZIP1 ++ records ([] ++ { entryA with outdata := [9, 9, 9] } :: [smallEntry])
            ++ directory 4 ([] ++ entryA :: [smallEntry])
            ++ (terminator_of ([] ++ entryA :: [smallEntry])).bytes) →
      list_zip zeroed env' archive'
        = list_zip zeroed (twoFiles.after_create {} noCodec [122] [[97], [99], [98]]) [122]) ∧
    (∀ (env' : Env) (archive' body : Bytes),
      body.length = (records ([] ++ entryA :: [smallEntry])).length →
      env'.readable archive'
        = some (ZIP1 ++ body ++ directory 4 ([] ++ entryA :: [smallEntry])
            ++ (terminator_of ([] ++ entryA :: [smallEntry])).bytes) →
      list_zip zeroed env' archive'
        = list_zip zeroed (twoFiles.after_create {} noCodec [122] [[97], [99], [98]]) [122]) :=
  listing_is_metadata_only {} noCodec zeroed twoFiles
    (twoFiles.after_create {} noCodec [122] [[97], [99], [98]]) [122] [122]
    [[97], [99], [98]] [] [smallEntry] entryA [9, 9, 9] rfl rfl (by decide) rfl rfl
    (by decide) rfl

/-- The first name `list_zip` prints when the walk starts at bytes `P` (47 of them)
that hold a `filenameLength` of at most 1. -/
theorem list_zip_first_name (u : Indeterminate) (env : Env) (archive mid : Bytes)
    (t : EndOfCentralDirectory) (P tail : Bytes) (off fnl : Nat)
    (hread : env.readable archive = some (ZIP1 ++ mid ++ t.bytes))
    (hn : 0 < t.entriesTotal % 2 ^ 16) (hoff : t.cdOffset % 2 ^ 32 = off)
    (hdrop : (ZIP1 ++ mid ++ t.bytes).drop off = P ++ tail) (hP : P.length = 47)
    (hfnl : (CentralDirectoryHeader.ofBytes (P.take 46)).filenameLength = fnl)
    (hle : fnl ≤ 1) :
    (list_zip u env archive).cout.head? = some ((P.drop 46).take fnl) := by
  rw [list_zip_enters_any u env archive mid t hread, hoff]
  obtain ⟨k, hk⟩ : ∃ k, t.entriesTotal % 2 ^ 16 = k + 1 := ⟨_, (Nat.succ_pred_eq_of_pos hn).symm⟩
  rw [hk, seekg_beg_ofFile]
  have h1 : read_cdh u 0 { data := ZIP1 ++ mid ++ t.bytes, pos := off, fail := false }
      = ({ data := ZIP1 ++ mid ++ t.bytes, pos := off + 46, fail := false },
          CentralDirectoryHeader.ofBytes (P.take 46)) := by
    unfold read_cdh
    rw [read_take _ 46 P tail rfl hdrop (by omega)]
    simp only [Prod.mk.injEq, true_and]
    rw [overlay_full _ _ (by rw [cdh_bytes_length, List.length_take]; omega)]
  have hd2 : (ZIP1 ++ mid ++ t.bytes).drop (off + 46) = P.drop 46 ++ tail := by
    rw [← List.drop_drop, hdrop, List.drop_append_of_le_length (by omega)]
  have h2 : read_buffer { data := ZIP1 ++ mid ++ t.bytes, pos := off + 46, fail := false } fnl
      = ({ data := ZIP1 ++ mid ++ t.bytes, pos := off + 46 + fnl, fail := false },
          (P.drop 46).take fnl) :=
    read_buffer_take _ fnl (P.drop 46) tail rfl hd2 (by rw [List.length_drop]; omega)
  simp only [list_loop, h1, hfnl, h2, List.head?_cons]

theorem fourGiB_split :
    fourGiB = List.replicate 31 0 ++ (List.replicate 47 0 ++ List.replicate (2 ^ 32 - 78) 0) := by
  rw [fourGiB, ← List.replicate_add, ← List.replicate_add]
  congr 1

theorem fourGiBMarked_split :
    fourGiBMarked = List.replicate 31 0
      ++ ((List.replicate 28 0 ++ [1] ++ List.replicate 18 0)
        ++ List.replicate (2 ^ 32 - 78) 0) := by
  have h1 : (List.replicate 59 0 : Bytes) = List.replicate 31 0 ++ List.replicate 28 0 := by
    rw [← List.replicate_add]
  have h2 : (List.replicate (2 ^ 32 - 60) 0 : Bytes)
      = List.replicate 18 0 ++ List.replicate (2 ^ 32 - 78) 0 := by
    rw [← List.replicate_add]
    congr 1
  rw [fourGiBMarked, h1, h2]
  simp only [List.append_assoc]

theorem fourGiBMarked_length : fourGiBMarked.length = 2 ^ 32 := by
  rw [fourGiBMarked, List.length_append, List.length_append, List.length_replicate,
    List.length_replicate, List.length_singleton]
  norm_num

/-- The bytes from position 66 on in an archive whose first entry has a one-byte
name and a payload that goes on, after 31 bytes, with `P`. -/
theorem drop_into_first_payload (e0 : Entry) (Z P Q rest : Bytes)
    (hname : e0.name.length = 1) (hZ : Z.length = 31) (hpay : e0.outdata = Z ++ (P ++ Q)) :
    (ZIP1 ++ (e0.record ++ rest)).drop 66 = P ++ (Q ++ rest) := by
  have := drop_past (ZIP1 ++ (e0.record ++ rest)) 0 (ZIP1 ++ e0.lfh.bytes ++ e0.name ++ Z)
    (P ++ (Q ++ rest))
    (by rw [List.drop_zero, Entry.record, hpay]; simp only [List.append_assoc])
  simpa only [Nat.zero_add, List.length_append, show ZIP1.length = 4 from rfl,
    lfh_bytes_length, hname, hZ] using this

theorem big_terminator_facts :
    0 < (terminator_of [bigEntry, smallEntry]).entriesTotal % 2 ^ 16 ∧
    (terminator_of [bigEntry, smallEntry]).cdOffset % 2 ^ 32 = 66 := by
  constructor
  · rw [terminator_entriesTotal]
    decide
  · rw [terminator_cdOffset, big_records_length]
    norm_num

/-- C16, as stated, fails: in the archive written from the file `a` of `2 ^ 32` zero
bytes followed by the empty file `b`, the terminator says `cdOffset = 66`, a place in
the payload of `a`, and `list_zip` reads its directory entries there.  It prints an
empty name first; with the byte at index 59 of the payload changed to 1 it prints a
name of one byte first. -/
theorem listing_reads_payload_past_4GiB :
    fourGiBMarked.length = bigEntry.outdata.length ∧
    bigFileMarked.readable [122]
      = some (ZIP1 ++ records ([] ++ { bigEntry with outdata := fourGiBMarked } :: [smallEntry])
          ++ directory 4 ([] ++ bigEntry :: [smallEntry])
          ++ (terminator_of ([] ++ bigEntry :: [smallEntry])).bytes) ∧
    (list_zip zeroed (bigFile.after_create {} noCodec [122] [[97], [98]]) [122]).cout.head?
      = some [] ∧
    (list_zip zeroed bigFileMarked [122]).cout.head? = some [0] ∧
    list_zip zeroed bigFileMarked [122]
      ≠ list_zip zeroed (bigFile.after_create {} noCodec [122] [[97], [98]]) [122] := by
  have hA := after_create_readable {} noCodec bigFile [122] [[97], [98]] rfl rfl
    (create_thrown_store _ _ _ _ _ rfl rfl) rfl
  rw [bigFile_entries] at hA
  have hB : bigFileMarked.readable [122]
      = some (ZIP1 ++ records [bigEntryMarked, smallEntry] ++ directory 4 [bigEntry, smallEntry]
          ++ (terminator_of [bigEntry, smallEntry]).bytes) := rfl
  obtain ⟨hn, hoff⟩ := big_terminator_facts
  have h1 : (list_zip zeroed (bigFile.after_create {} noCodec [122] [[97], [98]])
      [122]).cout.head? = some [] := by
    rw [list_zip_first_name zeroed _ [122]
      (records [bigEntry, smallEntry] ++ directory 4 [bigEntry, smallEntry]) _
      (List.replicate 47 0) _ 66 0 (by rw [hA]; simp only [List.append_assoc]) hn hoff
      (by
        have := drop_into_first_payload bigEntry (List.replicate 31 0) (List.replicate 47 0)
          (List.replicate (2 ^ 32 - 78) 0)
          (records [smallEntry] ++ directory 4 [bigEntry, smallEntry]
            ++ (terminator_of [bigEntry, smallEntry]).bytes) rfl rfl fourGiB_split
        rw [← this, records]
        simp only [List.append_assoc])
      rfl (by decide) (by decide)]
    rfl
  have h2 : (list_zip zeroed bigFileMarked [122]).cout.head? = some [0] := by
    rw [list_zip_first_name zeroed _ [122]
      (records [bigEntryMarked, smallEntry] ++ directory 4 [bigEntry, smallEntry]) _
      (List.replicate 28 0 ++ [1] ++ List.replicate 18 0) _ 66 1
      (by rw [hB]; simp only [List.append_assoc]) hn hoff
      (by
        have := drop_into_first_payload bigEntryMarked (List.replicate 31 0)
          (List.replicate 28 0 ++ [1] ++ List.replicate 18 0)
          (List.replicate (2 ^ 32 - 78) 0)
          (records [smallEntry] ++ directory 4 [bigEntry, smallEntry]
            ++ (terminator_of [bigEntry, smallEntry]).bytes) rfl rfl fourGiBMarked_split
        rw [← this, records]
        simp only [List.append_assoc])
      (by decide) (by decide) (by decide)]
    rfl
  refine ⟨fourGiBMarked_length.trans fourGiB_length.symm, hB, h1, h2, ?_⟩
  intro h
  rw [h, h1] at h2
  exact absurd h2 (by decide)

/-! ## Extraction is a function of the entry headers it reaches -/

theorem extract_passes_outcome (g : Flags) (c : Codec) (u : Indeterminate)
    (content outdir : Bytes) (n i : Nat) (s : IStream) :
    extract_passes g c u content outdir n i s
      = outcome_of g c outdir ((walk u content n i s).map EntryRead.view) := by
  induction n generalizing i s with
  | zero => rfl
  | succ k ih =>
    simp only [extract_passes, walk, seekg_tellg, ite_self, List.map_cons, outcome_of,
      EntryRead.view, ih]

theorem read_within (s : IStream) (pre X : Bytes) (n : Nat) (hf : s.fail = false)
    (hd : s.data = pre ++ X) (hn : s.pos + n ≤ pre.length) :
    s.read n = ({ s with pos := s.pos + n }, (pre.drop s.pos).take n) :=
  read_take s n (pre.drop s.pos) X hf
    (by rw [hd, List.drop_append_of_le_length (by omega)])
    (by rw [List.length_drop]; omega)

theorem read_buffer_within (s : IStream) (pre X : Bytes) (n : Nat) (hf : s.fail = false)
    (hd : s.data = pre ++ X) (hn : s.pos + n ≤ pre.length) :
    read_buffer s n = ({ s with pos := s.pos + n }, (pre.drop s.pos).take n) := by
  unfold read_buffer
  rw [read_within s pre X n hf hd hn]
  simp only [Prod.mk.injEq, true_and]
  apply overlay_full
  rw [List.length_replicate, List.length_take, List.length_drop]
  omega

/-- Lines 205-209 on an entry that lies within the first part `pre` of the file. -/
theorem view_within (u : Indeterminate) (pre X : Bytes) (i : Nat) (s : IStream) (off : Nat)
    (hoff : (read_cdh u i s).2.localHeaderOffset = off)
    (hend : entry_end pre off ≤ pre.length) :
    (read_entry u (pre ++ X) i s).view = header_view pre off := by
  unfold entry_end at hend
  have h1 : read_lfh u i ((IStream.ofFile (pre ++ X)).seekg_beg off)
      = ({ data := pre ++ X, pos := off + 30, fail := false },
          LocalFileHeader.ofBytes ((pre.drop off).take 30)) := by
    unfold read_lfh
    rw [read_within _ pre X 30 rfl rfl (show off + 30 ≤ pre.length by omega)]
    simp only [Prod.mk.injEq]
    refine ⟨rfl, ?_⟩
    rw [overlay_full _ _ (by
      rw [lfh_bytes_length]
      show 30 ≤ ((pre.drop off).take 30).length
      rw [List.length_take, List.length_drop]; omega)]
    rfl
  have h2 := read_buffer_within { data := pre ++ X, pos := off + 30, fail := false } pre X
    (LocalFileHeader.ofBytes ((pre.drop off).take 30)).filenameLength rfl rfl
    (show off + 30 + _ ≤ pre.length by omega)
  have h3 := read_buffer_within
    { data := pre ++ X,
      pos := off + 30 + (LocalFileHeader.ofBytes ((pre.drop off).take 30)).filenameLength,
      fail := false } pre X
    (LocalFileHeader.ofBytes ((pre.drop off).take 30)).compressedSize rfl rfl
    (show off + 30 + _ + _ ≤ pre.length by omega)
  simp only [EntryRead.view, read_entry, hoff, h1, h2, h3, header_view]

theorem walk_directory (u : Indeterminate) (pre X : Bytes)
    (d : List (CentralDirectoryHeader × Bytes)) (n i : Nat) (s : IStream) (post : Bytes)
    (hf : s.fail = false) (hd : s.data.drop s.pos = directory_bytes d ++ post)
    (hn : n ≤ d.length) (hres : ∀ x ∈ d, Resolves pre x) :
    (walk u (pre ++ X) n i s).map EntryRead.view
      = (d.take n).map (fun x => header_view pre (x.1.localHeaderOffset % 2 ^ 32)) := by
  induction d generalizing n i s with
  | nil =>
    have : n = 0 := by simpa using hn
    subst this
    rfl
  | cons x rest ih =>
    cases n with
    | zero => rfl
    | succ k =>
      obtain ⟨hname, hend⟩ := hres x (List.mem_cons_self _ _)
      have hd0 : s.data.drop s.pos = x.1.bytes ++ (x.2 ++ (directory_bytes rest ++ post)) := by
        rw [hd, directory_bytes]
        simp only [List.append_assoc]
      have h1 : read_cdh u i s = ({ s with pos := s.pos + 46 }, x.1.narrow) :=
        read_cdh_exact u i s x.1 _ hf hd0
      have hd1 : s.data.drop (s.pos + 46) = x.2 ++ (directory_bytes rest ++ post) := by
        have := drop_past s.data s.pos x.1.bytes _ hd0
        rwa [cdh_bytes_length] at this
      have hfl : x.1.narrow.filenameLength = x.2.length := hname.symm
      have h2 : read_buffer { s with pos := s.pos + 46 } x.2.length
          = ({ s with pos := s.pos + 46 + x.2.length }, x.2) := by
        rw [read_buffer_take { s with pos := s.pos + 46 } _ x.2 _ hf hd1 (Nat.le_refl _),
          List.take_length]
      have hd2 := drop_past s.data (s.pos + 46) x.2 _ hd1
      have hview := view_within u pre X i s (x.1.localHeaderOffset % 2 ^ 32)
        (by rw [h1]; rfl) hend
      have hnext : (read_entry u (pre ++ X) i s).next
          = { s with pos := s.pos + 46 + x.2.length } := by
        show (read_buffer (read_cdh u i s).1 (read_cdh u i s).2.filenameLength).1 = _
        rw [h1]
        simp only [hfl, h2]
      have hrest := ih k (i + 1) { s with pos := s.pos + 46 + x.2.length } hf hd2
        (by simpa using hn) (fun y hy => hres y (List.mem_cons_of_mem _ hy))
      simp only [walk, seekg_tellg, List.map_cons, hview, hnext, hrest, List.take_succ_cons]

theorem drop_to_last_22 (front post : Bytes) (h : 22 ≤ post.length) :
    (front ++ post).drop ((front ++ post).length - 22) = post.drop (post.length - 22) := by
  have : (front ++ post).length - 22 = front.length + (post.length - 22) := by
    rw [List.length_append]; omega
  rw [this, ← List.drop_drop, List.drop_left]

theorem outcome_of_files (g : Flags) (c : Codec) (outdir : Bytes)
    (vs : List (LocalFileHeader × Bytes × Bytes)) :
    (outcome_of g c outdir vs).files
      = vs.map (fun v => (outdir ++ slash ++ v.2.1, (write_payload c v.1 v.2.2).written)) := by
  induction vs with
  | nil => rfl
  | cons v rest ih => simp only [outcome_of, List.map_cons, ih]

/-- What `extract_zip` does on a file made of a first part `pre` that starts with the
prefix, a directory section whose entries lead into `pre`, and a rest that ends with
a terminator pointing at the directory section, when no output stream opens on the
archive file. -/
theorem extract_zip_directory (g : Flags) (c : Codec) (u : Indeterminate) (env : Env)
    (archive outdir pre post : Bytes) (d : List (CentralDirectoryHeader × Bytes))
    (hread : env.readable archive = some (pre ++ directory_bytes d ++ post))
    (hmagic : pre.take 4 = ZIP1) (hpost : 22 ≤ post.length)
    (hoff : (EndOfCentralDirectory.ofBytes (post.drop (post.length - 22))).cdOffset
      = pre.length)
    (hcount : (EndOfCentralDirectory.ofBytes (post.drop (post.length - 22))).entriesTotal
      ≤ d.length)
    (hres : ∀ x ∈ d, Resolves pre x)
    (hq : ∀ x ∈ d,
      (env.creatable
          (outdir ++ slash ++ (header_view pre (x.1.localHeaderOffset % 2 ^ 32)).2.1)
        && env.same (outdir ++ slash ++ (header_view pre (x.1.localHeaderOffset % 2 ^ 32)).2.1)
          archive) = false) :
    extract_zip g c u env archive outdir
      = ExtractOutcome.settle env outdir
          (outcome_of g c outdir
            ((d.take (EndOfCentralDirectory.ofBytes
                (post.drop (post.length - 22))).entriesTotal).map
              (fun x => header_view pre (x.1.localHeaderOffset % 2 ^ 32)))) := by
  have hpre4 : 4 ≤ pre.length := by
    have := congrArg List.length hmagic
    rw [List.length_take] at this
    have h4 : ZIP1.length = 4 := rfl
    omega
  have hm4 : (pre ++ directory_bytes d ++ post).take 4 = ZIP1 := by
    rw [List.append_assoc, List.take_append_of_le_length hpre4, hmagic]
  obtain ⟨hm, he⟩ := read_preamble_any u (pre ++ directory_bytes d ++ post) hm4
    (by rw [List.length_append]; omega)
  rw [drop_to_last_22 _ _ hpost] at he
  refine extract_zip_quiet g c u env archive outdir _ _ hread hm ?_ ?_
  · simp only [hm, he, hoff]
    rw [extract_passes_outcome, List.append_assoc]
    congr 1
    refine walk_directory u pre _ d _ 0 _ post rfl ?_ hcount hres
    have := drop_past (pre ++ (directory_bytes d ++ post)) 0 pre (directory_bytes d ++ post)
      rfl
    simpa only [Nat.zero_add, IStream.seekg_beg, Bool.false_eq_true, if_false] using this
  · intro f hf
    rw [outcome_of_files, List.mem_map] at hf
    obtain ⟨v, hv, rfl⟩ := hf
    rw [List.mem_map] at hv
    obtain ⟨x, hx, rfl⟩ := hv
    exact hq x (List.mem_of_mem_take hx)

theorem sameTarget_views (pre : Bytes) (dA dB : List (CentralDirectoryHeader × Bytes))
    (h : List.Forall₂ SameTarget dA dB) (n : Nat) :
    (dA.take n).map (fun x => header_view pre (x.1.localHeaderOffset % 2 ^ 32))
      = (dB.take n).map (fun x => header_view pre (x.1.localHeaderOffset % 2 ^ 32)) := by
  induction h generalizing n with
  | nil => rfl
  | cons hab _ ih =>
    cases n with
    | zero => rfl
    | succ k =>
      simp only [List.take_succ_cons, List.map_cons, ih k, hab.2.1]

theorem sameTarget_resolves (pre : Bytes) (dA dB : List (CentralDirectoryHeader × Bytes))
    (h : List.Forall₂ SameTarget dA dB) (hres : ∀ x ∈ dA, Resolves pre x) :
    ∀ x ∈ dB, Resolves pre x := by
  induction h with
  | nil => intro x hx; simp at hx
  | cons hab _ ih =>
    intro x hx
    rcases List.mem_cons.mp hx with hx | hx
    · subst hx
      obtain ⟨h1, h2⟩ := hres _ (List.mem_cons_self _ _)
      obtain ⟨s1, s2, s3⟩ := hab
      exact ⟨by rw [← s3, h1, s1], by rw [← s2]; exact h2⟩
    · exact ih (fun y hy => hres y (List.mem_cons_of_mem _ hy)) x hx

theorem sameTarget_quiet (P : Nat → Prop) (dA dB : List (CentralDirectoryHeader × Bytes))
    (h : List.Forall₂ SameTarget dA dB)
    (hq : ∀ x ∈ dA, P (x.1.localHeaderOffset % 2 ^ 32)) :
    ∀ x ∈ dB, P (x.1.localHeaderOffset % 2 ^ 32) := by
  induction h with
  | nil => intro x hx; simp at hx
  | cons hab _ ih =>
    intro x hx
    rcases List.mem_cons.mp hx with hx | hx
    · subst hx
      rw [← hab.2.1]
      exact hq _ (List.mem_cons_self _ _)
    · exact ih (fun y hy => hq y (List.mem_cons_of_mem _ hy)) x hx

/-- C14, as stated, fails: the one directory entry of `selfPointing b` has a
`localHeaderOffset` that points at its own name, so that the entry header found
there is made of the first 30 bytes of the name, the name read after it is the byte
`x` that follows and the payload is the byte `b` after that.  The archives
`selfPointing 7` and `selfPointing 9` differ only in that last byte of the name of
the directory entry (same `filenameLength`, same `localHeaderOffset`), and
`extract_zip` writes the file `o/x` with the byte `7` for the one and with the byte
`9` for the other. -/
theorem name_byte_changes_the_output :
    (selfPointing 7).take 81 = (selfPointing 9).take 81 ∧
    (selfPointing 7).drop 82 = (selfPointing 9).drop 82 ∧
    (read_entry zeroed (selfPointing 7) 0 ((IStream.ofFile (selfPointing 7)).seekg_beg 4)).cdh
      = { filenameLength := 32, localHeaderOffset := 50 } ∧
    (read_entry zeroed (selfPointing 9) 0 ((IStream.ofFile (selfPointing 9)).seekg_beg 4)).cdh
      = { filenameLength := 32, localHeaderOffset := 50 } ∧
    extract_zip {} noCodec zeroed (holding (selfPointing 7)) [122] [111]
      = { cerr := [], cout := [], dirs := [[111]], files := [([111, 47, 120], [7])] } ∧
    extract_zip {} noCodec zeroed (holding (selfPointing 9)) [122] [111]
      = { cerr := [], cout := [], dirs := [[111]], files := [([111, 47, 120], [9])] } := by
  refine ⟨by decide, by decide, by decide, by decide, by decide, by decide⟩

/-- C14 (amended): the entry header is authoritative on extraction.  Take an archive
made of a first part `pre` that starts with `ZIP1`, a directory section `dA`
(directory entries with their names, each name of `filenameLength` bytes) and a rest
`post` that ends with a terminator pointing at the directory section, every
directory entry leading to an entry that lies within `pre`, and a run in which no
output stream opens on the archive file.  What `extract_zip` prints, creates and
writes is a function of the entries found in `pre` at the `localHeaderOffset`s (of
their headers, names and payloads) and of what the file system lets it create.  A
second archive in the place of the first, in a file system that is otherwise the
same, that differs from it only inside the directory entries and their names, with
every `filenameLength` and `localHeaderOffset` kept, extracts to the same outcome. -/
theorem entry_header_is_authoritative (g : Flags) (c : Codec) (u : Indeterminate)
    (envA envB : Env) (archive outdir pre post : Bytes)
    (dA dB : List (CentralDirectoryHeader × Bytes))
    (henv : envB = { envA with readable := envB.readable })
    (hA : envA.readable archive = some (pre ++ directory_bytes dA ++ post))
    (hB : envB.readable archive = some (pre ++ directory_bytes dB ++ post))
    (hmagic : pre.take 4 = ZIP1) (hpost : 22 ≤ post.length)
    (hoff : (EndOfCentralDirectory.ofBytes (post.drop (post.length - 22))).cdOffset
      = pre.length)
    (hcount : (EndOfCentralDirectory.ofBytes (post.drop (post.length - 22))).entriesTotal
      ≤ dA.length)
    (hres : ∀ x ∈ dA, Resolves pre x)
    (hq : ∀ x ∈ dA,
      (envA.creatable
          (outdir ++ slash ++ (header_view pre (x.1.localHeaderOffset % 2 ^ 32)).2.1)
        && envA.same
          (outdir ++ slash ++ (header_view pre (x.1.localHeaderOffset % 2 ^ 32)).2.1)
          archive) = false)
    (hsame : List.Forall₂ SameTarget dA dB) :
    extract_zip g c u envA archive outdir
      = ExtractOutcome.settle envA outdir
          (outcome_of g c outdir
            ((dA.take (EndOfCentralDirectory.ofBytes
                (post.drop (post.length - 22))).entriesTotal).map
              (fun x => header_view pre (x.1.localHeaderOffset % 2 ^ 32)))) ∧
    extract_zip g c u envB archive outdir = extract_zip g c u envA archive outdir := by
  have h1 := extract_zip_directory g c u envA archive outdir pre post
    dA hA hmagic hpost hoff hcount hres hq
  have h2 := extract_zip_directory g c u { envA with readable := envB.readable } archive
    outdir pre post dB hB hmagic hpost hoff (by rw [← hsame.length_eq]; exact hcount)
    (sameTarget_resolves pre dA dB hsame hres)
    (sameTarget_quiet
      (fun off => (envA.creatable (outdir ++ slash ++ (header_view pre off).2.1)
        && envA.same (outdir ++ slash ++ (header_view pre off).2.1) archive) = false)
      dA dB hsame hq)
  rw [← henv] at h2
  refine ⟨h1, ?_⟩
  rw [h1, h2, sameTarget_views pre dA dB hsame, henv]
  rfl

/-- Witness for C14 (amended): the archive stored from `a` and `b`, and the same
archive with forged names, methods, sizes and checksums in its two directory
entries. -/
theorem entry_header_is_authoritative_witness :
    extract_zip {} noCodec zeroed
        (holding (twoEntriesFront ++ directory_bytes twoEntriesDirectory
          ++ (terminator_of [entryA, smallEntry]).bytes)) [122] [111]
      = ExtractOutcome.settle
          (holding (twoEntriesFront ++ directory_bytes twoEntriesDirectory
            ++ (terminator_of [entryA, smallEntry]).bytes)) [111]
          (outcome_of {} noCodec [111]
            ((twoEntriesDirectory.take (EndOfCentralDirectory.ofBytes
                ((terminator_of [entryA, smallEntry]).bytes.drop
                  ((terminator_of [entryA, smallEntry]).bytes.length - 22))).entriesTotal).map
              (fun x => header_view twoEntriesFront (x.1.localHeaderOffset % 2 ^ 32)))) ∧
    extract_zip {} noCodec zeroed
        (holding (twoEntriesFront ++ directory_bytes twoEntriesDirectoryForged
          ++ (terminator_of [entryA, smallEntry]).bytes)) [122] [111]
      = extract_zip {} noCodec zeroed
          (holding (twoEntriesFront ++ directory_bytes twoEntriesDirectory
            ++ (terminator_of [entryA, smallEntry]).bytes)) [122] [111] :=
  entry_header_is_authoritative {} noCodec zeroed _ _ [122] [111] twoEntriesFront
    (terminator_of [entryA, smallEntry]).bytes twoEntriesDirectory twoEntriesDirectoryForged
    rfl rfl rfl (by decide) (by decide) (by decide) (by decide)
    (by
      intro x hx
      simp only [twoEntriesDirectory, List.mem_cons, List.mem_singleton, List.not_mem_nil,
        or_false] at hx
      rcases hx with hx | hx <;> subst hx <;> exact ⟨by decide, by decide⟩)
    (by
      intro x hx
      simp only [twoEntriesDirectory, List.mem_cons, List.mem_singleton, List.not_mem_nil,
        or_false] at hx
      rcases hx with hx | hx <;> subst hx <;> decide)
    (List.Forall₂.cons ⟨rfl, rfl, rfl⟩ (List.Forall₂.cons ⟨rfl, rfl, rfl⟩ List.Forall₂.nil))

/-! ## Sizes and errors on extraction -/

theorem read_length_le (s : IStream) (n : Nat) : (s.read n).2.length ≤ n := by
  unfold IStream.read
  split
  · simp
  · simp only
    split <;> simp only [List.length_take] <;> omega

theorem read_buffer_length (s : IStream) (n : Nat) : (read_buffer s n).2.length = n := by
  have := read_length_le s n
  unfold read_buffer overlay
  simp only [List.length_append, List.length_drop, List.length_replicate]
  omega

theorem dec_buffer_length (cap : Nat) (stored : Bytes) : (dec_buffer cap stored).length = cap := by
  unfold dec_buffer overlay
  simp only [List.length_take, List.length_append, List.length_drop, List.length_replicate]
  omega

theorem passes_length (c : Codec) (u : Indeterminate) (env : Env) (archive outdir : Bytes)
    (hd : env.makes_dir outdir = true) (n i : Nat) (content : Bytes) (s : IStream) :
    (passes c u env archive outdir n i content s).length = n := by
  induction n generalizing i content s with
  | zero => rfl
  | succ k ih =>
    simp only [passes, hd, Bool.not_true, Bool.false_eq_true, if_false, List.length_cons, ih]

theorem passes_data_length (c : Codec) (u : Indeterminate) (env : Env)
    (archive outdir : Bytes) (n i : Nat) (content : Bytes) (s : IStream) :
    ∀ r ∈ passes c u env archive outdir n i content s,
      r.data.length = r.lfh.compressedSize := by
  induction n generalizing i content s with
  | zero => intro r hr; simp [passes] at hr
  | succ k ih =>
    intro r hr
    simp only [passes] at hr
    have h0 : (read_entry u content i s).data.length
        = (read_entry u content i s).lfh.compressedSize := read_buffer_length _ _
    split at hr
    · simp only [List.mem_singleton] at hr
      rw [hr]; exact h0
    · rcases List.mem_cons.mp hr with hr | hr
      · rw [hr]; exact h0
      · exact ih _ _ _ r hr

theorem extract_loop_cerr_passes (g : Flags) (c : Codec) (u : Indeterminate) (env : Env)
    (archive outdir : Bytes) (hd : env.makes_dir outdir = true) (n i : Nat)
    (content : Bytes) (s : IStream) :
    (extract_loop g c u env archive outdir n i content s).cerr
      = ((passes c u env archive outdir n i content s).map
          (fun r => (write_payload c r.lfh r.data).cerr)).flatten := by
  induction n generalizing i content s with
  | zero => rfl
  | succ k ih =>
    simp only [extract_loop, passes, hd, Bool.not_true, Bool.false_eq_true, if_false,
      List.map_cons, List.flatten_cons, ih]

theorem extract_loop_files_passes (g : Flags) (c : Codec) (u : Indeterminate) (env : Env)
    (archive outdir : Bytes) (hd : env.makes_dir outdir = true) (n i : Nat)
    (content : Bytes) (s : IStream) :
    (extract_loop g c u env archive outdir n i content s).files
      = (passes c u env archive outdir n i content s).filterMap
          (fun r => if env.creatable (outdir ++ slash ++ r.fname2) then
            some (outdir ++ slash ++ r.fname2, (write_payload c r.lfh r.data).written)
            else none) := by
  induction n generalizing i content s with
  | zero => rfl
  | succ k ih =>
    simp only [extract_loop, passes, hd, Bool.not_true, Bool.false_eq_true, if_false,
      List.filterMap_cons, ih]
    cases env.creatable (outdir ++ slash ++ (read_entry u content i s).fname2) <;> rfl

theorem extract_loop_unopened_passes (g : Flags) (c : Codec) (u : Indeterminate) (env : Env)
    (archive outdir : Bytes) (hd : env.makes_dir outdir = true) (n i : Nat)
    (content : Bytes) (s : IStream) :
    (extract_loop g c u env archive outdir n i content s).unopened
      = (passes c u env archive outdir n i content s).filterMap
          (fun r => if env.creatable (outdir ++ slash ++ r.fname2) then none
            else some (outdir ++ slash ++ r.fname2)) := by
  induction n generalizing i content s with
  | zero => rfl
  | succ k ih =>
    simp only [extract_loop, passes, hd, Bool.not_true, Bool.false_eq_true, if_false,
      List.filterMap_cons, ih]
    cases env.creatable (outdir ++ slash ++ (read_entry u content i s).fname2) <;> rfl

/-- C15, as stated, fails: the one entry of `sizeMismatch` is stored (method 0) with
`compressedSize` 3 and `uncompressedSize` 5; `extract_zip` writes its 3 payload bytes
and reports no error. -/
theorem stored_size_mismatch_goes_unnoticed :
    (read_entry zeroed sizeMismatch 0 ((IStream.ofFile sizeMismatch).seekg_beg 38)).lfh
      = { filenameLength := 1, compression := 0, compressedSize := 3, uncompressedSize := 5 } ∧
    extract_zip {} noCodec zeroed (holding sizeMismatch) [122] [111]
      = { cerr := [], cout := [], dirs := [[111]], files := [([111, 47, 120], [1, 2, 3])] } := by
  constructor <;> decide

/-- C15 (amended): what extraction does with the sizes.  For every archive and every
pass of the loop: the payload buffer has `compressedSize` bytes as recorded in the
entry header; for method 8 `extract_zip` writes exactly `uncompressedSize` bytes and
reports an error exactly when `uncompress` does not return `Z_OK`; for method 14 it
writes exactly `uncompressedSize` bytes and reports an error exactly when `lzma_code`
does not return `LZMA_STREAM_END`, except that a failed decoder initialisation is
reported and nothing is written; for any other method, stored entries included, it
writes the payload buffer as it is and reports nothing, whatever `uncompressedSize`
says.  No error ends the loop: where `fs::create_directories` returns, `n` passes
are made, each reports what `write_payload` reports for the header and payload it
read, and each puts what `write_payload` writes into its output stream, which
reaches the file when the stream opened. -/
theorem extraction_sizes_and_errors (g : Flags) (c : Codec) (u : Indeterminate) (env : Env)
    (archive outdir content : Bytes) (n i : Nat) (s : IStream) (lfh : LocalFileHeader)
    (data : Bytes) :
    (env.makes_dir outdir = true →
      (passes c u env archive outdir n i content s).length = n ∧
      (extract_loop g c u env archive outdir n i content s).dirs = List.replicate n outdir ∧
      (extract_loop g c u env archive outdir n i content s).thrown = false ∧
      (extract_loop g c u env archive outdir n i content s).cerr
        = ((passes c u env archive outdir n i content s).map
            (fun r => (write_payload c r.lfh r.data).cerr)).flatten ∧
      (extract_loop g c u env archive outdir n i content s).files
        = (passes c u env archive outdir n i content s).filterMap
            (fun r => if env.creatable (outdir ++ slash ++ r.fname2) then
              some (outdir ++ slash ++ r.fname2, (write_payload c r.lfh r.data).written)
              else none) ∧
      (extract_loop g c u env archive outdir n i content s).unopened
        = (passes c u env archive outdir n i content s).filterMap
            (fun r => if env.creatable (outdir ++ slash ++ r.fname2) then none
              else some (outdir ++ slash ++ r.fname2))) ∧
    (∀ r ∈ passes c u env archive outdir n i content s,
      r.data.length = r.lfh.compressedSize) ∧
    (read_entry u content i s).data.length = (read_entry u content i s).lfh.compressedSize ∧
    (write_payload c lfh data).written.length
      = (if lfh.compression = 8 then lfh.uncompressedSize
         else if lfh.compression = 14 then
           (if (c.lzma_decode data lfh.uncompressedSize).isSome then lfh.uncompressedSize else 0)
         else data.length) ∧
    ((write_payload c lfh data).cerr = [] ↔
      (if lfh.compression = 8 then (c.uncompress data lfh.uncompressedSize).1 = true
       else if lfh.compression = 14 then
         ∃ w, c.lzma_decode data lfh.uncompressedSize = some (true, w)
       else True)) ∧
    (lfh.compression ≠ 8 → lfh.compression ≠ 14 →
      write_payload c lfh data = { cerr := [], written := data, completed := true }) := by
  refine ⟨fun hd => ⟨passes_length c u env archive outdir hd n i content s,
      (extract_loop_count g c u env archive outdir n i content s hd).1,
      (extract_loop_count g c u env archive outdir n i content s hd).2.2,
      extract_loop_cerr_passes g c u env archive outdir hd n i content s,
      extract_loop_files_passes g c u env archive outdir hd n i content s,
      extract_loop_unopened_passes g c u env archive outdir hd n i content s⟩,
    passes_data_length c u env archive outdir n i content s,
    read_buffer_length _ _, ?_, ?_, ?_⟩
  · unfold write_payload
    split
    · exact dec_buffer_length _ _
    · split
      · cases h : c.lzma_decode data lfh.uncompressedSize with
        | none => simp
        | some r => simp [dec_buffer_length]
      · rfl
  · unfold write_payload
    split
    · cases h : (c.uncompress data lfh.uncompressedSize).1 <;> simp [h]
    · split
      · cases h : c.lzma_decode data lfh.uncompressedSize with
        | none => simp
        | some r =>
          obtain ⟨b, w⟩ := r
          cases b <;> simp
      · simp
  · intro h8 h14
    simp [write_payload, h8, h14]

/-- Witness for C15 (amended): the one pass over `sizeMismatch`, extracted into `o`. -/
theorem extraction_sizes_and_errors_witness :
    (passes noCodec zeroed (holding sizeMismatch) [122] [111] 1 0 sizeMismatch
        ((IStream.ofFile sizeMismatch).seekg_beg 38)).length = 1 ∧
    (extract_loop {} noCodec zeroed (holding sizeMismatch) [122] [111] 1 0 sizeMismatch
        ((IStream.ofFile sizeMismatch).seekg_beg 38)).dirs = List.replicate 1 [111] ∧
    (extract_loop {} noCodec zeroed (holding sizeMismatch) [122] [111] 1 0 sizeMismatch
        ((IStream.ofFile sizeMismatch).seekg_beg 38)).thrown = false ∧
    (extract_loop {} noCodec zeroed (holding sizeMismatch) [122] [111] 1 0 sizeMismatch
        ((IStream.ofFile sizeMismatch).seekg_beg 38)).cerr
      = ((passes noCodec zeroed (holding sizeMismatch) [122] [111] 1 0 sizeMismatch
            ((IStream.ofFile sizeMismatch).seekg_beg 38)).map
          (fun r => (write_payload noCodec r.lfh r.data).cerr)).flatten ∧
    (extract_loop {} noCodec zeroed (holding sizeMismatch) [122] [111] 1 0 sizeMismatch
        ((IStream.ofFile sizeMismatch).seekg_beg 38)).files
      = (passes noCodec zeroed (holding sizeMismatch) [122] [111] 1 0 sizeMismatch
            ((IStream.ofFile sizeMismatch).seekg_beg 38)).filterMap
          (fun r => if (holding sizeMismatch).creatable ([111] ++ slash ++ r.fname2) then
            some ([111] ++ slash ++ r.fname2, (write_payload noCodec r.lfh r.data).written)
            else none) ∧
    (extract_loop {} noCodec zeroed (holding sizeMismatch) [122] [111] 1 0 sizeMismatch
        ((IStream.ofFile sizeMismatch).seekg_beg 38)).unopened
      = (passes noCodec zeroed (holding sizeMismatch) [122] [111] 1 0 sizeMismatch
            ((IStream.ofFile sizeMismatch).seekg_beg 38)).filterMap
          (fun r => if (holding sizeMismatch).creatable ([111] ++ slash ++ r.fname2) then none
            else some ([111] ++ slash ++ r.fname2)) :=
  (extraction_sizes_and_errors {} noCodec zeroed (holding sizeMismatch) [122] [111]
    sizeMismatch 1 0 ((IStream.ofFile sizeMismatch).seekg_beg 38) { filenameLength := 0 }
    []).1 rfl

/-! ## The checksum on extraction -/

theorem outcome_of_sameButChecksum (g : Flags) (c : Codec) (outdir : Bytes)
    (L : List (CentralDirectoryHeader × Bytes))
    (fA fB : CentralDirectoryHeader × Bytes → LocalFileHeader × Bytes × Bytes)
    (h : ∀ x ∈ L, SameButChecksum (fA x) (fB x)) :
    outcome_of g c outdir (L.map fB) = outcome_of g c outdir (L.map fA) := by
  induction L with
  | nil => rfl
  | cons x rest ih =>
    obtain ⟨h1, h2⟩ := h x (List.mem_cons_self _ _)
    have hp : ∀ data, write_payload c (fB x).1 data = write_payload c (fA x).1 data := by
      intro data
      rw [← h1]
      rfl
    simp only [List.map_cons, outcome_of, hp, h2,
      ih (fun y hy => h y (List.mem_cons_of_mem _ hy))]

/-- C20, as stated, fails: the archives `overlapping 0` and `overlapping 3` differ only
in the four bytes of the checksum field of the entry header at offset 4.  Their
second directory entry leads to offset 0, where the header found has those four
bytes as its `compressedSize`; `extract_zip` writes for it a file of no byte from
the one archive and a file of three bytes from the other. -/
theorem checksum_bytes_change_the_output :
    (overlapping 0).take 18 = (overlapping 3).take 18 ∧
    (overlapping 0).drop 22 = (overlapping 3).drop 22 ∧
    LocalFileHeader.ofBytes (((overlapping 0).drop 4).take 30) = { entryA.lfh with crc32 := 0 } ∧
    LocalFileHeader.ofBytes (((overlapping 3).drop 4).take 30) = { entryA.lfh with crc32 := 3 } ∧
    extract_zip {} noCodec zeroed (holding (overlapping 0)) [122] [111]
      = { cerr := [], cout := [], dirs := [[111], [111]],
          files := [([111, 47, 97], [1, 2, 3]), ([111, 47, 1, 0, 0], [])] } ∧
    extract_zip {} noCodec zeroed (holding (overlapping 3)) [122] [111]
      = { cerr := [], cout := [], dirs := [[111], [111]],
          files := [([111, 47, 97], [1, 2, 3]), ([111, 47, 1, 0, 0], [0, 97, 1])] } := by
  refine ⟨by decide, by decide, by decide, by decide, by decide, by decide⟩

/-- C20 (amended): the checksum is never verified on extraction.  A pass never looks
at the checksum field: lines 214-231 give the same for every value in it, and for a
stored entry they write the payload bytes as found and report nothing, whatever the
recorded checksum.  Take two archives, one in the place of the other in a file
system that is otherwise the same, with the same directory section and the same rest
after it (ending with a terminator that points at the directory section), whose
first parts `preA` and `preB` start with `ZIP1`, have the same length and hold, at
every `localHeaderOffset` of the directory, entries that lie within them and are the
same but for the checksum field of their headers; and take a run in which no output
stream opens on the archive file.  Then `extract_zip` prints, creates and writes the
same for both. -/
theorem checksum_is_not_verified (g : Flags) (c : Codec) (u : Indeterminate)
    (envA envB : Env) (archive outdir preA preB post : Bytes)
    (d : List (CentralDirectoryHeader × Bytes))
    (henv : envB = { envA with readable := envB.readable })
    (hA : envA.readable archive = some (preA ++ directory_bytes d ++ post))
    (hB : envB.readable archive = some (preB ++ directory_bytes d ++ post))
    (hmagicA : preA.take 4 = ZIP1) (hmagicB : preB.take 4 = ZIP1)
    (hlen : preB.length = preA.length) (hpost : 22 ≤ post.length)
    (hoff : (EndOfCentralDirectory.ofBytes (post.drop (post.length - 22))).cdOffset
      = preA.length)
    (hcount : (EndOfCentralDirectory.ofBytes (post.drop (post.length - 22))).entriesTotal
      ≤ d.length)
    (hresA : ∀ x ∈ d, Resolves preA x) (hresB : ∀ x ∈ d, Resolves preB x)
    (hviews : ∀ x ∈ d, SameButChecksum
      (header_view preA (x.1.localHeaderOffset % 2 ^ 32))
      (header_view preB (x.1.localHeaderOffset % 2 ^ 32)))
    (hq : ∀ x ∈ d,
      (envA.creatable
          (outdir ++ slash ++ (header_view preA (x.1.localHeaderOffset % 2 ^ 32)).2.1)
        && envA.same
          (outdir ++ slash ++ (header_view preA (x.1.localHeaderOffset % 2 ^ 32)).2.1)
          archive) = false) :
    extract_zip g c u envB archive outdir = extract_zip g c u envA archive outdir ∧
    extract_zip g c u envB archive outdir
      = ExtractOutcome.settle envA outdir
          (outcome_of g c outdir
            ((d.take (EndOfCentralDirectory.ofBytes
                (post.drop (post.length - 22))).entriesTotal).map
              (fun x => header_view preA (x.1.localHeaderOffset % 2 ^ 32)))) ∧
    (∀ (lfh : LocalFileHeader) (data : Bytes) (k : Nat),
      write_payload c { lfh with crc32 := k } data = write_payload c lfh data) ∧
    (∀ (lfh : LocalFileHeader) (data : Bytes) (k : Nat),
      write_payload c { lfh with compression := 0, crc32 := k } data
        = { cerr := [], written := data, completed := true }) := by
  have h1 := extract_zip_directory g c u envA archive outdir preA post d hA hmagicA hpost
    hoff hcount hresA hq
  have hqB : ∀ x ∈ d,
      (envA.creatable
          (outdir ++ slash ++ (header_view preB (x.1.localHeaderOffset % 2 ^ 32)).2.1)
        && envA.same
          (outdir ++ slash ++ (header_view preB (x.1.localHeaderOffset % 2 ^ 32)).2.1)
          archive) = false := by
    intro x hx
    have hv := (hviews x hx).2
    have : (header_view preB (x.1.localHeaderOffset % 2 ^ 32)).2.1
        = (header_view preA (x.1.localHeaderOffset % 2 ^ 32)).2.1 := by rw [hv]
    rw [this]
    exact hq x hx
  have h2 := extract_zip_directory g c u { envA with readable := envB.readable } archive
    outdir preB post d hB hmagicB hpost (by rw [hlen]; exact hoff) hcount hresB hqB
  rw [← henv] at h2
  have h3 := outcome_of_sameButChecksum g c outdir
    (d.take (EndOfCentralDirectory.ofBytes (post.drop (post.length - 22))).entriesTotal)
    (fun x => header_view preA (x.1.localHeaderOffset % 2 ^ 32))
    (fun x => header_view preB (x.1.localHeaderOffset % 2 ^ 32))
    (fun x hx => hviews x (List.mem_of_mem_take hx))
  have h4 : extract_zip g c u envB archive outdir
      = ExtractOutcome.settle envA outdir
          (outcome_of g c outdir
            ((d.take (EndOfCentralDirectory.ofBytes
                (post.drop (post.length - 22))).entriesTotal).map
              (fun x => header_view preA (x.1.localHeaderOffset % 2 ^ 32)))) := by
    rw [h2, h3, henv]
    rfl
  exact ⟨by rw [h4, h1], h4, fun _ _ _ => rfl, fun _ _ _ => rfl⟩

/-- Witness for C20 (amended): the archive stored from `a` and `b`, whose first entry
is stored with content `1, 2, 3` (sum 6), and the same archive with 999 in the
checksum field of the header of `a`. -/
theorem checksum_is_not_verified_witness :
    extract_zip {} noCodec zeroed
        (holding (twoEntriesFrontForged ++ directory_bytes twoEntriesDirectory
          ++ (terminator_of [entryA, smallEntry]).bytes)) [122] [111]
      = extract_zip {} noCodec zeroed
          (holding (twoEntriesFront ++ directory_bytes twoEntriesDirectory
            ++ (terminator_of [entryA, smallEntry]).bytes)) [122] [111] ∧
    extract_zip {} noCodec zeroed
        (holding (twoEntriesFrontForged ++ directory_bytes twoEntriesDirectory
          ++ (terminator_of [entryA, smallEntry]).bytes)) [122] [111]
      = ExtractOutcome.settle
          (holding (twoEntriesFront ++ directory_bytes twoEntriesDirectory
            ++ (terminator_of [entryA, smallEntry]).bytes)) [111]
          (outcome_of {} noCodec [111]
            ((twoEntriesDirectory.take (EndOfCentralDirectory.ofBytes
                ((terminator_of [entryA, smallEntry]).bytes.drop
                  ((terminator_of [entryA, smallEntry]).bytes.length - 22))).entriesTotal).map
              (fun x => header_view twoEntriesFront (x.1.localHeaderOffset % 2 ^ 32)))) ∧
    (∀ (lfh : LocalFileHeader) (data : Bytes) (k : Nat),
      write_payload noCodec { lfh with crc32 := k } data = write_payload noCodec lfh data) ∧
    (∀ (lfh : LocalFileHeader) (data : Bytes) (k : Nat),
      write_payload noCodec { lfh with compression := 0, crc32 := k } data
        = { cerr := [], written := data, completed := true }) :=
  checksum_is_not_verified {} noCodec zeroed _ _ [122] [111] twoEntriesFront
    twoEntriesFrontForged (terminator_of [entryA, smallEntry]).bytes twoEntriesDirectory
    rfl rfl rfl (by decide) (by decide) (by decide) (by decide) (by decide) (by decide)
    (by
      intro x hx
      simp only [twoEntriesDirectory, List.mem_cons, List.mem_singleton, List.not_mem_nil,
        or_false] at hx
      rcases hx with hx | hx <;> subst hx <;> exact ⟨by decide, by decide⟩)
    (by
      intro x hx
      simp only [twoEntriesDirectory, List.mem_cons, List.mem_singleton, List.not_mem_nil,
        or_false] at hx
      rcases hx with hx | hx <;> subst hx <;> exact ⟨by decide, by decide⟩)
    (by
      intro x hx
      simp only [twoEntriesDirectory, List.mem_cons, List.mem_singleton, List.not_mem_nil,
        or_false] at hx
      rcases hx with hx | hx <;> subst hx <;> exact ⟨by decide, by decide⟩)
    (by
      intro x hx
      simp only [twoEntriesDirectory, List.mem_cons, List.mem_singleton, List.not_mem_nil,
        or_false] at hx
      rcases hx with hx | hx <;> subst hx <;> decide)

/-! ## Mode selection -/

/-- C18 fails on the code when two modes are selected.  With `argv = zip++ -ctf z a`
the option scan sets both `create` and `list`, takes `z` as the archive and `a` as an
input; lines 276-286 test `create` first and never look at the other two, so `main`
runs `create_zip_store` on `z` and returns 0 where the claim has a usage error, exit
code 1 and no operation.  The same holds for `-cx` and for `-tx` (list runs).  The
other pair of options that exclude each other, `-z` and `-l`, is refused on line
113. -/
theorem two_modes_run_an_operation :
    parse_args [[45, 99, 116, 102], [122], [97]] 0 {}
      = .ok { create := true, list := true, archive := [122], files := [[97]] } ∧
    main noCodec zeroed oneEmptyFile [[122, 105, 112], [45, 99, 116, 102], [122], [97]]
      = { cerr := [], version := false,
          ran := some (.create (create_zip_store {} noCodec oneEmptyFile [122] [[97]])),
          exit := some 0 } ∧
    (create_zip_store {} noCodec oneEmptyFile [122] [[97]]).archive.map List.length
      = some 104 ∧
    main noCodec zeroed oneEmptyFile [[122, 105, 112], [45, 99, 120, 102], [122], [97]]
      = { cerr := [], version := false,
          ran := some (.create (create_zip_store {} noCodec oneEmptyFile [122] [[97]])),
          exit := some 0 } ∧
    main noCodec zeroed oneEmptyFile [[122, 105, 112], [45, 116, 120, 102], [97]]
      = { cerr := [], version := false,
          ran := some (.list (list_zip zeroed oneEmptyFile [97])),
          exit := some 0 } ∧
    main noCodec zeroed oneEmptyFile [[122, 105, 112], [45, 99, 122, 108, 102], [122], [97]]
      = { cerr := [], version := false,
          ran := some (.create
            { cerr := [.bothCodecs], cout := [], opened := [], archive := none,
              thrown := none }),
          exit := some 0 } := by
  exact ⟨rfl, by decide, by decide, by decide, by decide, by decide⟩

end ZipPP
